import Mathlib

/-!
Connection state machine of `src/include/fsm_impl.hpp`

A shallow embedding of `fsm_state_t<io_calls_t, alloc_t>`: the per-connection
state, the Read Pump (`do_socket_ready`), the Write Pump
(`send_msg_to_client`), the Error Responder (`send_err_to_client`), the
resumption path (`do_socket_send_incomplete`) and the dispatcher
(`do_transition`).

The collaborators are explicit:

* the socket and the command processor are a `script`: the results that the
  successive calls of `io_calls_t::read`, `io_calls_t::write` and
  `operations->process_command` deliver, in call order.  A call that finds
  its list empty stops the run with `fault.script_exhausted`;
* the allocator and the socket's output are the `io_world`: a log of every
  external call, the bytes the socket accepted, and a counter for buffer
  identities;
* `check(msg, cond)` with a true condition, and a failed `assert`, stop the
  run with a `fault`; so does an access outside the `IO_BUFFER_SIZE` bytes of
  the buffer (undefined behaviour in the source).

`IO_BUFFER_SIZE` and the three result codes `transition_ok`,
`quit_connection`, `shutdown_server` are declared in headers outside this
file of the repository; they are parameters (`fsm_consts`).
-/

namespace Fsm

/-- Constants the translation unit takes from other headers: the buffer size
macro and the integer values of the dispatcher's result enumerators. -/
structure fsm_consts where
  IO_BUFFER_SIZE : Nat
  transition_ok : Int
  quit_connection : Int
  shutdown_server : Int

/-- Enumerators of one enumeration have pairwise different values. -/
def fsm_consts.codes_distinct (c : fsm_consts) : Prop :=
  c.transition_ok ≠ c.quit_connection ∧ c.transition_ok ≠ c.shutdown_server ∧
    c.quit_connection ≠ c.shutdown_server

instance (c : fsm_consts) : Decidable c.codes_distinct := by
  unfold fsm_consts.codes_distinct; infer_instance

/-- The state tag `fsm_state_t::state`.  The three enumerators are the only
values the code ever stores, so the `default:` arm of the switch in
`do_transition` has no counterpart. -/
inductive state_t where
  | fsm_socket_connected
  | fsm_socket_recv_incomplete
  | fsm_socket_send_incomplete
  deriving DecidableEq, Repr

/-- The field `event_t::event_type`: a socket event, or any other kind. -/
inductive event_type_t where
  | et_sock
  | et_other
  deriving DecidableEq, Repr

/-- The field `event_t::op`. -/
inductive event_op_t where
  | eo_read
  | eo_write
  | eo_rdwr
  deriving DecidableEq, Repr

/-- The part of `event_t` the state machine looks at.  `event->state` is the
connection itself and is passed separately. -/
structure event_t where
  event_type : event_type_t
  op : event_op_t
  deriving DecidableEq, Repr

/-- Return values of `operations_t::process_command`; `unhandled` stands for
any integer that is none of the six enumerators. -/
inductive operations_t where
  | malformed_command
  | command_success_no_response
  | command_success_response_ready
  | incomplete_command
  | quit_connection
  | shutdown_server
  | unhandled
  deriving DecidableEq, Repr

/-- A buffer obtained from `alloc->malloc`: its identity and its
`IO_BUFFER_SIZE` bytes. -/
structure buffer_t where
  id : Nat
  data : List Char
  deriving DecidableEq, Repr

/-- The data members of `fsm_state_t`; `buf = none` is the NULL pointer. -/
structure fsm_state_t where
  state : state_t
  buf : Option buffer_t
  nbuf : Nat
  snbuf : Nat
  deriving DecidableEq, Repr

/-- What one call of `io_calls_t::read` delivers: `-1` with
`EAGAIN`/`EWOULDBLOCK`, `-1` with another `errno`, or `bytes.length` bytes
(`data []` is the return value 0). -/
inductive read_result where
  | would_block
  | error
  | data (bytes : List Char)
  deriving DecidableEq, Repr

/-- What one call of `io_calls_t::write` delivers: a negative value with
`EAGAIN`/`EWOULDBLOCK`, a negative value with another `errno`, or the
number of bytes the socket took. -/
inductive write_result where
  | would_block
  | error
  | accepted (k : Nat)
  deriving DecidableEq, Repr

/-- What one call of `operations->process_command` does: the verdict it
returns, the bytes it stored at the start of `buf` (none when it left the
buffer alone) and the value of `nbuf` when it returns.  The processor sees
the connection through `buf` and `nbuf` only. -/
structure command_reply where
  res : operations_t
  buf : List Char
  nbuf : Nat
  deriving DecidableEq, Repr

/-- The behaviour of the socket and of the command processor, call by call. -/
structure script where
  reads : List read_result
  writes : List write_result
  commands : List command_reply
  deriving DecidableEq, Repr

/-- One external call, as recorded in the log. -/
inductive io_call where
  | malloc (id : Nat)
  | free (p : Option Nat)
  | read (off : Nat) (len : Int)
  | write (off : Nat) (len : Int)
  | process_command (seen : List Char)
  deriving DecidableEq, Repr

/-- The world outside the connection: the calls made so far (oldest first),
the bytes the socket has accepted, and the identity the next `malloc`
hands out. -/
structure io_world where
  log : List io_call
  sent : List Char
  fresh : Nat
  deriving DecidableEq, Repr

/-- Ways a run stops without returning to the event loop. -/
inductive fault where
  | check_failed
  | assertion_failed
  | memory_fault
  | script_exhausted
  deriving DecidableEq, Repr

/-- Appends one call to the log. -/
def io_world.call (w : io_world) (e : io_call) : io_world :=
  ⟨w.log ++ [e], w.sent, w.fresh⟩

/-- Appends bytes to the socket's output. -/
def io_world.emit (w : io_world) (bytes : List Char) : io_world :=
  ⟨w.log, w.sent ++ bytes, w.fresh⟩

/-- One call of `alloc->malloc`: logged, and the identity counter moves on. -/
def io_world.malloc (w : io_world) : io_world :=
  ⟨w.log ++ [.malloc w.fresh], w.sent, w.fresh + 1⟩

/-- The NUL character. -/
def NUL : Char := Char.ofNat 0

/-- The bytes of a region after `bytes` are written at offset `off`. -/
def poke (data : List Char) (off : Nat) (bytes : List Char) : List Char :=
  data.take off ++ bytes ++ data.drop (off + bytes.length)

/-- Stores `bytes` at offset `off` of the buffer; `none` when the buffer is
NULL or the bytes do not fit. -/
def store (buf : Option buffer_t) (off : Nat) (bytes : List Char) : Option buffer_t :=
  match buf with
  | none => none
  | some b =>
    if off + bytes.length ≤ b.data.length then some ⟨b.id, poke b.data off bytes⟩
    else none

/-- Reads `k` bytes at offset `off` of the buffer; `none` when the range is
not inside the buffer (a NULL buffer has no bytes). -/
def load (buf : Option buffer_t) (off k : Nat) : Option (List Char) :=
  match buf with
  | none => if k = 0 then some [] else none
  | some b => if off + k ≤ b.data.length then some ((b.data.drop off).take k) else none

/-- The body of `fsm_state_t::init_state`. -/
def init_state (_s : fsm_state_t) : fsm_state_t :=
  { state := .fsm_socket_connected, buf := none, nbuf := 0, snbuf := 0 }

/-- The constructor: `init_state()` on a new object. -/
def fsm_state_t.new : fsm_state_t :=
  init_state { state := .fsm_socket_connected, buf := none, nbuf := 0, snbuf := 0 }

/-- The body of `fsm_state_t::return_to_socket_connected`:
`alloc->free(buf); init_state();`. -/
def return_to_socket_connected (s : fsm_state_t) (w : io_world) : fsm_state_t × io_world :=
  (init_state s, w.call (.free (s.buf.map buffer_t.id)))

/-- The destructor: `if(buf) alloc->free(buf);`. -/
def destroy (s : fsm_state_t) (w : io_world) : io_world :=
  match s.buf with
  | some b => w.call (.free (some b.id))
  | none => w

/-- The `do ... while(sz < len)` loop of `send_msg_to_client`, entered with
the local variables `len` and `sz`.  One iteration: `snbuf += sz; len -= sz;
sz = write(source, buf + snbuf, len)`. -/
def send_loop : List write_result → fsm_state_t → io_world → Int → Nat →
    Except fault (fsm_state_t × io_world × List write_result)
  | [], _, _, _, _ => .error .script_exhausted
  | r :: rs, s, w, len, sz =>
    let s1 := { s with snbuf := s.snbuf + sz }
    let len1 := len - (sz : Int)
    let w1 := w.call (.write s1.snbuf len1)
    match r with
    | .would_block => .ok ({ s1 with state := .fsm_socket_send_incomplete }, w1, rs)
    | .error => .error .check_failed
    | .accepted k =>
      match load s1.buf s1.snbuf k with
      | none => .error .memory_fault
      | some bytes =>
        let w2 := w1.emit bytes
        if (k : Int) < len1 then send_loop rs s1 w2 len1 k
        else .ok ({ s1 with snbuf := 0, nbuf := 0, state := .fsm_socket_connected }, w2, rs)

/-- The body of `fsm_state_t::send_msg_to_client`: the entry assertion, then
the send loop with `len = nbuf - snbuf` and `sz = 0`. -/
def send_msg_to_client (ws : List write_result) (s : fsm_state_t) (w : io_world) :
    Except fault (fsm_state_t × io_world × List write_result) :=
  if s.snbuf = 0 ∨ s.state = .fsm_socket_send_incomplete then
    send_loop ws s w ((s.nbuf : Int) - (s.snbuf : Int)) 0
  else .error .assertion_failed

/-- The array `err_msg` of `send_err_to_client` without its terminator. -/
def err_msg : List Char := "(ERROR) Unknown command\n".toList

/-- The body of `fsm_state_t::send_err_to_client`: `strcpy` of the message
and its terminating NUL to the start of the buffer, `nbuf = strlen + 1`,
then the Write Pump. -/
def send_err_to_client (ws : List write_result) (s : fsm_state_t) (w : io_world) :
    Except fault (fsm_state_t × io_world × List write_result) :=
  match store s.buf 0 (err_msg ++ [NUL]) with
  | none => .error .memory_fault
  | some b => send_msg_to_client ws { s with buf := some b, nbuf := err_msg.length + 1 } w

/-- One call of `operations->process_command(event)`: the processor is shown
`buf[0..nbuf)`, may store bytes at the start of `buf`, sets `nbuf`, and
returns its verdict. -/
def process_command (B : Nat) (cs : List command_reply) (s : fsm_state_t) (w : io_world) :
    Except fault (operations_t × fsm_state_t × io_world × List command_reply) :=
  match cs with
  | [] => .error .script_exhausted
  | r :: cs1 =>
    let w1 := w.call (.process_command (((s.buf.map buffer_t.data).getD []).take (min s.nbuf B)))
    match store s.buf 0 r.buf with
    | none => .error .memory_fault
    | some b => .ok (r.res, { s with buf := some b, nbuf := r.nbuf }, w1, cs1)

/-- The `do ... while(1)` loop of `do_socket_ready`; the result is the
function's return value, the connection, the world and what is left of the
script. -/
def read_loop (c : fsm_consts) : List read_result → fsm_state_t → io_world →
    List write_result → List command_reply →
    Except fault (Int × fsm_state_t × io_world × script)
  | [], _, _, _, _ => .error .script_exhausted
  | r :: rs, s, w, ws, cs =>
    let w1 := w.call (.read s.nbuf ((c.IO_BUFFER_SIZE : Int) - (s.nbuf : Int)))
    match r with
    | .would_block =>
      if s.state ≠ .fsm_socket_recv_incomplete then
        let p := return_to_socket_connected s w1
        .ok (c.transition_ok, p.1, p.2, ⟨rs, ws, cs⟩)
      else .ok (c.transition_ok, s, w1, ⟨rs, ws, cs⟩)
    | .error => .error .check_failed
    | .data bytes =>
      if 0 < bytes.length then
        match store s.buf s.nbuf bytes with
        | none => .error .memory_fault
        | some b =>
          match process_command c.IO_BUFFER_SIZE cs
              { s with buf := some b, nbuf := s.nbuf + bytes.length } w1 with
          | .error f => .error f
          | .ok (res, s2, w2, cs2) =>
            if res = .malformed_command ∨ res = .command_success_no_response ∨
                res = .command_success_response_ready then
              let sent :=
                if res = .malformed_command then send_err_to_client ws s2 w2
                else if res = .command_success_response_ready then send_msg_to_client ws s2 w2
                else .ok (s2, w2, ws)
              match sent with
              | .error f => .error f
              | .ok (s3, w3, ws3) =>
                if s3.state ≠ .fsm_socket_send_incomplete then
                  read_loop c rs
                    { s3 with state := .fsm_socket_connected, nbuf := 0, snbuf := 0 } w3 ws3 cs2
                else .ok (c.transition_ok, s3, w3, ⟨rs, ws3, cs2⟩)
            else if res = .incomplete_command then
              read_loop c rs { s2 with state := .fsm_socket_recv_incomplete } w2 ws cs2
            else if res = .quit_connection then
              .ok (c.quit_connection, s2, w2, ⟨rs, ws, cs2⟩)
            else if res = .shutdown_server then
              .ok (c.shutdown_server, s2, w2, ⟨rs, ws, cs2⟩)
            else .error .check_failed
      else .ok (c.quit_connection, s, w1, ⟨rs, ws, cs⟩)

/-- The body of `fsm_state_t::do_socket_ready`: for a socket event, the lazy
allocation and the read loop; any other event fails the check. -/
def do_socket_ready (c : fsm_consts) (event : event_t) (s : fsm_state_t) (w : io_world)
    (sc : script) : Except fault (Int × fsm_state_t × io_world × script) :=
  match event.event_type with
  | .et_sock =>
    match s.buf with
    | none =>
      read_loop c sc.reads
        { s with buf := some ⟨w.fresh, List.replicate c.IO_BUFFER_SIZE NUL⟩, nbuf := 0 }
        w.malloc sc.writes sc.commands
    | some _ => read_loop c sc.reads s w sc.writes sc.commands
  | .et_other => .error .check_failed

/-- The body of `fsm_state_t::do_socket_send_incomplete`: the Write Pump on
a writable event, then, when the send is over, the Read Pump with
`event->op = eo_read`, whose return value is dropped; the function returns
the literal 0. -/
def do_socket_send_incomplete (c : fsm_consts) (event : event_t) (s : fsm_state_t)
    (w : io_world) (sc : script) : Except fault (Int × fsm_state_t × io_world × script) :=
  match event.event_type with
  | .et_sock =>
    let sent :=
      if event.op = .eo_rdwr ∨ event.op = .eo_write then send_msg_to_client sc.writes s w
      else .ok (s, w, sc.writes)
    match sent with
    | .error f => .error f
    | .ok (s1, w1, ws1) =>
      if s1.state ≠ .fsm_socket_send_incomplete then
        match do_socket_ready c { event with op := .eo_read } s1 w1 { sc with writes := ws1 } with
        | .error f => .error f
        | .ok (_, s2, w2, sc2) => .ok (0, s2, w2, sc2)
      else .ok (0, s1, w1, { sc with writes := ws1 })
  | .et_other => .error .check_failed

/-- The body of `fsm_state_t::do_transition`: the switch on the state tag. -/
def do_transition (c : fsm_consts) (event : event_t) (s : fsm_state_t) (w : io_world)
    (sc : script) : Except fault (Int × fsm_state_t × io_world × script) :=
  match s.state with
  | .fsm_socket_connected => do_socket_ready c event s w sc
  | .fsm_socket_recv_incomplete => do_socket_ready c event s w sc
  | .fsm_socket_send_incomplete => do_socket_send_incomplete c event s w sc

/-! Concrete instances used in examples -/

/-- A build with a 32-byte buffer and the result codes 0, 1, 2. -/
def demo : fsm_consts :=
  { IO_BUFFER_SIZE := 32, transition_ok := 0, quit_connection := 1, shutdown_server := 2 }

/-- A world in which nothing has happened yet. -/
def io_world.empty : io_world := { log := [], sent := [], fresh := 0 }

/-- A readable socket event. -/
def ev_read : event_t := ⟨.et_sock, .eo_read⟩

/-- A writable socket event. -/
def ev_write : event_t := ⟨.et_sock, .eo_write⟩

/-! State invariants -/

/-- Invariants 1-3 of the data model. -/
def invariants (c : fsm_consts) (s : fsm_state_t) : Prop :=
  (s.state = .fsm_socket_connected → s.nbuf = 0 ∧ s.snbuf = 0) ∧
  (s.state = .fsm_socket_recv_incomplete →
    s.buf ≠ none ∧ 0 < s.nbuf ∧ s.nbuf < c.IO_BUFFER_SIZE ∧ s.snbuf = 0) ∧
  (s.state = .fsm_socket_send_incomplete →
    s.buf ≠ none ∧ s.snbuf < s.nbuf ∧ s.nbuf ≤ c.IO_BUFFER_SIZE)

instance (c : fsm_consts) (s : fsm_state_t) : Decidable (invariants c s) := by
  unfold invariants; infer_instance

/-- A buffer, when present, has `IO_BUFFER_SIZE` bytes. -/
def capacity_ok (c : fsm_consts) (s : fsm_state_t) : Prop :=
  ∀ b, s.buf = some b → b.data.length = c.IO_BUFFER_SIZE

/-- The condition under which the read loop is entered and re-entered: no
send pending, `snbuf = 0`, a buffer of full capacity, and the receive
invariants. -/
def loop_head (c : fsm_consts) (s : fsm_state_t) : Prop :=
  s.state ≠ .fsm_socket_send_incomplete ∧ s.snbuf = 0 ∧
  (∃ b, s.buf = some b ∧ b.data.length = c.IO_BUFFER_SIZE) ∧
  (s.state = .fsm_socket_connected → s.nbuf = 0) ∧
  (s.state = .fsm_socket_recv_incomplete → 0 < s.nbuf ∧ s.nbuf < c.IO_BUFFER_SIZE)

/-- Script of the C1 witness: a 4-byte command, a 5-byte reply of which the
socket takes 2 bytes before it would block. -/
def partial_reply_script : script :=
  { reads := [.data "GET\n".toList],
    writes := [.accepted 2, .would_block],
    commands := [⟨.command_success_response_ready, "VALUE".toList, 5⟩] }

/-! Scenario data -/

/-- The 32-byte build with arbitrary result codes. -/
def build32 (ok quit shut : Int) : fsm_consts :=
  { IO_BUFFER_SIZE := 32, transition_ok := ok, quit_connection := quit, shutdown_server := shut }

/-- A 32-byte buffer that starts with the 5-byte reply `VALUE`. -/
def value_buffer : buffer_t := ⟨0, "VALUE".toList ++ List.replicate 27 NUL⟩

/-- A connection parked in `fsm_socket_send_incomplete` with 2 of the 5
reply bytes sent. -/
def parked : fsm_state_t := ⟨.fsm_socket_send_incomplete, some value_buffer, 5, 2⟩

/-- The connection `parked` once the remaining 3 bytes are sent. -/
def drained : fsm_state_t := ⟨.fsm_socket_connected, some value_buffer, 0, 0⟩

/-- The world in which `parked` came about. -/
def parked_world : io_world :=
  ⟨[.malloc 0, .read 0 32, .process_command "GET\n".toList, .write 0 5, .write 2 3],
    "VA".toList, 1⟩

/-- The world after the remaining 3 bytes of `parked` are sent. -/
def drained_world : io_world :=
  ⟨[.malloc 0, .read 0 32, .process_command "GET\n".toList, .write 0 5, .write 2 3,
      .write 2 3], "VALUE".toList, 1⟩

/-! Event-loop harness for a pending send -/

/-- The write results of a send that is split over several dispatches: for
each list `ks` of `segs` the socket takes the counts of `ks` one write after
the other and then would block; `tail` follows. -/
def partial_writes : List (List Nat) → List write_result → List write_result
  | [], tail => tail
  | ks :: segs, tail => ks.map .accepted ++ .would_block :: partial_writes segs tail

/-- Sum of all counts of all segments. -/
def total_accepted (segs : List (List Nat)) : Nat := (segs.map List.sum).sum

/-- The event loop while a send is pending: as long as the connection is in
`fsm_socket_send_incomplete` (and at most `fuel` times) a writable socket
event is dispatched through `do_transition`. -/
def deliver_writable (c : fsm_consts) : Nat → fsm_state_t → io_world → script →
    Except fault (fsm_state_t × io_world × script)
  | 0, s, w, sc => .ok (s, w, sc)
  | fuel + 1, s, w, sc =>
    if s.state = .fsm_socket_send_incomplete then
      match do_transition c ev_write s w sc with
      | .error f => .error f
      | .ok (_, s1, w1, sc1) => deliver_writable c fuel s1 w1 sc1
    else .ok (s, w, sc)

/-- A send from its first `send_msg_to_client` call to its end: the Write
Pump is called on the reply in the buffer, then writable events are
delivered while the send is pending. -/
def send_session (c : fsm_consts) (fuel : Nat) (s : fsm_state_t) (w : io_world)
    (sc : script) : Except fault (fsm_state_t × io_world × script) :=
  match send_msg_to_client sc.writes s w with
  | .error f => .error f
  | .ok (s1, w1, ws1) => deliver_writable c fuel s1 w1 { sc with writes := ws1 }

/-! Allocator discipline -/

/-- One step of the allocator audit.  The audit state is the list of buffers
now allocated, or `none` after a violation: a `malloc` while a buffer is
still allocated, or a `free` of anything but an allocated buffer. -/
def heap_step (live : Option (List Nat)) (e : io_call) : Option (List Nat) :=
  match live, e with
  | none, _ => none
  | some l, .malloc id => if l = [] then some [id] else none
  | some l, .free (some id) => if id ∈ l then some (l.erase id) else none
  | some _, .free none => none
  | some l, .read _ _ => some l
  | some l, .write _ _ => some l
  | some l, .process_command _ => some l

/-- The allocator audit of a whole log, starting with nothing allocated. -/
def heap_replay (log : List io_call) : Option (List Nat) :=
  log.foldl heap_step (some [])

/-- Number of `alloc->malloc` calls in a log. -/
def mallocs (log : List io_call) : Nat :=
  log.countP (fun e => match e with | .malloc _ => true | _ => false)

/-- Number of `alloc->free` calls in a log. -/
def frees (log : List io_call) : Nat :=
  log.countP (fun e => match e with | .free _ => true | _ => false)

/-- The buffers a connection holds: its `buf`, if not NULL. -/
def held (s : fsm_state_t) : List Nat :=
  match s.buf with
  | some b => [b.id]
  | none => []

/-- The event loop: the events are dispatched one after the other through
`do_transition`, the socket and the processor going on where the dispatch
before left them; the results are collected. -/
def dispatch_all (c : fsm_consts) : List event_t → fsm_state_t → io_world → script →
    Except fault (List Int × fsm_state_t × io_world × script)
  | [], s, w, sc => .ok ([], s, w, sc)
  | e :: es, s, w, sc =>
    match do_transition c e s w sc with
    | .error f => .error f
    | .ok (rc, s1, w1, sc1) =>
      match dispatch_all c es s1 w1 sc1 with
      | .error f => .error f
      | .ok (rcs, s2, w2, sc2) => .ok (rc :: rcs, s2, w2, sc2)

/-! The connection after one command -/

/-- The connection after a read of `chunk` and the processor's reply `r`. -/
def after_command (s : fsm_state_t) (b : buffer_t) (chunk : List Char) (r : command_reply) :
    fsm_state_t :=
  ⟨s.state, some ⟨b.id, poke (poke b.data s.nbuf chunk) 0 r.buf⟩, r.nbuf, s.snbuf⟩

/-- The world after a read of `chunk` and a processor call. -/
def after_command_world (c : fsm_consts) (s : fsm_state_t) (b : buffer_t) (chunk : List Char)
    (w : io_world) : io_world :=
  (w.call (.read s.nbuf ((c.IO_BUFFER_SIZE : Int) - (s.nbuf : Int)))).call
    (.process_command
      ((poke b.data s.nbuf chunk).take (min (s.nbuf + chunk.length) c.IO_BUFFER_SIZE)))


/-! Scripts of whole exchanges -/

/-- The events of the C5 witness: a command, the writable event that ends
its reply, and the readable event on which the peer closes. -/
def close_events : List event_t := [ev_read, ev_write, ev_read]

/-- The script of the C5 witness. -/
def close_script : script :=
  { reads := [.data "GET\n".toList, .would_block, .data []],
    writes := [.accepted 2, .would_block, .accepted 3],
    commands := [⟨.command_success_response_ready, "VALUE".toList, 5⟩] }

/-- The connection at the end of the C5 witness: it holds the second
buffer. -/
def close_state : fsm_state_t :=
  ⟨.fsm_socket_connected, some ⟨1, List.replicate 32 NUL⟩, 0, 0⟩

/-- The world at the end of the C5 witness. -/
def close_world : io_world :=
  ⟨[.malloc 0, .read 0 32, .process_command "GET\n".toList, .write 0 5, .write 2 3,
      .write 2 3, .read 0 32, .free (some 0), .malloc 1, .read 0 32], "VALUE".toList, 2⟩

/-- The reads of a series of exchanges `(chunk, reply)`: one read per chunk. -/
def exchange_reads (xs : List (List Char × List Char)) : List read_result :=
  xs.map (fun x => .data x.1)

/-- The processor's answers in a series of exchanges: each chunk is answered
`command_success_response_ready` with the reply in `buf[0..nbuf)`. -/
def exchange_commands (xs : List (List Char × List Char)) : List command_reply :=
  xs.map (fun x => ⟨.command_success_response_ready, x.2, x.2.length⟩)

/-- The writes of a series of exchanges: the socket takes each reply in
full. -/
def exchange_writes (xs : List (List Char × List Char)) : List write_result :=
  xs.map (fun x => .accepted x.2.length)

/-- The replies of a series of exchanges, one after the other. -/
def replies_concat : List (List Char × List Char) → List Char
  | [] => []
  | x :: xs => x.2 ++ replies_concat xs

/-! Calls of one Read Pump run -/

/-- What every call made inside the read loop satisfies: it is no `malloc`,
and a read is asked for `IO_BUFFER_SIZE - off` bytes at offset `off`. -/
def pump_call_ok (c : fsm_consts) (e : io_call) : Prop :=
  match e with
  | .malloc _ => False
  | .read off len => len = (c.IO_BUFFER_SIZE : Int) - (off : Int)
  | .free _ => True
  | .write _ _ => True
  | .process_command _ => True

/-- How a run of the read loop that returns `transition_ok` has ended: on a
would-block read in the clean connected state (buffer freed), on a
would-block read in `fsm_socket_recv_incomplete` (buffer held), or on a
would-block write in `fsm_socket_send_incomplete` (buffer held).  `used_r`
and `used_w` are the read and write results used up, `ext` the calls
made. -/
def pump_rest (s' : fsm_state_t) (used_r : List read_result) (used_w : List write_result)
    (ext : List io_call) : Prop :=
  (s' = ⟨.fsm_socket_connected, none, 0, 0⟩ ∧
    ∃ p0 l off len p, used_r = p0 ++ [.would_block] ∧ ext = l ++ [.read off len, .free p]) ∨
  (s'.state = .fsm_socket_recv_incomplete ∧ s'.buf ≠ none ∧
    ∃ p0 l off len, used_r = p0 ++ [.would_block] ∧ ext = l ++ [.read off len]) ∨
  (s'.state = .fsm_socket_send_incomplete ∧ s'.buf ≠ none ∧
    ∃ p0 l off len, used_w = p0 ++ [.would_block] ∧ ext = l ++ [.write off len])

/-- The precondition of the Write Pump's termination bound, for a send with
`rem` bytes left: each write that is made returns a would-block or a count
`k` with `1 ≤ k ≤ rem`; after a count below `rem` the next write is made
with `rem - k` bytes left. -/
def writes_respect : Nat → List write_result → Prop
  | _, [] => True
  | _, .would_block :: _ => True
  | _, .error :: _ => False
  | rem, .accepted k :: rest => 1 ≤ k ∧ k ≤ rem ∧ (k < rem → writes_respect (rem - k) rest)

/-- The condition a connection meets between dispatches as far as the
assertion of the Write Pump goes: outside `fsm_socket_send_incomplete`,
`snbuf` is 0. -/
def snbuf_idle (s : fsm_state_t) : Prop :=
  s.state = .fsm_socket_send_incomplete ∨ s.snbuf = 0

/-- What a run of the read loop that returns has done: the results it used
up (`used_r`, `used_w`, `used_c`, none of them an I/O error), the calls it
made (`ext`), and how it ended. -/
def pump_outcome (c : fsm_consts) (s : fsm_state_t) (log : List io_call)
    (rds : List read_result) (ws : List write_result) (cs : List command_reply)
    (rc : Int) (s' : fsm_state_t) (w' : io_world) (sc' : script) : Prop :=
  ∃ (used_r : List read_result) (used_w : List write_result) (used_c : List command_reply)
    (ext : List io_call),
    rds = used_r ++ sc'.reads ∧ ws = used_w ++ sc'.writes ∧ cs = used_c ++ sc'.commands ∧
    read_result.error ∉ used_r ∧ write_result.error ∉ used_w ∧
    w'.log = log ++ ext ∧ (∀ e ∈ ext, pump_call_ok c e) ∧
    (s'.state = .fsm_socket_send_incomplete ∨ s'.snbuf = 0 ∨ s.snbuf ≠ 0) ∧
    ((rc = c.transition_ok ∧ pump_rest s' used_r used_w ext) ∨ rc = c.quit_connection ∨
      rc = c.shutdown_server)

/-! C1: invariants after a dispatch -/

theorem store_length {buf : Option buffer_t} {off : Nat} {bytes : List Char} {b' : buffer_t}
    (h : store buf off bytes = some b') :
    ∃ b, buf = some b ∧ b'.id = b.id ∧ b'.data.length = b.data.length ∧
      off + bytes.length ≤ b.data.length ∧ b'.data = poke b.data off bytes := by
  unfold store at h
  split at h
  · simp at h
  · rename_i b
    split at h
    · rename_i hle
      simp only [Option.some.injEq] at h
      subst h
      refine ⟨b, rfl, rfl, ?_, hle, rfl⟩
      simp only [poke, List.length_append, List.length_take, List.length_drop]
      omega
    · simp at h

theorem send_loop_spec (ws : List write_result) :
    ∀ (s : fsm_state_t) (w : io_world) (len : Int) (sz : Nat)
      (s' : fsm_state_t) (w' : io_world) (ws' : List write_result),
      len - (sz : Int) = (s.nbuf : Int) - ((s.snbuf + sz : Nat) : Int) →
      0 < len - (sz : Int) →
      send_loop ws s w len sz = .ok (s', w', ws') →
      s'.buf = s.buf ∧
      ((s'.state = .fsm_socket_send_incomplete ∧ s'.nbuf = s.nbuf ∧ s'.snbuf < s'.nbuf ∧
          s.snbuf + sz ≤ s'.snbuf) ∨
        (s'.state = .fsm_socket_connected ∧ s'.nbuf = 0 ∧ s'.snbuf = 0)) := by
  induction ws with
  | nil => intro s w len sz s' w' ws' _ _ h; simp [send_loop] at h
  | cons r rs ih =>
    intro s w len sz s' w' ws' hlen hpos h
    cases r with
    | would_block =>
      simp only [send_loop, Except.ok.injEq, Prod.mk.injEq] at h
      obtain ⟨rfl, -, -⟩ := h
      refine ⟨rfl, Or.inl ⟨rfl, rfl, ?_, le_refl _⟩⟩
      simp only
      omega
    | error => simp [send_loop] at h
    | accepted k =>
      simp only [send_loop] at h
      split at h
      · simp at h
      · split at h
        · rename_i hk
          have := ih _ _ _ _ _ _ _ (by simp only; omega) (by omega) h
          obtain ⟨hb, hcase⟩ := this
          refine ⟨hb, ?_⟩
          rcases hcase with ⟨h1, h2, h3, h4⟩ | h1
          · exact Or.inl ⟨h1, h2, h3, by simp only at h4; omega⟩
          · exact Or.inr h1
        · simp only [Except.ok.injEq, Prod.mk.injEq] at h
          obtain ⟨rfl, -, -⟩ := h
          exact ⟨rfl, Or.inr ⟨rfl, rfl, rfl⟩⟩

theorem process_command_spec {B : Nat} {cs cs2 : List command_reply} {s s2 : fsm_state_t}
    {w w2 : io_world} {res : operations_t}
    (h : process_command B cs s w = .ok (res, s2, w2, cs2)) :
    ∃ r b b2, cs = r :: cs2 ∧ res = r.res ∧ s2.nbuf = r.nbuf ∧ s2.state = s.state ∧
      s2.snbuf = s.snbuf ∧ s.buf = some b ∧ s2.buf = some b2 ∧ b2.id = b.id ∧
      b2.data.length = b.data.length ∧ w2.fresh = w.fresh ∧ w2.sent = w.sent ∧
      w2.log = w.log ++ [.process_command (b.data.take (min s.nbuf B))] := by
  unfold process_command at h
  split at h
  · simp at h
  · rename_i r cs1
    split at h
    · simp at h
    · rename_i b2 hst
      obtain ⟨b, hb, hid, hlen, -, -⟩ := store_length hst
      simp only [Except.ok.injEq, Prod.mk.injEq] at h
      obtain ⟨rfl, rfl, rfl, rfl⟩ := h
      refine ⟨r, b, b2, rfl, rfl, rfl, rfl, rfl, hb, rfl, hid, hlen, rfl, rfl, ?_⟩
      simp [io_world.call, hb]

theorem send_msg_to_client_spec {ws ws' : List write_result} {s s' : fsm_state_t}
    {w w' : io_world} (h : send_msg_to_client ws s w = .ok (s', w', ws'))
    (h0 : s.snbuf = 0 ∨ s.state = .fsm_socket_send_incomplete)
    (hpos : s.snbuf < s.nbuf) :
    s'.buf = s.buf ∧
      ((s'.state = .fsm_socket_send_incomplete ∧ s'.nbuf = s.nbuf ∧ s'.snbuf < s'.nbuf) ∨
        (s'.state = .fsm_socket_connected ∧ s'.nbuf = 0 ∧ s'.snbuf = 0)) := by
  unfold send_msg_to_client at h
  rw [if_pos h0] at h
  obtain ⟨hb, hc⟩ := send_loop_spec ws s w _ 0 s' w' ws' (by simp) (by simp; exact hpos) h
  refine ⟨hb, ?_⟩
  rcases hc with ⟨h1, h2, h3, -⟩ | h1
  · exact Or.inl ⟨h1, h2, h3⟩
  · exact Or.inr h1

theorem err_msg_length : err_msg.length = 24 := by decide

theorem send_err_to_client_spec {ws ws' : List write_result} {s s' : fsm_state_t}
    {w w' : io_world} (h : send_err_to_client ws s w = .ok (s', w', ws'))
    (h0 : s.snbuf = 0) :
    ∃ b b', s.buf = some b ∧ s'.buf = some b' ∧ b'.id = b.id ∧
      b'.data.length = b.data.length ∧ 25 ≤ b.data.length ∧
      ((s'.state = .fsm_socket_send_incomplete ∧ s'.nbuf = 25 ∧ s'.snbuf < s'.nbuf) ∨
        (s'.state = .fsm_socket_connected ∧ s'.nbuf = 0 ∧ s'.snbuf = 0)) := by
  unfold send_err_to_client at h
  split at h
  · simp at h
  · rename_i b' hst
    obtain ⟨b, hb, hid, hlen, hfit, -⟩ := store_length hst
    obtain ⟨hbuf, hc⟩ := send_msg_to_client_spec h (Or.inl h0) (by simp [h0])
    refine ⟨b, b', hb, hbuf, hid, hlen, ?_, ?_⟩
    · simpa [err_msg_length] using hfit
    · simpa [err_msg_length] using hc

theorem loop_head_invariants {c : fsm_consts} {s : fsm_state_t} (h : loop_head c s) :
    invariants c s ∧ capacity_ok c s := by
  obtain ⟨h1, h2, ⟨b, hb, hl⟩, h4, h5⟩ := h
  refine ⟨⟨fun hs => ⟨h4 hs, h2⟩, fun hs => ⟨by simp [hb], (h5 hs).1, (h5 hs).2, h2⟩,
    fun hs => absurd hs h1⟩, ?_⟩
  intro b' hb'
  rw [hb] at hb'
  cases hb'
  exact hl

theorem read_loop_invariants (c : fsm_consts) (rs : List read_result) :
    ∀ (s : fsm_state_t) (w : io_world) (ws : List write_result) (cs : List command_reply)
      (rc : Int) (s' : fsm_state_t) (w' : io_world) (sc' : script),
      loop_head c s →
      (∀ r ∈ cs, r.res = .incomplete_command → 0 < r.nbuf ∧ r.nbuf < c.IO_BUFFER_SIZE) →
      (∀ r ∈ cs, r.res = .command_success_response_ready →
        0 < r.nbuf ∧ r.nbuf ≤ c.IO_BUFFER_SIZE) →
      ((rc = c.transition_ok ∧ c.codes_distinct) ∨
        ∀ r ∈ cs, r.res ≠ .quit_connection ∧ r.res ≠ .shutdown_server) →
      read_loop c rs s w ws cs = .ok (rc, s', w', sc') →
      invariants c s' ∧ capacity_ok c s' := by
  induction rs with
  | nil => intro s w ws cs rc s' w' sc' _ _ _ _ h; simp [read_loop] at h
  | cons r rs ih =>
    intro s w ws cs rc s' w' sc' hlh hinc hrsp hterm h
    obtain ⟨hns, hsn, ⟨b, hb, hbl⟩, hconn, hrecv⟩ := hlh
    cases r with
    | would_block =>
      simp only [read_loop] at h
      split at h
      · simp only [Except.ok.injEq, Prod.mk.injEq] at h
        obtain ⟨-, rfl, -, -⟩ := h
        simp [return_to_socket_connected, init_state, invariants, capacity_ok]
      · simp only [Except.ok.injEq, Prod.mk.injEq] at h
        obtain ⟨-, rfl, -, -⟩ := h
        exact loop_head_invariants ⟨hns, hsn, ⟨b, hb, hbl⟩, hconn, hrecv⟩
    | error => simp [read_loop] at h
    | data bytes =>
      simp only [read_loop] at h
      split at h
      · split at h
        · simp at h
        · rename_i b1 hst
          obtain ⟨b0, hb0, hid1, hlen1, -, -⟩ := store_length hst
          split at h
          · simp at h
          · rename_i res s2 w2 cs2 hpc
            obtain ⟨r, b2, b3, rfl, rfl, hn2, hs2, hsn2, hb2, hb3, hid3, hlen3, -, -, -⟩ :=
              process_command_spec hpc
            simp only [Option.some.injEq] at hb2
            subst hb2
            rw [hb] at hb0
            cases hb0
            have hcap3 : b3.data.length = c.IO_BUFFER_SIZE := by omega
            have hinc' := fun r' (hr' : r' ∈ cs2) => hinc r' (List.mem_cons_of_mem _ hr')
            have hrsp' := fun r' (hr' : r' ∈ cs2) => hrsp r' (List.mem_cons_of_mem _ hr')
            have hterm' : (rc = c.transition_ok ∧ c.codes_distinct) ∨
                ∀ r' ∈ cs2, r'.res ≠ .quit_connection ∧ r'.res ≠ .shutdown_server := by
              rcases hterm with ht | ht
              · exact Or.inl ht
              · exact Or.inr (fun r' hr' => ht r' (List.mem_cons_of_mem _ hr'))
            split at h
            · split at h
              · simp at h
              · rename_i s3 w3 ws3 hsent
                have hsent3 : (∃ b4, s3.buf = some b4 ∧ b4.data.length = c.IO_BUFFER_SIZE) ∧
                    ((s3.state = .fsm_socket_send_incomplete ∧ s3.snbuf < s3.nbuf ∧
                        s3.nbuf ≤ c.IO_BUFFER_SIZE) ∨
                      s3.state ≠ .fsm_socket_send_incomplete) := by
                  split at hsent
                  · obtain ⟨b5, b6, h5, h6, -, hl6, h25, hc⟩ :=
                      send_err_to_client_spec hsent (by simp only [hsn2]; exact hsn)
                    rw [hb3] at h5
                    cases h5
                    refine ⟨⟨b6, h6, by omega⟩, ?_⟩
                    rcases hc with ⟨h1, h2, h3⟩ | ⟨h1, -, -⟩
                    · exact Or.inl ⟨h1, h3, by omega⟩
                    · exact Or.inr (by simp [h1])
                  · split at hsent
                    · rename_i hres
                      have hr := hrsp r (List.mem_cons_self _ _) hres
                      obtain ⟨hbuf, hc⟩ := send_msg_to_client_spec hsent
                        (Or.inl (by simp only [hsn2]; exact hsn))
                        (by rw [hn2, hsn2, hsn]; exact hr.1)
                      refine ⟨⟨b3, by rw [hbuf, hb3], hcap3⟩, ?_⟩
                      rcases hc with ⟨h1, h2, h3⟩ | ⟨h1, -, -⟩
                      · exact Or.inl ⟨h1, h3, by rw [h2, hn2]; exact hr.2⟩
                      · exact Or.inr (by simp [h1])
                    · simp only [Except.ok.injEq, Prod.mk.injEq] at hsent
                      obtain ⟨rfl, -, -⟩ := hsent
                      refine ⟨⟨b3, hb3, hcap3⟩, Or.inr ?_⟩
                      rw [hs2]
                      exact hns
                obtain ⟨⟨b4, hb4, hl4⟩, hcase⟩ := hsent3
                split at h
                · refine ih _ _ _ _ _ _ _ _ ?_ hinc' hrsp' hterm' h
                  exact ⟨by simp, rfl, ⟨b4, hb4, hl4⟩, fun _ => rfl, fun hs => by simp at hs⟩
                · rename_i hsi
                  simp only [ne_eq, not_not] at hsi
                  simp only [Except.ok.injEq, Prod.mk.injEq] at h
                  obtain ⟨-, rfl, -, -⟩ := h
                  rcases hcase with ⟨-, h2, h3⟩ | h1
                  · refine ⟨⟨fun hs => by simp [hsi] at hs, fun hs => by simp [hsi] at hs,
                      fun _ => ⟨by simp [hb4], h2, h3⟩⟩, ?_⟩
                    intro b' hb'
                    rw [hb4] at hb'
                    cases hb'
                    exact hl4
                  · exact absurd hsi h1
            · split at h
              · rename_i hres
                have hr := hinc r (List.mem_cons_self _ _) hres
                refine ih _ _ _ _ _ _ _ _ ?_ hinc' hrsp' hterm' h
                refine ⟨by simp, by simp only [hsn2]; exact hsn, ⟨b3, hb3, hcap3⟩,
                  fun hs => by simp at hs, fun _ => ?_⟩
                simp only [hn2]
                exact hr
              · split at h
                · rename_i hres
                  simp only [Except.ok.injEq, Prod.mk.injEq] at h
                  obtain ⟨hrc, -, -, -⟩ := h
                  rcases hterm with ⟨ht, hd⟩ | ht
                  · exact absurd (hrc.trans ht).symm hd.1
                  · exact absurd hres (ht r (List.mem_cons_self _ _)).1
                · split at h
                  · rename_i hres
                    simp only [Except.ok.injEq, Prod.mk.injEq] at h
                    obtain ⟨hrc, -, -, -⟩ := h
                    rcases hterm with ⟨ht, hd⟩ | ht
                    · exact absurd (hrc.trans ht).symm hd.2.1
                    · exact absurd hres (ht r (List.mem_cons_self _ _)).2
                  · simp at h
      · simp only [Except.ok.injEq, Prod.mk.injEq] at h
        obtain ⟨-, rfl, -, -⟩ := h
        exact loop_head_invariants ⟨hns, hsn, ⟨b, hb, hbl⟩, hconn, hrecv⟩

theorem do_socket_ready_invariants {c : fsm_consts} {event : event_t} {s s' : fsm_state_t}
    {w w' : io_world} {sc sc' : script} {rc : Int}
    (hinv : invariants c s) (hcap : capacity_ok c s)
    (hns : s.state ≠ .fsm_socket_send_incomplete)
    (hinc : ∀ r ∈ sc.commands, r.res = .incomplete_command →
      0 < r.nbuf ∧ r.nbuf < c.IO_BUFFER_SIZE)
    (hrsp : ∀ r ∈ sc.commands, r.res = .command_success_response_ready →
      0 < r.nbuf ∧ r.nbuf ≤ c.IO_BUFFER_SIZE)
    (hterm : (rc = c.transition_ok ∧ c.codes_distinct) ∨
      ∀ r ∈ sc.commands, r.res ≠ .quit_connection ∧ r.res ≠ .shutdown_server)
    (h : do_socket_ready c event s w sc = .ok (rc, s', w', sc')) :
    invariants c s' ∧ capacity_ok c s' := by
  have hsn : s.snbuf = 0 := by
    cases hst : s.state with
    | fsm_socket_connected => exact (hinv.1 hst).2
    | fsm_socket_recv_incomplete => exact (hinv.2.1 hst).2.2.2
    | fsm_socket_send_incomplete => exact absurd hst hns
  unfold do_socket_ready at h
  split at h
  · split at h
    · rename_i hnone
      refine read_loop_invariants c _ _ _ _ _ _ _ _ _ ?_ hinc hrsp hterm h
      refine ⟨hns, hsn, ⟨_, rfl, by simp⟩, fun _ => rfl, fun hs => ?_⟩
      exact absurd hnone (hinv.2.1 hs).1
    · rename_i b hb
      refine read_loop_invariants c _ _ _ _ _ _ _ _ _ ?_ hinc hrsp hterm h
      refine ⟨hns, hsn, ⟨b, hb, hcap b hb⟩, fun hs => (hinv.1 hs).1, fun hs => ?_⟩
      exact ⟨(hinv.2.1 hs).2.1, (hinv.2.1 hs).2.2.1⟩
  · simp at h

theorem do_socket_send_incomplete_invariants {c : fsm_consts} {event : event_t}
    {s s' : fsm_state_t} {w w' : io_world} {sc sc' : script} {rc : Int}
    (hinv : invariants c s) (hcap : capacity_ok c s)
    (hsi : s.state = .fsm_socket_send_incomplete)
    (hinc : ∀ r ∈ sc.commands, r.res = .incomplete_command →
      0 < r.nbuf ∧ r.nbuf < c.IO_BUFFER_SIZE)
    (hrsp : ∀ r ∈ sc.commands, r.res = .command_success_response_ready →
      0 < r.nbuf ∧ r.nbuf ≤ c.IO_BUFFER_SIZE)
    (hterm : ∀ r ∈ sc.commands, r.res ≠ .quit_connection ∧ r.res ≠ .shutdown_server)
    (h : do_socket_send_incomplete c event s w sc = .ok (rc, s', w', sc')) :
    invariants c s' ∧ capacity_ok c s' := by
  obtain ⟨hbuf, hlt, hle⟩ := hinv.2.2 hsi
  have tail : ∀ (s1 : fsm_state_t) (w1 : io_world) (ws1 : List write_result),
      s1.buf = s.buf →
      ((s1.state = .fsm_socket_send_incomplete ∧ s1.nbuf = s.nbuf ∧ s1.snbuf < s1.nbuf) ∨
        (s1.state = .fsm_socket_connected ∧ s1.nbuf = 0 ∧ s1.snbuf = 0)) →
      (if s1.state ≠ .fsm_socket_send_incomplete then
          match do_socket_ready c { event with op := .eo_read } s1 w1
              { sc with writes := ws1 } with
          | .error f => .error f
          | .ok (_, s2, w2, sc2) => .ok (0, s2, w2, sc2)
        else (.ok (0, s1, w1, { sc with writes := ws1 }) :
          Except fault (Int × fsm_state_t × io_world × script))) = .ok (rc, s', w', sc') →
      invariants c s' ∧ capacity_ok c s' := by
    intro s1 w1 ws1 hb1 hcase h
    have hcap1 : capacity_ok c s1 := fun b hb => hcap b (hb1 ▸ hb)
    split at h
    · rename_i hne
      split at h
      · simp at h
      · rename_i rc2 s2 w2 sc2 hpump
        simp only [Except.ok.injEq, Prod.mk.injEq] at h
        obtain ⟨-, rfl, -, -⟩ := h
        rcases hcase with ⟨hs1, -, -⟩ | ⟨hs1, hn1, hsn1⟩
        · exact absurd hs1 hne
        · refine @do_socket_ready_invariants c _ s1 s2 w1 w2 ⟨sc.reads, ws1, sc.commands⟩ sc2 rc2
            ?_ hcap1 hne
            hinc hrsp (Or.inr hterm) hpump
          exact ⟨fun _ => ⟨hn1, hsn1⟩, fun hs => by simp [hs1] at hs,
            fun hs => by simp [hs1] at hs⟩
    · rename_i hnn
      simp only [ne_eq, not_not] at hnn
      simp only [Except.ok.injEq, Prod.mk.injEq] at h
      obtain ⟨-, rfl, -, -⟩ := h
      rcases hcase with ⟨hs1, hn1, hsn1⟩ | ⟨hs1, -, -⟩
      · exact ⟨⟨fun hs => by simp [hs1] at hs, fun hs => by simp [hs1] at hs,
          fun _ => ⟨by rw [hb1]; exact hbuf, hsn1, by rw [hn1]; exact hle⟩⟩, hcap1⟩
      · simp [hs1] at hnn
  unfold do_socket_send_incomplete at h
  split at h
  · by_cases hop : event.op = .eo_rdwr ∨ event.op = .eo_write
    · simp only [if_pos hop] at h
      split at h
      · simp at h
      · rename_i s1 w1 ws1 hsent
        obtain ⟨hb1, hcase⟩ := send_msg_to_client_spec hsent (Or.inr hsi) hlt
        exact tail s1 w1 ws1 hb1 hcase h
    · simp only [if_neg hop] at h
      exact tail s w sc.writes rfl (Or.inl ⟨hsi, rfl, hlt⟩) h
  · simp at h

/-- C1 (as amended).  Take a connection that satisfies invariants 1-3 and
whose buffer, if present, has `IO_BUFFER_SIZE` bytes, any event, and any
behaviour of the socket and the processor in which every `incomplete_command`
verdict leaves `0 < nbuf < IO_BUFFER_SIZE` and every
`command_success_response_ready` verdict leaves `0 < nbuf ≤ IO_BUFFER_SIZE`;
when the dispatch starts in `fsm_socket_send_incomplete`, the processor
gives no `quit_connection` or `shutdown_server` verdict.  If `do_transition`
returns `transition_ok`, invariants 1-3 hold again (and the buffer keeps its
capacity). -/
theorem C1_invariants_preserved (c : fsm_consts) (event : event_t) (s s' : fsm_state_t)
    (w w' : io_world) (sc sc' : script)
    (hd : c.codes_distinct)
    (hinv : invariants c s) (hcap : capacity_ok c s)
    (hinc : ∀ r ∈ sc.commands, r.res = .incomplete_command →
      0 < r.nbuf ∧ r.nbuf < c.IO_BUFFER_SIZE)
    (hrsp : ∀ r ∈ sc.commands, r.res = .command_success_response_ready →
      0 < r.nbuf ∧ r.nbuf ≤ c.IO_BUFFER_SIZE)
    (hterm : s.state = .fsm_socket_send_incomplete →
      ∀ r ∈ sc.commands, r.res ≠ .quit_connection ∧ r.res ≠ .shutdown_server)
    (h : do_transition c event s w sc = .ok (c.transition_ok, s', w', sc')) :
    invariants c s' ∧ capacity_ok c s' := by
  unfold do_transition at h
  split at h
  · rename_i hs
    exact do_socket_ready_invariants hinv hcap (by simp [hs]) hinc hrsp (Or.inl ⟨rfl, hd⟩) h
  · rename_i hs
    exact do_socket_ready_invariants hinv hcap (by simp [hs]) hinc hrsp (Or.inl ⟨rfl, hd⟩) h
  · rename_i hs
    exact do_socket_send_incomplete_invariants hinv hcap hs hinc hrsp (hterm hs) h

/-- Witness for C1: a dispatch on a new connection that parks in
`fsm_socket_send_incomplete` with `snbuf = 2`, `nbuf = 5`. -/
theorem C1_invariants_preserved_witness :
    invariants demo fsm_state_t.new ∧
    (do_transition demo ev_read fsm_state_t.new io_world.empty partial_reply_script).toOption.map
        (fun r => (r.1, r.2.1.state, r.2.1.nbuf, r.2.1.snbuf)) =
      some (demo.transition_ok, .fsm_socket_send_incomplete, 5, 2) ∧
    invariants demo
      ⟨.fsm_socket_send_incomplete, some ⟨0, "VALUE".toList ++ List.replicate 27 NUL⟩, 5, 2⟩ :=
  ⟨by decide, by decide,
    (C1_invariants_preserved demo ev_read fsm_state_t.new
      ⟨.fsm_socket_send_incomplete, some ⟨0, "VALUE".toList ++ List.replicate 27 NUL⟩, 5, 2⟩
      io_world.empty
      ⟨[.malloc 0, .read 0 32, .process_command "GET\n".toList, .write 0 5, .write 2 3],
        "VA".toList, 1⟩
      partial_reply_script ⟨[], [], []⟩
      (by decide) (by decide) (by intro b hb; cases hb) (by decide) (by decide) (by decide)
      (by rfl)).1⟩

/-- C1 fails as stated.  On a new connection of the 32-byte build, with reads
that return no more than requested and a processor that leaves `nbuf` within
`[0, 32]` and touches neither `state` nor `snbuf`, `do_transition` returns
`transition_ok` in a state that breaks the invariants:
(a) a 32-byte read answered `incomplete_command`, then a would-block read:
`fsm_socket_recv_incomplete` with `nbuf = 32`;
(b) a verdict `incomplete_command` with `nbuf` set to 0:
`fsm_socket_recv_incomplete` with `nbuf = 0`;
(c) an empty reply (`nbuf = 0`) whose write would block:
`fsm_socket_send_incomplete` with `snbuf = nbuf = 0`. -/
theorem C1_counterexample :
    invariants demo fsm_state_t.new ∧
    ((do_transition demo ev_read fsm_state_t.new io_world.empty
        ⟨[.data (List.replicate 32 'a'), .would_block], [],
          [⟨.incomplete_command, [], 32⟩]⟩).toOption.map
        (fun r => (r.1, r.2.1.state, r.2.1.nbuf, r.2.1.snbuf, decide (invariants demo r.2.1))) =
      some (demo.transition_ok, .fsm_socket_recv_incomplete, 32, 0, false)) ∧
    ((do_transition demo ev_read fsm_state_t.new io_world.empty
        ⟨[.data ['a'], .would_block], [], [⟨.incomplete_command, [], 0⟩]⟩).toOption.map
        (fun r => (r.1, r.2.1.state, r.2.1.nbuf, r.2.1.snbuf, decide (invariants demo r.2.1))) =
      some (demo.transition_ok, .fsm_socket_recv_incomplete, 0, 0, false)) ∧
    ((do_transition demo ev_read fsm_state_t.new io_world.empty
        ⟨[.data ['a']], [.would_block],
          [⟨.command_success_response_ready, [], 0⟩]⟩).toOption.map
        (fun r => (r.1, r.2.1.state, r.2.1.nbuf, r.2.1.snbuf, decide (invariants demo r.2.1))) =
      some (demo.transition_ok, .fsm_socket_send_incomplete, 0, 0, false)) := by
  refine ⟨by decide, ?_, ?_, ?_⟩ <;> rfl

/-! C2: terminal verdicts on the resumption path -/

/-- C2 (code evaluated at the failing inputs).  In the 32-byte build, for any
result codes: a connection parked in `fsm_socket_send_incomplete` gets a
writable event, the socket takes the rest of the reply, and the Read Pump
that `do_socket_send_incomplete` then runs (a) reads 0 bytes and returns
`quit_connection`, or (b) gets the verdict `shutdown_server` and returns
`shutdown_server`.  In both runs `do_transition` returns the literal 0, not
the Read Pump's result; as the two codes differ, at least one of them is not
what `do_transition` returned. -/
theorem C2_resumption_returns_zero (ok quit shut : Int) :
    send_msg_to_client [.accepted 3] parked parked_world =
      .ok (drained, drained_world, []) ∧
    do_socket_ready (build32 ok quit shut) ev_read drained drained_world
        ⟨[.data []], [], []⟩ =
      .ok (quit, drained, drained_world.call (.read 0 32), ⟨[], [], []⟩) ∧
    do_transition (build32 ok quit shut) ev_write parked parked_world
        ⟨[.data []], [.accepted 3], []⟩ =
      .ok (0, drained, drained_world.call (.read 0 32), ⟨[], [], []⟩) ∧
    (do_socket_ready (build32 ok quit shut) ev_read drained drained_world
        ⟨[.data ['q']], [], [⟨.shutdown_server, [], 1⟩]⟩).toOption.map (fun r => r.1) =
      some shut ∧
    (do_transition (build32 ok quit shut) ev_write parked parked_world
        ⟨[.data ['q']], [.accepted 3], [⟨.shutdown_server, [], 1⟩]⟩).toOption.map
        (fun r => r.1) = some 0 ∧
    ((build32 ok quit shut).quit_connection ≠ (build32 ok quit shut).shutdown_server →
      (0 : Int) ≠ quit ∨ (0 : Int) ≠ shut) := by
  refine ⟨by rfl, by rfl, by rfl, by rfl, by rfl, ?_⟩
  intro hne
  by_cases hq : (0 : Int) = quit
  · right
    intro hs
    exact hne (hq.symm.trans hs)
  · exact Or.inl hq

/-! C3: the bytes of a reply reach the socket once and in order -/

theorem take_drop_append (l : List Char) (p a m : Nat) :
    (l.drop p).take a ++ (l.drop (p + a)).take m = (l.drop p).take (a + m) := by
  rw [List.take_add, List.drop_drop]

theorem load_inside {s : fsm_state_t} {b : buffer_t} (hb : s.buf = some b) (p j : Nat)
    (h : p + j ≤ b.data.length) : load s.buf p j = some ((b.data.drop p).take j) := by
  rw [hb]
  simp only [load]
  rw [if_pos h]

/-- One iteration of the send loop in which the socket takes fewer bytes than
requested. -/
theorem send_loop_short {rs : List write_result} {s : fsm_state_t} {w : io_world}
    {len : Int} {sz j : Nat} {bytes : List Char}
    (hload : load s.buf (s.snbuf + sz) j = some bytes) (hlt : (j : Int) < len - (sz : Int)) :
    send_loop (.accepted j :: rs) s w len sz =
      send_loop rs { s with snbuf := s.snbuf + sz }
        ((w.call (.write (s.snbuf + sz) (len - (sz : Int)))).emit bytes) (len - (sz : Int)) j := by
  simp only [send_loop, hload, if_pos hlt]

/-- One iteration of the send loop in which the socket takes all it is
offered. -/
theorem send_loop_full {rs : List write_result} {s : fsm_state_t} {w : io_world}
    {len : Int} {sz j : Nat} {bytes : List Char}
    (hload : load s.buf (s.snbuf + sz) j = some bytes) (hge : ¬ (j : Int) < len - (sz : Int)) :
    send_loop (.accepted j :: rs) s w len sz =
      .ok ({ s with snbuf := 0, nbuf := 0, state := .fsm_socket_connected },
        (w.call (.write (s.snbuf + sz) (len - (sz : Int)))).emit bytes, rs) := by
  simp only [send_loop, hload, if_neg hge]

/-- One iteration of the send loop in which the write would block. -/
theorem send_loop_blocked (rs : List write_result) (s : fsm_state_t) (w : io_world)
    (len : Int) (sz : Nat) :
    send_loop (.would_block :: rs) s w len sz =
      .ok ({ s with snbuf := s.snbuf + sz, state := .fsm_socket_send_incomplete },
        w.call (.write (s.snbuf + sz) (len - (sz : Int))), rs) := by
  simp only [send_loop]

/-- Partial writes that end in a would-block: the loop parks the connection
with `snbuf` advanced by the bytes taken, which are the next bytes of the
buffer. -/
theorem send_loop_parks (b : buffer_t) (n : Nat) (hn : n ≤ b.data.length)
    (rest : List write_result) (ks : List Nat) :
    ∀ (s : fsm_state_t) (w : io_world) (len : Int) (sz : Nat),
      s.buf = some b →
      len - (sz : Int) = (n : Int) - ((s.snbuf + sz : Nat) : Int) →
      s.snbuf + sz + ks.sum < n →
      ∃ w', send_loop (ks.map .accepted ++ .would_block :: rest) s w len sz =
          .ok ({ s with snbuf := s.snbuf + sz + ks.sum,
                        state := .fsm_socket_send_incomplete }, w', rest) ∧
        w'.sent = w.sent ++ (b.data.drop (s.snbuf + sz)).take ks.sum ∧
        w'.fresh = w.fresh := by
  induction ks with
  | nil =>
    intro s w len sz _ _ _
    refine ⟨w.call (.write (s.snbuf + sz) (len - (sz : Int))), ?_, ?_, ?_⟩
    · simp only [List.map_nil, List.nil_append, send_loop_blocked, List.sum_nil, Nat.add_zero]
    · simp [io_world.call]
    · simp [io_world.call]
  | cons j ks ih =>
    intro s w len sz hb hlen hsum
    simp only [List.sum_cons] at hsum
    have hload := load_inside hb (s.snbuf + sz) j (by omega)
    have hlt : (j : Int) < len - (sz : Int) := by omega
    obtain ⟨w', hrun, hsent, hfresh⟩ := ih { s with snbuf := s.snbuf + sz }
      ((w.call (.write (s.snbuf + sz) (len - (sz : Int)))).emit
        ((b.data.drop (s.snbuf + sz)).take j))
      (len - (sz : Int)) j hb (by simp only; omega) (by simp only; omega)
    refine ⟨w', ?_, ?_, ?_⟩
    · simp only [List.map_cons, List.cons_append, List.sum_cons]
      rw [send_loop_short hload hlt, hrun]
      simp only [Nat.add_assoc]
    · rw [hsent]
      simp only [io_world.call, io_world.emit, List.append_assoc, List.sum_cons]
      rw [take_drop_append]
    · rw [hfresh]
      simp [io_world.call, io_world.emit]

/-- Partial writes followed by a write that takes all that is left: the loop
finishes the send, and the bytes taken are the rest of the message. -/
theorem send_loop_completes (b : buffer_t) (n : Nat) (hn : n ≤ b.data.length)
    (k : Nat) (hk : 0 < k) (rest : List write_result) (ks : List Nat) :
    ∀ (s : fsm_state_t) (w : io_world) (len : Int) (sz : Nat),
      s.buf = some b →
      len - (sz : Int) = (n : Int) - ((s.snbuf + sz : Nat) : Int) →
      s.snbuf + sz + ks.sum + k = n →
      ∃ w', send_loop (ks.map .accepted ++ .accepted k :: rest) s w len sz =
          .ok ({ s with snbuf := 0, nbuf := 0, state := .fsm_socket_connected }, w', rest) ∧
        w'.sent = w.sent ++ (b.data.drop (s.snbuf + sz)).take (n - (s.snbuf + sz)) ∧
        w'.fresh = w.fresh := by
  induction ks with
  | nil =>
    intro s w len sz hb hlen hsum
    simp only [List.sum_nil, Nat.add_zero] at hsum
    have hload := load_inside hb (s.snbuf + sz) k (by omega)
    have hge : ¬ ((k : Int) < len - (sz : Int)) := by omega
    refine ⟨(w.call (.write (s.snbuf + sz) (len - (sz : Int)))).emit
      ((b.data.drop (s.snbuf + sz)).take k), ?_, ?_, ?_⟩
    · simp only [List.map_nil, List.nil_append]
      rw [send_loop_full hload hge]
    · have : n - (s.snbuf + sz) = k := by omega
      rw [this]
      simp [io_world.call, io_world.emit]
    · simp [io_world.call, io_world.emit]
  | cons j ks ih =>
    intro s w len sz hb hlen hsum
    simp only [List.sum_cons] at hsum
    have hload := load_inside hb (s.snbuf + sz) j (by omega)
    obtain ⟨w', hrun, hsent, hfresh⟩ := ih { s with snbuf := s.snbuf + sz }
      ((w.call (.write (s.snbuf + sz) (len - (sz : Int)))).emit
        ((b.data.drop (s.snbuf + sz)).take j))
      (len - (sz : Int)) j hb (by simp only; omega) (by simp only; omega)
    refine ⟨w', ?_, ?_, ?_⟩
    · have hlt : (j : Int) < len - (sz : Int) := by omega
      simp only [List.map_cons, List.cons_append]
      rw [send_loop_short hload hlt, hrun]
    · rw [hsent]
      simp only [io_world.call, io_world.emit, List.append_assoc]
      rw [take_drop_append]
      congr 2
      omega
    · rw [hfresh]
      simp [io_world.call, io_world.emit]

/-- The Write Pump called on a fresh or a parked message whose next writes
are partial and end in a would-block. -/
theorem send_msg_parks {b : buffer_t} {s : fsm_state_t} (w : io_world)
    (rest : List write_result) (ks : List Nat)
    (hb : s.buf = some b) (hn : s.nbuf ≤ b.data.length)
    (ha : s.snbuf = 0 ∨ s.state = .fsm_socket_send_incomplete)
    (hsum : s.snbuf + ks.sum < s.nbuf) :
    ∃ w', send_msg_to_client (ks.map .accepted ++ .would_block :: rest) s w =
        .ok ({ s with snbuf := s.snbuf + ks.sum, state := .fsm_socket_send_incomplete },
          w', rest) ∧
      w'.sent = w.sent ++ (b.data.drop s.snbuf).take ks.sum ∧ w'.fresh = w.fresh := by
  obtain ⟨w', hrun, hsent, hfresh⟩ := send_loop_parks b s.nbuf hn rest ks s w
    ((s.nbuf : Int) - (s.snbuf : Int)) 0 hb (by simp) (by simpa using hsum)
  refine ⟨w', ?_, by simpa using hsent, hfresh⟩
  unfold send_msg_to_client
  rw [if_pos ha, hrun]
  simp

/-- The Write Pump called on a fresh or a parked message whose next writes
take everything that is left. -/
theorem send_msg_completes {b : buffer_t} {s : fsm_state_t} (w : io_world)
    (rest : List write_result) (ks : List Nat) (k : Nat) (hk : 0 < k)
    (hb : s.buf = some b) (hn : s.nbuf ≤ b.data.length)
    (ha : s.snbuf = 0 ∨ s.state = .fsm_socket_send_incomplete)
    (hsum : s.snbuf + ks.sum + k = s.nbuf) :
    ∃ w', send_msg_to_client (ks.map .accepted ++ .accepted k :: rest) s w =
        .ok ({ s with snbuf := 0, nbuf := 0, state := .fsm_socket_connected }, w', rest) ∧
      w'.sent = w.sent ++ (b.data.drop s.snbuf).take (s.nbuf - s.snbuf) ∧
      w'.fresh = w.fresh := by
  obtain ⟨w', hrun, hsent, hfresh⟩ := send_loop_completes b s.nbuf hn k hk rest ks s w
    ((s.nbuf : Int) - (s.snbuf : Int)) 0 hb (by simp) (by simpa using hsum)
  refine ⟨w', ?_, by simpa using hsent, hfresh⟩
  unfold send_msg_to_client
  rw [if_pos ha, hrun]

/-- A would-block read at a loop head that is not in
`fsm_socket_recv_incomplete`: the buffer is released and the Read Pump
returns `transition_ok`. -/
theorem read_loop_idle (c : fsm_consts) (rs : List read_result) (s : fsm_state_t)
    (w : io_world) (ws : List write_result) (cs : List command_reply)
    (hs : s.state ≠ .fsm_socket_recv_incomplete) :
    read_loop c (.would_block :: rs) s w ws cs =
      .ok (c.transition_ok, init_state s,
        (w.call (.read s.nbuf ((c.IO_BUFFER_SIZE : Int) - (s.nbuf : Int)))).call
          (.free (s.buf.map buffer_t.id)), ⟨rs, ws, cs⟩) := by
  simp only [read_loop, if_pos hs, return_to_socket_connected]

/-- A writable event on a parked connection whose next writes take all that
is left, followed by a would-block read: the send ends, the Read Pump
releases the buffer, and `do_transition` returns 0. -/
theorem do_transition_resume_completes (c : fsm_consts) (b : buffer_t) (n p : Nat)
    (hn : n ≤ b.data.length) (ks : List Nat) (k : Nat) (hk : 0 < k)
    (hsum : p + ks.sum + k = n) (w : io_world) (post : List write_result)
    (rs : List read_result) (cs : List command_reply) :
    ∃ w', do_transition c ev_write ⟨.fsm_socket_send_incomplete, some b, n, p⟩ w
        ⟨.would_block :: rs, ks.map .accepted ++ .accepted k :: post, cs⟩ =
        .ok (0, ⟨.fsm_socket_connected, none, 0, 0⟩, w', ⟨rs, post, cs⟩) ∧
      w'.sent = w.sent ++ (b.data.drop p).take (n - p) ∧ w'.fresh = w.fresh := by
  obtain ⟨w1, hrun, hsent, hfresh⟩ := send_msg_completes
    (s := ⟨.fsm_socket_send_incomplete, some b, n, p⟩) w post ks k hk rfl hn
    (Or.inr rfl) hsum
  refine ⟨(w1.call (.read 0 ((c.IO_BUFFER_SIZE : Int) - ((0 : Nat) : Int)))).call
    (.free (some b.id)), ?_, ?_, ?_⟩
  · simp only [do_transition, do_socket_send_incomplete, ev_write, or_true, if_true, hrun]
    simp only [ne_eq, reduceCtorEq, not_false_eq_true, if_true, do_socket_ready]
    rw [read_loop_idle _ _ _ _ _ _ (by simp)]
    rfl
  · simpa [io_world.call] using hsent
  · simpa [io_world.call] using hfresh

/-- A writable event on a parked connection whose next writes are partial
and end in a would-block: the connection stays parked, no read is made, and
`do_transition` returns 0. -/
theorem do_transition_resume_parks (c : fsm_consts) (b : buffer_t) (n p : Nat)
    (hn : n ≤ b.data.length) (ks : List Nat) (hsum : p + ks.sum < n) (w : io_world)
    (rest : List write_result) (rds : List read_result) (cs : List command_reply) :
    ∃ w', do_transition c ev_write ⟨.fsm_socket_send_incomplete, some b, n, p⟩ w
        ⟨rds, ks.map .accepted ++ .would_block :: rest, cs⟩ =
        .ok (0, ⟨.fsm_socket_send_incomplete, some b, n, p + ks.sum⟩, w', ⟨rds, rest, cs⟩) ∧
      w'.sent = w.sent ++ (b.data.drop p).take ks.sum ∧ w'.fresh = w.fresh := by
  obtain ⟨w1, hrun, hsent, hfresh⟩ := send_msg_parks
    (s := ⟨.fsm_socket_send_incomplete, some b, n, p⟩) w rest ks rfl hn (Or.inr rfl) hsum
  refine ⟨w1, ?_, hsent, hfresh⟩
  simp only [do_transition, do_socket_send_incomplete, ev_write, or_true, if_true, hrun]
  simp

/-- Resumption of a parked send, one writable event after the other, up to
its end. -/
theorem deliver_writable_drains (c : fsm_consts) (b : buffer_t) (n : Nat)
    (hn : n ≤ b.data.length) (last : List Nat) (k : Nat) (hk : 0 < k)
    (post : List write_result) (rs : List read_result) (cs : List command_reply)
    (segs : List (List Nat)) :
    ∀ (p : Nat) (w : io_world),
      p + total_accepted segs + last.sum + k = n →
      ∃ w', deliver_writable c (segs.length + 1)
          ⟨.fsm_socket_send_incomplete, some b, n, p⟩ w
          ⟨.would_block :: rs, partial_writes segs (last.map .accepted ++ .accepted k :: post),
            cs⟩ = .ok (⟨.fsm_socket_connected, none, 0, 0⟩, w', ⟨rs, post, cs⟩) ∧
        w'.sent = w.sent ++ (b.data.drop p).take (n - p) := by
  induction segs with
  | nil =>
    intro p w hsum
    simp only [total_accepted, List.map_nil, List.sum_nil, Nat.add_zero] at hsum
    obtain ⟨w1, hrun, hsent, -⟩ := do_transition_resume_completes c b n p hn last k hk hsum
      w post rs cs
    refine ⟨w1, ?_, hsent⟩
    simp only [List.length_nil, Nat.zero_add, deliver_writable, partial_writes, if_true, hrun]
  | cons ks segs ih =>
    intro p w hsum
    simp only [total_accepted, List.map_cons, List.sum_cons] at hsum
    obtain ⟨w1, hrun, hsent, -⟩ := do_transition_resume_parks c b n p hn ks
      (by omega) w (partial_writes segs (last.map .accepted ++ .accepted k :: post))
      (.would_block :: rs) cs
    obtain ⟨w', hrest, hsent'⟩ := ih (p + ks.sum) w1 (by simp only [total_accepted]; omega)
    refine ⟨w', ?_, ?_⟩
    · rw [← hrest]
      simp only [List.length_cons, deliver_writable, partial_writes, if_true, hrun]
    · rw [hsent', hsent]
      simp only [List.append_assoc]
      rw [take_drop_append]
      congr 2
      omega

/-- C3.  A reply of `n` bytes is in `buf[0..n)` with `snbuf = 0` and
`n ≤ IO_BUFFER_SIZE`.  The socket takes it in any series of partial writes:
each list of `segs` is a run of accepted counts that ends in a would-block
(after which a writable event is dispatched through `do_transition`), `last`
and `k > 0` are the accepted counts of the run that ends the send, and all
counts add up to `n`.  Then the session returns, the send is over
(`fsm_socket_connected`, `nbuf = snbuf = 0`), exactly these write results
were used up, and the bytes the socket accepted are `buf[0..n)`, in order,
each once. -/
theorem C3_reply_sent_once_in_order (c : fsm_consts) (b : buffer_t) (n : Nat) (st : state_t)
    (w : io_world) (segs : List (List Nat)) (last : List Nat) (k : Nat)
    (post : List write_result) (rs : List read_result) (cs : List command_reply)
    (hcap : b.data.length = c.IO_BUFFER_SIZE) (hn : n ≤ c.IO_BUFFER_SIZE) (hk : 0 < k)
    (hsum : total_accepted segs + last.sum + k = n) :
    ∃ s' w' sc', send_session c segs.length ⟨st, some b, n, 0⟩ w
        ⟨.would_block :: rs, partial_writes segs (last.map .accepted ++ .accepted k :: post),
          cs⟩ = .ok (s', w', sc') ∧
      s'.state = .fsm_socket_connected ∧ s'.nbuf = 0 ∧ s'.snbuf = 0 ∧ sc'.writes = post ∧
      w'.sent = w.sent ++ b.data.take n := by
  have hn' : n ≤ b.data.length := by omega
  cases segs with
  | nil =>
    simp only [total_accepted, List.map_nil, List.sum_nil, Nat.zero_add] at hsum
    obtain ⟨w1, hrun, hsent, -⟩ := send_msg_completes (s := ⟨st, some b, n, 0⟩) w post last k hk
      rfl hn' (Or.inl rfl) (by simpa using hsum)
    refine ⟨⟨.fsm_socket_connected, some b, 0, 0⟩, w1, ⟨.would_block :: rs, post, cs⟩,
      ?_, ?_, ?_, ?_, ?_, ?_⟩
    · simp only [send_session, partial_writes, hrun, List.length_nil, deliver_writable]
    · rfl
    · rfl
    · rfl
    · rfl
    · simpa using hsent
  | cons ks segs =>
    simp only [total_accepted, List.map_cons, List.sum_cons] at hsum
    obtain ⟨w1, hrun, hsent, -⟩ := send_msg_parks (s := ⟨st, some b, n, 0⟩) w
      (partial_writes segs (last.map .accepted ++ .accepted k :: post)) ks rfl hn'
      (Or.inl rfl) (by simp only; omega)
    obtain ⟨w', hrest, hsent'⟩ := deliver_writable_drains c b n hn' last k hk post rs cs segs
      (0 + ks.sum) w1 (by simp only [total_accepted]; omega)
    refine ⟨⟨.fsm_socket_connected, none, 0, 0⟩, w', ⟨rs, post, cs⟩, ?_, ?_, ?_, ?_, ?_, ?_⟩
    · simp only [send_session, partial_writes, hrun, List.length_cons]
      exact hrest
    · rfl
    · rfl
    · rfl
    · rfl
    · rw [hsent', hsent]
      simp only [List.append_assoc, List.drop_zero]
      have := take_drop_append b.data 0 ks.sum (n - (0 + ks.sum))
      simp only [List.drop_zero] at this
      rw [this]
      congr 2
      omega

/-- Witness for C3: an 8-byte reply taken as 3 bytes, would-block, 2 bytes,
would-block, 1 byte and 2 bytes. -/
theorem C3_reply_sent_once_in_order_witness :
    ∃ s' w' sc', send_session demo 2
        ⟨.fsm_socket_connected, some ⟨0, "ABCDEFGH".toList ++ List.replicate 24 NUL⟩, 8, 0⟩
        io_world.empty
        ⟨[.would_block], partial_writes [[3], [2]] ([1].map .accepted ++ [.accepted 2]), []⟩ =
          .ok (s', w', sc') ∧
      s'.state = .fsm_socket_connected ∧ s'.nbuf = 0 ∧ s'.snbuf = 0 ∧ sc'.writes = [] ∧
      w'.sent = io_world.empty.sent ++
        (buffer_t.mk 0 ("ABCDEFGH".toList ++ List.replicate 24 NUL)).data.take 8 :=
  C3_reply_sent_once_in_order demo ⟨0, "ABCDEFGH".toList ++ List.replicate 24 NUL⟩ 8
    .fsm_socket_connected io_world.empty [[3], [2]] [1] 2 [] [] [] (by decide) (by decide)
    (by decide) (by decide)

/-! C4: a spurious readable event -/

/-- C4.  A socket event on a connection in `fsm_socket_connected` with
`nbuf = snbuf = 0` whose first read would block: `do_transition` returns
`transition_ok` and the connection is in the clean connected state.  The
calls made are the read and the `free` of the buffer held (first
conjunct), or, when no buffer was held, the `malloc`, the read and the
`free` of the new buffer (second conjunct): no processor call, no write,
nothing sent, and the rest of the script is untouched.  Dispatching the same
event again ends in the same state (third conjunct). -/
theorem C4_spurious_readable (c : fsm_consts) (op : event_op_t) (b : buffer_t)
    (buf : Option buffer_t) (w : io_world) (rs : List read_result)
    (ws : List write_result) (cs : List command_reply) :
    do_transition c ⟨.et_sock, op⟩ ⟨.fsm_socket_connected, some b, 0, 0⟩ w
        ⟨.would_block :: rs, ws, cs⟩ =
      .ok (c.transition_ok, ⟨.fsm_socket_connected, none, 0, 0⟩,
        ⟨w.log ++ [.read 0 c.IO_BUFFER_SIZE, .free (some b.id)], w.sent, w.fresh⟩,
        ⟨rs, ws, cs⟩) ∧
    do_transition c ⟨.et_sock, op⟩ ⟨.fsm_socket_connected, none, 0, 0⟩ w
        ⟨.would_block :: rs, ws, cs⟩ =
      .ok (c.transition_ok, ⟨.fsm_socket_connected, none, 0, 0⟩,
        ⟨w.log ++ [.malloc w.fresh, .read 0 c.IO_BUFFER_SIZE, .free (some w.fresh)], w.sent,
          w.fresh + 1⟩, ⟨rs, ws, cs⟩) ∧
    ∃ w1 w2,
      do_transition c ⟨.et_sock, op⟩ ⟨.fsm_socket_connected, buf, 0, 0⟩ w
          ⟨.would_block :: .would_block :: rs, ws, cs⟩ =
        .ok (c.transition_ok, ⟨.fsm_socket_connected, none, 0, 0⟩, w1,
          ⟨.would_block :: rs, ws, cs⟩) ∧
      do_transition c ⟨.et_sock, op⟩ ⟨.fsm_socket_connected, none, 0, 0⟩ w1
          ⟨.would_block :: rs, ws, cs⟩ =
        .ok (c.transition_ok, ⟨.fsm_socket_connected, none, 0, 0⟩, w2, ⟨rs, ws, cs⟩) ∧
      w2.sent = w.sent := by
  have hsome : ∀ (b : buffer_t) (w : io_world) (rs : List read_result),
      do_transition c ⟨.et_sock, op⟩ ⟨.fsm_socket_connected, some b, 0, 0⟩ w
          ⟨.would_block :: rs, ws, cs⟩ =
        .ok (c.transition_ok, ⟨.fsm_socket_connected, none, 0, 0⟩,
          ⟨w.log ++ [.read 0 c.IO_BUFFER_SIZE, .free (some b.id)], w.sent, w.fresh⟩,
          ⟨rs, ws, cs⟩) := by
    intro b w rs
    simp [do_transition, do_socket_ready, read_loop, return_to_socket_connected, init_state,
      io_world.call]
  have hnone : ∀ (w : io_world) (rs : List read_result),
      do_transition c ⟨.et_sock, op⟩ ⟨.fsm_socket_connected, none, 0, 0⟩ w
          ⟨.would_block :: rs, ws, cs⟩ =
        .ok (c.transition_ok, ⟨.fsm_socket_connected, none, 0, 0⟩,
          ⟨w.log ++ [.malloc w.fresh, .read 0 c.IO_BUFFER_SIZE, .free (some w.fresh)], w.sent,
            w.fresh + 1⟩, ⟨rs, ws, cs⟩) := by
    intro w rs
    simp [do_transition, do_socket_ready, read_loop, return_to_socket_connected, init_state,
      io_world.call, io_world.malloc]
  refine ⟨hsome b w rs, hnone w rs, ?_⟩
  cases buf with
  | none => exact ⟨_, _, hnone w _, hnone _ rs, rfl⟩
  | some b' => exact ⟨_, _, hsome b' w _, hnone _ rs, rfl⟩

/-! C5: every buffer is freed exactly once -/

theorem heap_replay_call (w : io_world) (e : io_call) :
    heap_replay (w.call e).log = heap_step (heap_replay w.log) e := by
  simp [heap_replay, io_world.call, List.foldl_append]

theorem heap_step_write (x : Option (List Nat)) (off : Nat) (len : Int) :
    heap_step x (.write off len) = x := by
  cases x <;> rfl

theorem heap_step_read (x : Option (List Nat)) (off : Nat) (len : Int) :
    heap_step x (.read off len) = x := by
  cases x <;> rfl

theorem heap_step_process (x : Option (List Nat)) (seen : List Char) :
    heap_step x (.process_command seen) = x := by
  cases x <;> rfl

theorem held_of_buf {s : fsm_state_t} {b : buffer_t} (h : s.buf = some b) : held s = [b.id] := by
  simp [held, h]

/-- The send loop makes no allocator call and keeps the buffer pointer. -/
theorem send_loop_heap (ws : List write_result) :
    ∀ (s : fsm_state_t) (w : io_world) (len : Int) (sz : Nat)
      (s' : fsm_state_t) (w' : io_world) (ws' : List write_result),
      send_loop ws s w len sz = .ok (s', w', ws') →
      heap_replay w'.log = heap_replay w.log ∧ s'.buf = s.buf := by
  induction ws with
  | nil => intro s w len sz s' w' ws' h; simp [send_loop] at h
  | cons r rs ih =>
    intro s w len sz s' w' ws' h
    cases r with
    | would_block =>
      rw [send_loop_blocked] at h
      simp only [Except.ok.injEq, Prod.mk.injEq] at h
      obtain ⟨rfl, rfl, -⟩ := h
      exact ⟨by rw [heap_replay_call, heap_step_write], rfl⟩
    | error => simp [send_loop] at h
    | accepted k =>
      cases hl : load s.buf (s.snbuf + sz) k with
      | none => simp [send_loop, hl] at h
      | some bytes =>
        by_cases hlt : (k : Int) < len - (sz : Int)
        · rw [send_loop_short hl hlt] at h
          obtain ⟨h1, h2⟩ := ih _ _ _ _ _ _ _ h
          refine ⟨?_, h2⟩
          rw [h1]
          show heap_replay (w.call _).log = _
          rw [heap_replay_call, heap_step_write]
        · rw [send_loop_full hl hlt] at h
          simp only [Except.ok.injEq, Prod.mk.injEq] at h
          obtain ⟨rfl, rfl, -⟩ := h
          refine ⟨?_, rfl⟩
          show heap_replay (w.call _).log = _
          rw [heap_replay_call, heap_step_write]

theorem send_msg_to_client_heap {ws ws' : List write_result} {s s' : fsm_state_t}
    {w w' : io_world} (h : send_msg_to_client ws s w = .ok (s', w', ws')) :
    heap_replay w'.log = heap_replay w.log ∧ s'.buf = s.buf := by
  unfold send_msg_to_client at h
  split at h
  · exact send_loop_heap _ _ _ _ _ _ _ _ h
  · simp at h

theorem send_err_to_client_heap {ws ws' : List write_result} {s s' : fsm_state_t}
    {w w' : io_world} (h : send_err_to_client ws s w = .ok (s', w', ws')) :
    heap_replay w'.log = heap_replay w.log ∧ held s' = held s := by
  unfold send_err_to_client at h
  split at h
  · simp at h
  · rename_i b' hst
    obtain ⟨b, hb, hid, -, -, -⟩ := store_length hst
    obtain ⟨h1, h2⟩ := send_msg_to_client_heap h
    refine ⟨h1, ?_⟩
    rw [held_of_buf h2, held_of_buf hb, hid]

/-- The read loop, entered with the buffer that the audit shows as the one
allocated buffer, passes the audit, and what the audit shows as allocated at
the end is what the connection holds. -/
theorem read_loop_heap (c : fsm_consts) (rs : List read_result) :
    ∀ (s : fsm_state_t) (w : io_world) (ws : List write_result) (cs : List command_reply)
      (rc : Int) (s' : fsm_state_t) (w' : io_world) (sc' : script) (b : buffer_t),
      s.buf = some b → heap_replay w.log = some [b.id] →
      read_loop c rs s w ws cs = .ok (rc, s', w', sc') →
      heap_replay w'.log = some (held s') := by
  induction rs with
  | nil => intro s w ws cs rc s' w' sc' b _ _ h; simp [read_loop] at h
  | cons r rs ih =>
    intro s w ws cs rc s' w' sc' b hb hw h
    have hw1 : heap_replay (w.call (.read s.nbuf ((c.IO_BUFFER_SIZE : Int) - (s.nbuf : Int)))).log
        = some [b.id] := by
      rw [heap_replay_call, heap_step_read, hw]
    cases r with
    | would_block =>
      simp only [read_loop] at h
      split at h
      · simp only [Except.ok.injEq, Prod.mk.injEq] at h
        obtain ⟨-, rfl, rfl, -⟩ := h
        simp only [return_to_socket_connected]
        rw [heap_replay_call, hw1, hb]
        simp [heap_step, held, init_state]
      · simp only [Except.ok.injEq, Prod.mk.injEq] at h
        obtain ⟨-, rfl, rfl, -⟩ := h
        rw [hw1, held_of_buf hb]
    | error => simp [read_loop] at h
    | data bytes =>
      simp only [read_loop] at h
      split at h
      · split at h
        · simp at h
        · rename_i b1 hst
          obtain ⟨b0, hb0, hid1, -, -, -⟩ := store_length hst
          rw [hb] at hb0
          cases hb0
          split at h
          · simp at h
          · rename_i res s2 w2 cs2 hpc
            obtain ⟨r, b2, b3, -, -, -, -, -, hb2, hb3, hid3, -, -, -, hlog⟩ :=
              process_command_spec hpc
            simp only [Option.some.injEq] at hb2
            subst hb2
            have hw2 : heap_replay w2.log = some [b3.id] := by
              unfold heap_replay at hw1 ⊢
              rw [hlog, List.foldl_append, List.foldl_cons, List.foldl_nil, heap_step_process,
                hw1, hid3, hid1]
            split at h
            · split at h
              · simp at h
              · rename_i s3 w3 ws3 hsent
                have h3 : heap_replay w3.log = some [b3.id] ∧ held s3 = [b3.id] := by
                  split at hsent
                  · obtain ⟨h1, h2⟩ := send_err_to_client_heap hsent
                    exact ⟨by rw [h1, hw2], by rw [h2, held_of_buf hb3]⟩
                  · split at hsent
                    · obtain ⟨h1, h2⟩ := send_msg_to_client_heap hsent
                      exact ⟨by rw [h1, hw2], by rw [held_of_buf (h2.trans hb3)]⟩
                    · simp only [Except.ok.injEq, Prod.mk.injEq] at hsent
                      obtain ⟨rfl, rfl, -⟩ := hsent
                      exact ⟨hw2, held_of_buf hb3⟩
                obtain ⟨hw3, hh3⟩ := h3
                have hb4 : ∃ b4, s3.buf = some b4 ∧ b4.id = b3.id := by
                  unfold held at hh3
                  split at hh3
                  · rename_i b4 hb4
                    exact ⟨b4, hb4, by simpa using hh3⟩
                  · simp at hh3
                obtain ⟨b4, hb4, hid4⟩ := hb4
                split at h
                · refine ih _ _ _ _ _ _ _ _ b4 ?_ ?_ h
                  · exact hb4
                  · rw [hw3, hid4]
                · simp only [Except.ok.injEq, Prod.mk.injEq] at h
                  obtain ⟨-, rfl, rfl, -⟩ := h
                  rw [hw3, hh3]
            · split at h
              · refine ih _ _ _ _ _ _ _ _ b3 ?_ ?_ h
                · exact hb3
                · exact hw2
              · split at h
                · simp only [Except.ok.injEq, Prod.mk.injEq] at h
                  obtain ⟨-, rfl, rfl, -⟩ := h
                  rw [hw2, held_of_buf hb3]
                · split at h
                  · simp only [Except.ok.injEq, Prod.mk.injEq] at h
                    obtain ⟨-, rfl, rfl, -⟩ := h
                    rw [hw2, held_of_buf hb3]
                  · simp at h
      · simp only [Except.ok.injEq, Prod.mk.injEq] at h
        obtain ⟨-, rfl, rfl, -⟩ := h
        rw [hw1, held_of_buf hb]

theorem do_socket_ready_heap {c : fsm_consts} {event : event_t} {s s' : fsm_state_t}
    {w w' : io_world} {sc sc' : script} {rc : Int}
    (hw : heap_replay w.log = some (held s))
    (h : do_socket_ready c event s w sc = .ok (rc, s', w', sc')) :
    heap_replay w'.log = some (held s') := by
  unfold do_socket_ready at h
  split at h
  · split at h
    · rename_i hnone
      refine read_loop_heap c _ _ _ _ _ _ _ _ _ ⟨w.fresh, _⟩ rfl ?_ h
      have : heap_replay w.malloc.log = heap_step (heap_replay w.log) (.malloc w.fresh) := by
        simp [heap_replay, io_world.malloc, List.foldl_append]
      rw [this, hw]
      simp [held, hnone, heap_step]
    · rename_i b hb
      exact read_loop_heap c _ _ _ _ _ _ _ _ _ b hb (by rw [hw, held_of_buf hb]) h
  · simp at h

theorem do_transition_heap {c : fsm_consts} {event : event_t} {s s' : fsm_state_t}
    {w w' : io_world} {sc sc' : script} {rc : Int}
    (hw : heap_replay w.log = some (held s))
    (h : do_transition c event s w sc = .ok (rc, s', w', sc')) :
    heap_replay w'.log = some (held s') := by
  unfold do_transition at h
  split at h
  · exact do_socket_ready_heap hw h
  · exact do_socket_ready_heap hw h
  · unfold do_socket_send_incomplete at h
    split at h
    · have tail : ∀ (s1 : fsm_state_t) (w1 : io_world) (ws1 : List write_result),
          heap_replay w1.log = some (held s1) →
          (if s1.state ≠ .fsm_socket_send_incomplete then
              match do_socket_ready c { event with op := .eo_read } s1 w1
                  { sc with writes := ws1 } with
              | .error f => .error f
              | .ok (_, s2, w2, sc2) => .ok (0, s2, w2, sc2)
            else (.ok (0, s1, w1, { sc with writes := ws1 }) :
              Except fault (Int × fsm_state_t × io_world × script))) =
            .ok (rc, s', w', sc') →
          heap_replay w'.log = some (held s') := by
        intro s1 w1 ws1 hw1 h
        split at h
        · split at h
          · simp at h
          · rename_i rc2 s2 w2 sc2 hpump
            simp only [Except.ok.injEq, Prod.mk.injEq] at h
            obtain ⟨-, rfl, rfl, -⟩ := h
            exact do_socket_ready_heap hw1 hpump
        · simp only [Except.ok.injEq, Prod.mk.injEq] at h
          obtain ⟨-, rfl, rfl, -⟩ := h
          exact hw1
      by_cases hop : event.op = .eo_rdwr ∨ event.op = .eo_write
      · simp only [if_pos hop] at h
        split at h
        · simp at h
        · rename_i s1 w1 ws1 hsent
          obtain ⟨h1, h2⟩ := send_msg_to_client_heap hsent
          refine tail s1 w1 ws1 ?_ h
          rw [h1, hw]
          simp [held, h2]
      · simp only [if_neg hop] at h
        exact tail s w sc.writes hw h
    · simp at h

theorem dispatch_all_heap (c : fsm_consts) (events : List event_t) :
    ∀ (s : fsm_state_t) (w : io_world) (sc : script) (rcs : List Int) (s' : fsm_state_t)
      (w' : io_world) (sc' : script),
      heap_replay w.log = some (held s) →
      dispatch_all c events s w sc = .ok (rcs, s', w', sc') →
      heap_replay w'.log = some (held s') := by
  induction events with
  | nil =>
    intro s w sc rcs s' w' sc' hw h
    simp only [dispatch_all, Except.ok.injEq, Prod.mk.injEq] at h
    obtain ⟨-, rfl, rfl, -⟩ := h
    exact hw
  | cons e es ih =>
    intro s w sc rcs s' w' sc' hw h
    simp only [dispatch_all] at h
    split at h
    · simp at h
    · rename_i rc s1 w1 sc1 hstep
      split at h
      · simp at h
      · rename_i rcs2 s2 w2 sc2 hrest
        simp only [Except.ok.injEq, Prod.mk.injEq] at h
        obtain ⟨-, rfl, rfl, -⟩ := h
        exact ih _ _ _ _ _ _ _ (do_transition_heap hw hstep) hrest

theorem heap_fold_none (log : List io_call) : log.foldl heap_step none = none := by
  induction log with
  | nil => rfl
  | cons e es ih => simpa [List.foldl_cons, heap_step] using ih

/-- A log that passes the audit has as many `malloc` calls, plus the buffers
allocated at the start, as `free` calls plus the buffers still allocated. -/
theorem heap_fold_counts (log : List io_call) :
    ∀ (live live' : List Nat), log.foldl heap_step (some live) = some live' →
      mallocs log + live.length = frees log + live'.length := by
  induction log with
  | nil =>
    intro live live' h
    simp only [List.foldl_nil, Option.some.injEq] at h
    subst h
    simp [mallocs, frees]
  | cons e es ih =>
    intro live live' h
    simp only [List.foldl_cons] at h
    cases e with
    | malloc id =>
      by_cases hl : live = []
      · simp only [heap_step, if_pos hl] at h
        have := ih _ _ h
        subst hl
        simp [mallocs, frees, List.countP_cons] at this ⊢
        omega
      · simp only [heap_step, if_neg hl, heap_fold_none] at h
        simp at h
    | free p =>
      cases p with
      | none =>
        simp only [heap_step, heap_fold_none] at h
        simp at h
      | some id =>
        by_cases hm : id ∈ live
        · simp only [heap_step, if_pos hm] at h
          have := ih _ _ h
          have hlen := List.length_erase_of_mem hm
          have hpos : 0 < live.length := List.length_pos_of_mem hm
          simp [mallocs, frees, List.countP_cons] at this ⊢
          omega
        · simp only [heap_step, if_neg hm, heap_fold_none] at h
          simp at h
    | read off len =>
      have := ih _ _ h
      simp [mallocs, frees, List.countP_cons] at this ⊢
      omega
    | write off len =>
      have := ih _ _ h
      simp [mallocs, frees, List.countP_cons] at this ⊢
      omega
    | process_command seen =>
      have := ih _ _ h
      simp [mallocs, frees, List.countP_cons] at this ⊢
      omega

/-- C5.  Any sequence of events is dispatched on a new connection (so also
one whose last dispatch reads 0 bytes and returns `quit_connection`), and
the connection is then destroyed.  The log of allocator calls passes the
audit (`malloc` only while no buffer is allocated, so at most one buffer is
held at any time; every `free` is of the buffer now allocated, so never of
one already freed), no buffer is left allocated, and the number of `free`
calls equals the number of `malloc` calls. -/
theorem C5_buffer_freed_exactly_once (c : fsm_consts) (events : List event_t) (sc sc' : script)
    (rcs : List Int) (s' : fsm_state_t) (w' : io_world)
    (h : dispatch_all c events fsm_state_t.new io_world.empty sc = .ok (rcs, s', w', sc')) :
    heap_replay (destroy s' w').log = some [] ∧
      frees (destroy s' w').log = mallocs (destroy s' w').log := by
  have hw : heap_replay w'.log = some (held s') :=
    dispatch_all_heap c events _ _ _ _ _ _ _ (by rfl) h
  have hfinal : heap_replay (destroy s' w').log = some [] := by
    unfold destroy
    cases hb : s'.buf with
    | none =>
      simp only
      rw [hw]
      simp [held, hb]
    | some b =>
      simp only
      rw [heap_replay_call, hw]
      simp [held, hb, heap_step]
  refine ⟨hfinal, ?_⟩
  have := heap_fold_counts _ _ _ hfinal
  simpa using this.symm

/-- Witness for C5: a command whose reply needs a second dispatch, then a
peer close; two buffers are allocated and two are freed. -/
theorem C5_buffer_freed_exactly_once_witness :
    dispatch_all demo close_events fsm_state_t.new io_world.empty close_script =
      .ok ([0, 0, 1], close_state, close_world, ⟨[], [], []⟩) ∧
    heap_replay (destroy close_state close_world).log = some [] ∧
    frees (destroy close_state close_world).log = mallocs (destroy close_state close_world).log :=
  ⟨by rfl, C5_buffer_freed_exactly_once demo close_events close_script ⟨[], [], []⟩ [0, 0, 1]
    close_state close_world (by rfl)⟩

/-! One iteration of the read loop, verdict by verdict -/

theorem poke_length {data : List Char} {off : Nat} {bytes : List Char}
    (h : off + bytes.length ≤ data.length) : (poke data off bytes).length = data.length := by
  simp only [poke, List.length_append, List.length_take, List.length_drop]
  omega

theorem poke_take_front (data bytes : List Char) :
    (poke data 0 bytes).take bytes.length = bytes := by
  simp [poke]

theorem poke_take_append {data : List Char} {off : Nat} (bytes : List Char)
    (h : off ≤ data.length) :
    (poke data off bytes).take (off + bytes.length) = data.take off ++ bytes := by
  have hl : (data.take off ++ bytes).length = off + bytes.length := by
    simp [List.length_take, Nat.min_eq_left h]
  simp only [poke]
  rw [← hl, List.take_left']
  rfl

theorem store_inside {buf : Option buffer_t} {b : buffer_t} (hb : buf = some b) (off : Nat)
    (bytes : List Char) (h : off + bytes.length ≤ b.data.length) :
    store buf off bytes = some ⟨b.id, poke b.data off bytes⟩ := by
  rw [hb]
  simp only [store]
  rw [if_pos h]

theorem process_command_run {B : Nat} {s : fsm_state_t} {b : buffer_t} (w : io_world)
    (r : command_reply) (cs : List command_reply) (hb : s.buf = some b)
    (hr : r.buf.length ≤ b.data.length) :
    process_command B (r :: cs) s w =
      .ok (r.res, ⟨s.state, some ⟨b.id, poke b.data 0 r.buf⟩, r.nbuf, s.snbuf⟩,
        w.call (.process_command (b.data.take (min s.nbuf B))), cs) := by
  have hst : store (some b) 0 r.buf = some ⟨b.id, poke b.data 0 r.buf⟩ :=
    store_inside rfl 0 r.buf (by omega)
  simp only [process_command, hb, hst, Option.map_some', Option.getD_some]

/-- A read of `chunk` answered `incomplete_command`: the loop goes on in
`fsm_socket_recv_incomplete`. -/
theorem read_loop_incomplete (c : fsm_consts) {s : fsm_state_t} {b : buffer_t} (w : io_world)
    (chunk : List Char) (r : command_reply) (rs : List read_result) (ws : List write_result)
    (cs : List command_reply) (hb : s.buf = some b) (h0 : 0 < chunk.length)
    (hfit : s.nbuf + chunk.length ≤ b.data.length) (hr : r.buf.length ≤ b.data.length)
    (hres : r.res = .incomplete_command) :
    read_loop c (.data chunk :: rs) s w ws (r :: cs) =
      read_loop c rs
        ⟨.fsm_socket_recv_incomplete, some ⟨b.id, poke (poke b.data s.nbuf chunk) 0 r.buf⟩,
          r.nbuf, s.snbuf⟩
        (after_command_world c s b chunk w) ws cs := by
  have hpc := process_command_run (B := c.IO_BUFFER_SIZE)
    (s := ⟨s.state, some ⟨b.id, poke b.data s.nbuf chunk⟩, s.nbuf + chunk.length, s.snbuf⟩)
    (w.call (.read s.nbuf ((c.IO_BUFFER_SIZE : Int) - (s.nbuf : Int)))) r cs rfl
    (by rw [poke_length hfit]; exact hr)
  simp only [read_loop, if_pos h0, store_inside hb s.nbuf chunk hfit, hpc, hres]
  simp [after_command, after_command_world]

/-- A read of `chunk` answered `command_success_no_response`: the loop goes
on in the clean connected state, the buffer kept. -/
theorem read_loop_no_response (c : fsm_consts) {s : fsm_state_t} {b : buffer_t} (w : io_world)
    (chunk : List Char) (r : command_reply) (rs : List read_result) (ws : List write_result)
    (cs : List command_reply) (hb : s.buf = some b) (h0 : 0 < chunk.length)
    (hfit : s.nbuf + chunk.length ≤ b.data.length) (hr : r.buf.length ≤ b.data.length)
    (hres : r.res = .command_success_no_response)
    (hst : s.state ≠ .fsm_socket_send_incomplete) :
    read_loop c (.data chunk :: rs) s w ws (r :: cs) =
      read_loop c rs
        ⟨.fsm_socket_connected, some ⟨b.id, poke (poke b.data s.nbuf chunk) 0 r.buf⟩, 0, 0⟩
        (after_command_world c s b chunk w) ws cs := by
  have hpc := process_command_run (B := c.IO_BUFFER_SIZE)
    (s := ⟨s.state, some ⟨b.id, poke b.data s.nbuf chunk⟩, s.nbuf + chunk.length, s.snbuf⟩)
    (w.call (.read s.nbuf ((c.IO_BUFFER_SIZE : Int) - (s.nbuf : Int)))) r cs rfl
    (by rw [poke_length hfit]; exact hr)
  simp only [read_loop, if_pos h0, store_inside hb s.nbuf chunk hfit, hpc, hres]
  simp [after_command, after_command_world, hst]

/-- A read of `chunk` answered `command_success_response_ready`: the Write
Pump runs on the processor's reply; if it parks the connection the Read Pump
returns `transition_ok`, else the loop goes on in the clean connected
state. -/
theorem read_loop_response (c : fsm_consts) {s : fsm_state_t} {b : buffer_t} (w : io_world)
    (chunk : List Char) (r : command_reply) (rs : List read_result) (ws : List write_result)
    (cs : List command_reply) (hb : s.buf = some b) (h0 : 0 < chunk.length)
    (hfit : s.nbuf + chunk.length ≤ b.data.length) (hr : r.buf.length ≤ b.data.length)
    (hres : r.res = .command_success_response_ready) :
    read_loop c (.data chunk :: rs) s w ws (r :: cs) =
      match send_msg_to_client ws (after_command s b chunk r)
          (after_command_world c s b chunk w) with
      | .error f => .error f
      | .ok (s3, w3, ws3) =>
        if s3.state ≠ .fsm_socket_send_incomplete then
          read_loop c rs { s3 with state := .fsm_socket_connected, nbuf := 0, snbuf := 0 }
            w3 ws3 cs
        else .ok (c.transition_ok, s3, w3, ⟨rs, ws3, cs⟩) := by
  have hpc := process_command_run (B := c.IO_BUFFER_SIZE)
    (s := ⟨s.state, some ⟨b.id, poke b.data s.nbuf chunk⟩, s.nbuf + chunk.length, s.snbuf⟩)
    (w.call (.read s.nbuf ((c.IO_BUFFER_SIZE : Int) - (s.nbuf : Int)))) r cs rfl
    (by rw [poke_length hfit]; exact hr)
  simp only [read_loop, if_pos h0, store_inside hb s.nbuf chunk hfit, hpc, hres]
  simp [after_command, after_command_world]

/-- A read of `chunk` answered `malformed_command`: the Error Responder
runs; if its send parks the connection the Read Pump returns
`transition_ok`, else the loop goes on in the clean connected state. -/
theorem read_loop_malformed (c : fsm_consts) {s : fsm_state_t} {b : buffer_t} (w : io_world)
    (chunk : List Char) (r : command_reply) (rs : List read_result) (ws : List write_result)
    (cs : List command_reply) (hb : s.buf = some b) (h0 : 0 < chunk.length)
    (hfit : s.nbuf + chunk.length ≤ b.data.length) (hr : r.buf.length ≤ b.data.length)
    (hres : r.res = .malformed_command) :
    read_loop c (.data chunk :: rs) s w ws (r :: cs) =
      match send_err_to_client ws (after_command s b chunk r)
          (after_command_world c s b chunk w) with
      | .error f => .error f
      | .ok (s3, w3, ws3) =>
        if s3.state ≠ .fsm_socket_send_incomplete then
          read_loop c rs { s3 with state := .fsm_socket_connected, nbuf := 0, snbuf := 0 }
            w3 ws3 cs
        else .ok (c.transition_ok, s3, w3, ⟨rs, ws3, cs⟩) := by
  have hpc := process_command_run (B := c.IO_BUFFER_SIZE)
    (s := ⟨s.state, some ⟨b.id, poke b.data s.nbuf chunk⟩, s.nbuf + chunk.length, s.snbuf⟩)
    (w.call (.read s.nbuf ((c.IO_BUFFER_SIZE : Int) - (s.nbuf : Int)))) r cs rfl
    (by rw [poke_length hfit]; exact hr)
  simp only [read_loop, if_pos h0, store_inside hb s.nbuf chunk hfit, hpc, hres]
  simp [after_command, after_command_world]

/-- The Write Pump on a fresh message that the socket takes in one write. -/
theorem send_msg_full {s : fsm_state_t} {b : buffer_t} (w : io_world) (ws : List write_result)
    (hb : s.buf = some b) (hsn : s.snbuf = 0) (hn : s.nbuf ≤ b.data.length) :
    send_msg_to_client (.accepted s.nbuf :: ws) s w =
      .ok ({ s with snbuf := 0, nbuf := 0, state := .fsm_socket_connected },
        (w.call (.write 0 s.nbuf)).emit (b.data.take s.nbuf), ws) := by
  have hload : load s.buf (s.snbuf + 0) s.nbuf = some ((b.data.drop (s.snbuf + 0)).take s.nbuf) :=
    load_inside hb _ _ (by omega)
  unfold send_msg_to_client
  rw [if_pos (Or.inl hsn), send_loop_full hload (by simp [hsn])]
  simp [hsn]

/-! C6: complete commands with immediate replies -/

/-- The read loop over a series of exchanges that ends in a would-block
read. -/
theorem read_loop_exchanges (c : fsm_consts) (rs : List read_result) (ws : List write_result)
    (cs : List command_reply) (xs : List (List Char × List Char)) :
    ∀ (b : buffer_t) (w : io_world), b.data.length = c.IO_BUFFER_SIZE →
      (∀ x ∈ xs, 0 < x.1.length ∧ x.1.length ≤ c.IO_BUFFER_SIZE ∧
        x.2.length ≤ c.IO_BUFFER_SIZE) →
      ∃ w', read_loop c (exchange_reads xs ++ .would_block :: rs)
          ⟨.fsm_socket_connected, some b, 0, 0⟩ w (exchange_writes xs ++ ws)
          (exchange_commands xs ++ cs) =
          .ok (c.transition_ok, ⟨.fsm_socket_connected, none, 0, 0⟩, w', ⟨rs, ws, cs⟩) ∧
        w'.sent = w.sent ++ replies_concat xs ∧ w'.fresh = w.fresh := by
  induction xs with
  | nil =>
    intro b w _ _
    refine ⟨(w.call (.read 0 ((c.IO_BUFFER_SIZE : Int) - ((0 : Nat) : Int)))).call
      (.free (some b.id)), ?_, ?_, ?_⟩
    · simp only [exchange_reads, exchange_writes, exchange_commands, List.map_nil,
        List.nil_append]
      rw [read_loop_idle _ _ _ _ _ _ (by simp)]
      rfl
    · simp [io_world.call, replies_concat]
    · simp [io_world.call]
  | cons x xs ih =>
    intro b w hcap hx
    obtain ⟨hx0, hxB, hrB⟩ := hx x (List.mem_cons_self _ _)
    have hstep := read_loop_response c (s := ⟨.fsm_socket_connected, some b, 0, 0⟩) w x.1
      ⟨.command_success_response_ready, x.2, x.2.length⟩ (exchange_reads xs ++ .would_block :: rs)
      (.accepted x.2.length :: (exchange_writes xs ++ ws)) (exchange_commands xs ++ cs) rfl hx0
      (by simp only; omega) (by simp only; omega) rfl
    have hlen : (poke (poke b.data 0 x.1) 0 x.2).length = c.IO_BUFFER_SIZE := by
      rw [poke_length (by rw [poke_length (by omega)]; omega), poke_length (by omega), hcap]
    have hsend := send_msg_full
      (s := after_command ⟨.fsm_socket_connected, some b, 0, 0⟩ b x.1
        ⟨.command_success_response_ready, x.2, x.2.length⟩)
      (b := ⟨b.id, poke (poke b.data 0 x.1) 0 x.2⟩)
      (after_command_world c ⟨.fsm_socket_connected, some b, 0, 0⟩ b x.1 w)
      (exchange_writes xs ++ ws) rfl rfl (by simp only [after_command]; omega)
    simp only [after_command] at hsend hstep
    obtain ⟨w', hrun, hsent, hfresh⟩ := ih ⟨b.id, poke (poke b.data 0 x.1) 0 x.2⟩
      ((((after_command_world c ⟨.fsm_socket_connected, some b, 0, 0⟩ b x.1 w).call
        (.write 0 x.2.length)).emit ((poke (poke b.data 0 x.1) 0 x.2).take x.2.length)))
      hlen (fun y hy => hx y (List.mem_cons_of_mem _ hy))
    refine ⟨w', ?_, ?_, ?_⟩
    · show read_loop c (.data x.1 :: (exchange_reads xs ++ .would_block :: rs))
          ⟨.fsm_socket_connected, some b, 0, 0⟩ w
          (.accepted x.2.length :: (exchange_writes xs ++ ws))
          (⟨.command_success_response_ready, x.2, x.2.length⟩ :: (exchange_commands xs ++ cs))
          = _
      rw [hstep, hsend]
      simpa using hrun
    · rw [hsent]
      simp [io_world.emit, io_world.call, after_command_world, replies_concat,
        poke_take_front]
    · rw [hfresh]
      simp [io_world.emit, io_world.call, after_command_world]

/-- C6.  A connection in `fsm_socket_connected` with `nbuf = snbuf = 0` gets
a socket event; the reads deliver the chunks of `xs` (each of 1 to
`IO_BUFFER_SIZE` bytes), the processor answers each chunk
`command_success_response_ready` with its reply in `buf[0..nbuf)`, the
socket takes each reply in full, and the next read would block.  Then
`do_transition` returns `transition_ok`, the bytes sent are the replies in
order, and the connection is back in the clean connected state. -/
theorem C6_complete_commands (c : fsm_consts) (op : event_op_t) (buf : Option buffer_t)
    (w : io_world) (xs : List (List Char × List Char)) (rs : List read_result)
    (ws : List write_result) (cs : List command_reply)
    (hcap : ∀ b, buf = some b → b.data.length = c.IO_BUFFER_SIZE)
    (hxs : ∀ x ∈ xs, 0 < x.1.length ∧ x.1.length ≤ c.IO_BUFFER_SIZE ∧
      x.2.length ≤ c.IO_BUFFER_SIZE) :
    ∃ w', do_transition c ⟨.et_sock, op⟩ ⟨.fsm_socket_connected, buf, 0, 0⟩ w
        ⟨exchange_reads xs ++ .would_block :: rs, exchange_writes xs ++ ws,
          exchange_commands xs ++ cs⟩ =
        .ok (c.transition_ok, ⟨.fsm_socket_connected, none, 0, 0⟩, w', ⟨rs, ws, cs⟩) ∧
      w'.sent = w.sent ++ replies_concat xs := by
  cases buf with
  | none =>
    obtain ⟨w', hrun, hsent, -⟩ := read_loop_exchanges c rs ws cs xs
      ⟨w.fresh, List.replicate c.IO_BUFFER_SIZE NUL⟩ w.malloc (by simp) hxs
    exact ⟨w', by simpa [do_transition, do_socket_ready] using hrun,
      by simpa [io_world.malloc] using hsent⟩
  | some b =>
    obtain ⟨w', hrun, hsent, -⟩ := read_loop_exchanges c rs ws cs xs b w (hcap b rfl) hxs
    exact ⟨w', by simpa [do_transition, do_socket_ready] using hrun, hsent⟩

/-- Witness for C6: the command `PING` answered `PONG` on a new connection. -/
theorem C6_complete_commands_witness :
    ∃ w', do_transition demo ⟨.et_sock, .eo_read⟩ ⟨.fsm_socket_connected, none, 0, 0⟩
        io_world.empty
        ⟨exchange_reads [("PING\n".toList, "PONG\n".toList)] ++ .would_block :: [],
          exchange_writes [("PING\n".toList, "PONG\n".toList)] ++ [],
          exchange_commands [("PING\n".toList, "PONG\n".toList)] ++ []⟩ =
        .ok (demo.transition_ok, ⟨.fsm_socket_connected, none, 0, 0⟩, w', ⟨[], [], []⟩) ∧
      w'.sent = io_world.empty.sent ++ replies_concat [("PING\n".toList, "PONG\n".toList)] :=
  C6_complete_commands demo .eo_read none io_world.empty [("PING\n".toList, "PONG\n".toList)]
    [] [] [] (by intro b hb; cases hb) (by decide)

/-! C7: a command that arrives in two pieces -/

theorem poke_nil (data : List Char) : poke data 0 [] = data := by
  simp [poke]

/-- A would-block read in `fsm_socket_recv_incomplete`: the Read Pump
returns `transition_ok` and keeps the buffer and `nbuf`. -/
theorem read_loop_waiting (c : fsm_consts) (rs : List read_result) (s : fsm_state_t)
    (w : io_world) (ws : List write_result) (cs : List command_reply)
    (hs : s.state = .fsm_socket_recv_incomplete) :
    read_loop c (.would_block :: rs) s w ws cs =
      .ok (c.transition_ok, s,
        w.call (.read s.nbuf ((c.IO_BUFFER_SIZE : Int) - (s.nbuf : Int))), ⟨rs, ws, cs⟩) := by
  simp only [read_loop, hs, ne_eq, not_true_eq_false, if_false]

/-- C7.  On a new connection a dispatch reads `x` (so `0 < |x| < B`), the
processor answers `incomplete_command` and the next read would block:
`do_transition` returns `transition_ok` in `fsm_socket_recv_incomplete` with
`nbuf = |x|`, `snbuf = 0` and the buffer kept, its first `|x|` bytes being
`x`.  On the next event the read is made at offset `|x|` with length
`B - |x|`, the processor is shown `x ++ y`, and with the verdict
`command_success_response_ready` and a reply that the socket takes in full
the connection is back in the clean connected state, the reply sent. -/
theorem C7_incomplete_command (c : fsm_consts) (op1 op2 : event_op_t) (w : io_world)
    (x y reply : List Char) (hx : 0 < x.length) (hy : 0 < y.length)
    (hfit : x.length + y.length ≤ c.IO_BUFFER_SIZE)
    (hr : reply.length ≤ c.IO_BUFFER_SIZE) :
    ∃ b w1 w2,
      do_transition c ⟨.et_sock, op1⟩ ⟨.fsm_socket_connected, none, 0, 0⟩ w
          ⟨[.data x, .would_block], [], [⟨.incomplete_command, [], x.length⟩]⟩ =
        .ok (c.transition_ok, ⟨.fsm_socket_recv_incomplete, some b, x.length, 0⟩, w1,
          ⟨[], [], []⟩) ∧
      b.data.take x.length = x ∧ b.data.length = c.IO_BUFFER_SIZE ∧
      w1.log = w.log ++ [.malloc w.fresh, .read 0 c.IO_BUFFER_SIZE, .process_command x,
        .read x.length ((c.IO_BUFFER_SIZE : Int) - (x.length : Int))] ∧
      w1.sent = w.sent ∧
      do_transition c ⟨.et_sock, op2⟩ ⟨.fsm_socket_recv_incomplete, some b, x.length, 0⟩ w1
          ⟨[.data y, .would_block], [.accepted reply.length],
            [⟨.command_success_response_ready, reply, reply.length⟩]⟩ =
        .ok (c.transition_ok, ⟨.fsm_socket_connected, none, 0, 0⟩, w2, ⟨[], [], []⟩) ∧
      w2.log = w1.log ++ [.read x.length ((c.IO_BUFFER_SIZE : Int) - (x.length : Int)),
        .process_command (x ++ y), .write 0 reply.length, .read 0 c.IO_BUFFER_SIZE,
        .free (some b.id)] ∧
      w2.sent = w.sent ++ reply := by
  have hR : (List.replicate c.IO_BUFFER_SIZE NUL).length = c.IO_BUFFER_SIZE := by simp
  have hb1 : (poke (List.replicate c.IO_BUFFER_SIZE NUL) 0 x).length = c.IO_BUFFER_SIZE := by
    rw [poke_length (by omega), hR]
  have htake1 : (poke (List.replicate c.IO_BUFFER_SIZE NUL) 0 x).take x.length = x :=
    poke_take_front _ _
  -- first event
  have h1 := read_loop_incomplete c
    (s := ⟨.fsm_socket_connected, some ⟨w.fresh, List.replicate c.IO_BUFFER_SIZE NUL⟩, 0, 0⟩)
    w.malloc x ⟨.incomplete_command, [], x.length⟩ [.would_block] [] [] rfl hx
    (by simp only; omega) (by simp) rfl
  rw [read_loop_waiting _ _ _ _ _ _ rfl] at h1
  -- second event, from any world
  have hfit2 : x.length + y.length ≤ (poke (List.replicate c.IO_BUFFER_SIZE NUL) 0 x).length := by
    omega
  have e2 : ∀ w1 : io_world, ∃ w2,
      do_transition c ⟨.et_sock, op2⟩ ⟨.fsm_socket_recv_incomplete,
          some ⟨w.fresh, poke (List.replicate c.IO_BUFFER_SIZE NUL) 0 x⟩, x.length, 0⟩ w1
          ⟨[.data y, .would_block], [.accepted reply.length],
            [⟨.command_success_response_ready, reply, reply.length⟩]⟩ =
        .ok (c.transition_ok, ⟨.fsm_socket_connected, none, 0, 0⟩, w2, ⟨[], [], []⟩) ∧
      w2.log = w1.log ++ [.read x.length ((c.IO_BUFFER_SIZE : Int) - (x.length : Int)),
        .process_command (x ++ y), .write 0 reply.length, .read 0 c.IO_BUFFER_SIZE,
        .free (some w.fresh)] ∧
      w2.sent = w1.sent ++ reply := by
    intro w1
    have h2 := read_loop_response c
      (s := ⟨.fsm_socket_recv_incomplete,
        some ⟨w.fresh, poke (List.replicate c.IO_BUFFER_SIZE NUL) 0 x⟩, x.length, 0⟩)
      w1 y ⟨.command_success_response_ready, reply, reply.length⟩ [.would_block]
      [.accepted reply.length] [] rfl hy hfit2 (by simp only; omega) rfl
    have hsend := send_msg_full
      (s := after_command ⟨.fsm_socket_recv_incomplete,
        some ⟨w.fresh, poke (List.replicate c.IO_BUFFER_SIZE NUL) 0 x⟩, x.length, 0⟩
        ⟨w.fresh, poke (List.replicate c.IO_BUFFER_SIZE NUL) 0 x⟩ y
        ⟨.command_success_response_ready, reply, reply.length⟩)
      (b := ⟨w.fresh, poke (poke (poke (List.replicate c.IO_BUFFER_SIZE NUL) 0 x) x.length y) 0
        reply⟩)
      (after_command_world c ⟨.fsm_socket_recv_incomplete,
        some ⟨w.fresh, poke (List.replicate c.IO_BUFFER_SIZE NUL) 0 x⟩, x.length, 0⟩
        ⟨w.fresh, poke (List.replicate c.IO_BUFFER_SIZE NUL) 0 x⟩ y w1)
      [] rfl rfl
      (by
        simp only [after_command]
        rw [poke_length (by rw [poke_length hfit2]; omega), poke_length hfit2, hb1]
        exact hr)
    simp only [after_command] at hsend h2
    rw [hsend] at h2
    simp only [ne_eq, reduceCtorEq, not_false_eq_true, if_true] at h2
    rw [read_loop_idle _ _ _ _ _ _ (by simp)] at h2
    apply Exists.intro
    refine ⟨?_, ?_, ?_⟩
    · simp only [do_transition, do_socket_ready]
      rw [h2]
      rfl
    · have hmin : min (x.length + y.length) c.IO_BUFFER_SIZE = x.length + y.length := by omega
      have hseen : (poke (poke (List.replicate c.IO_BUFFER_SIZE NUL) 0 x) x.length y).take
          (x.length + y.length) = x ++ y := by
        rw [poke_take_append y (by omega), htake1]
      simp [io_world.call, io_world.emit, after_command_world, hmin, hseen]
    · simp [io_world.call, io_world.emit, after_command_world, poke_take_front]
  obtain ⟨w2, hrun2, hlog2, hsent2⟩ := e2
    ((after_command_world c
        ⟨.fsm_socket_connected, some ⟨w.fresh, List.replicate c.IO_BUFFER_SIZE NUL⟩, 0, 0⟩
        ⟨w.fresh, List.replicate c.IO_BUFFER_SIZE NUL⟩ x w.malloc).call
      (.read x.length ((c.IO_BUFFER_SIZE : Int) - (x.length : Int))))
  have hmin : min x.length c.IO_BUFFER_SIZE = x.length := by omega
  refine ⟨⟨w.fresh, poke (List.replicate c.IO_BUFFER_SIZE NUL) 0 x⟩, _, w2, ?_, htake1, hb1,
    ?_, ?_, hrun2, hlog2, ?_⟩
  · simp only [do_transition, do_socket_ready]
    rw [h1]
    simp only [poke_nil]
  · simp [io_world.call, io_world.malloc, after_command_world, hmin, htake1]
  · simp [io_world.call, io_world.malloc, after_command_world]
  · rw [hsent2]
    simp [io_world.call, io_world.malloc, after_command_world]

/-- Witness for C7: `PI`, then `NG` and a newline, answered `PONG`. -/
theorem C7_incomplete_command_witness :
    ∃ b w1 w2,
      do_transition demo ⟨.et_sock, .eo_read⟩ ⟨.fsm_socket_connected, none, 0, 0⟩ io_world.empty
          ⟨[.data "PI".toList, .would_block], [],
            [⟨.incomplete_command, [], "PI".toList.length⟩]⟩ =
        .ok (demo.transition_ok,
          ⟨.fsm_socket_recv_incomplete, some b, "PI".toList.length, 0⟩, w1, ⟨[], [], []⟩) ∧
      b.data.take "PI".toList.length = "PI".toList ∧ b.data.length = demo.IO_BUFFER_SIZE ∧
      w1.log = io_world.empty.log ++ [.malloc io_world.empty.fresh,
        .read 0 demo.IO_BUFFER_SIZE, .process_command "PI".toList,
        .read "PI".toList.length ((demo.IO_BUFFER_SIZE : Int) - ("PI".toList.length : Int))] ∧
      w1.sent = io_world.empty.sent ∧
      do_transition demo ⟨.et_sock, .eo_read⟩
          ⟨.fsm_socket_recv_incomplete, some b, "PI".toList.length, 0⟩ w1
          ⟨[.data "NG\n".toList, .would_block], [.accepted "PONG\n".toList.length],
            [⟨.command_success_response_ready, "PONG\n".toList, "PONG\n".toList.length⟩]⟩ =
        .ok (demo.transition_ok, ⟨.fsm_socket_connected, none, 0, 0⟩, w2, ⟨[], [], []⟩) ∧
      w2.log = w1.log ++
        [.read "PI".toList.length ((demo.IO_BUFFER_SIZE : Int) - ("PI".toList.length : Int)),
          .process_command ("PI".toList ++ "NG\n".toList), .write 0 "PONG\n".toList.length,
          .read 0 demo.IO_BUFFER_SIZE, .free (some b.id)] ∧
      w2.sent = io_world.empty.sent ++ "PONG\n".toList :=
  C7_incomplete_command demo .eo_read .eo_read io_world.empty "PI".toList "NG\n".toList
    "PONG\n".toList (by decide) (by decide) (by decide) (by decide)

/-! C8: a reply that the socket takes in two dispatches -/

theorem frees_call_write (w : io_world) (off : Nat) (len : Int) :
    frees (w.call (.write off len)).log = frees w.log := by
  simp [frees, io_world.call, List.countP_append, List.countP_cons]

/-- The send loop makes no `free` call. -/
theorem send_loop_frees (ws : List write_result) :
    ∀ (s : fsm_state_t) (w : io_world) (len : Int) (sz : Nat)
      (s' : fsm_state_t) (w' : io_world) (ws' : List write_result),
      send_loop ws s w len sz = .ok (s', w', ws') → frees w'.log = frees w.log := by
  induction ws with
  | nil => intro s w len sz s' w' ws' h; simp [send_loop] at h
  | cons r rs ih =>
    intro s w len sz s' w' ws' h
    cases r with
    | would_block =>
      rw [send_loop_blocked] at h
      simp only [Except.ok.injEq, Prod.mk.injEq] at h
      obtain ⟨-, rfl, -⟩ := h
      exact frees_call_write _ _ _
    | error => simp [send_loop] at h
    | accepted k =>
      cases hl : load s.buf (s.snbuf + sz) k with
      | none => simp [send_loop, hl] at h
      | some bytes =>
        by_cases hlt : (k : Int) < len - (sz : Int)
        · rw [send_loop_short hl hlt] at h
          rw [ih _ _ _ _ _ _ _ h]
          exact frees_call_write _ _ _
        · rw [send_loop_full hl hlt] at h
          simp only [Except.ok.injEq, Prod.mk.injEq] at h
          obtain ⟨-, rfl, -⟩ := h
          exact frees_call_write _ _ _

theorem send_msg_to_client_frees {ws ws' : List write_result} {s s' : fsm_state_t}
    {w w' : io_world} (h : send_msg_to_client ws s w = .ok (s', w', ws')) :
    frees w'.log = frees w.log := by
  unfold send_msg_to_client at h
  split at h
  · exact send_loop_frees _ _ _ _ _ _ _ _ h
  · simp at h

/-- C8.  On a new connection a dispatch reads a command, the processor
answers `command_success_response_ready` with a reply of `n` bytes, and the
socket takes `k < n` of them (the counts `ks`, in any number of writes)
before it would block.  Then `do_transition` returns `transition_ok` in
`fsm_socket_send_incomplete` with `snbuf = k` and `nbuf = n`; the buffer is
held and holds the reply, no `free` call was made, no further read was
made, and the first `k` reply bytes were sent.  A writable event on which
the socket takes the other `n - k` bytes, with a would-block read after it,
leaves the connection in `fsm_socket_connected` with `nbuf = snbuf = 0`, the
whole reply sent. -/
theorem C8_partial_write (c : fsm_consts) (op : event_op_t) (w : io_world)
    (x reply : List Char) (ks : List Nat) (rs : List read_result) (ws : List write_result)
    (cs : List command_reply)
    (hx0 : 0 < x.length) (hxB : x.length ≤ c.IO_BUFFER_SIZE)
    (hr : reply.length ≤ c.IO_BUFFER_SIZE) (hk : ks.sum < reply.length) :
    ∃ b w1 w2,
      do_transition c ⟨.et_sock, op⟩ ⟨.fsm_socket_connected, none, 0, 0⟩ w
          ⟨.data x :: .would_block :: rs,
            ks.map .accepted ++ .would_block :: .accepted (reply.length - ks.sum) :: ws,
            ⟨.command_success_response_ready, reply, reply.length⟩ :: cs⟩ =
        .ok (c.transition_ok, ⟨.fsm_socket_send_incomplete, some b, reply.length, ks.sum⟩, w1,
          ⟨.would_block :: rs, .accepted (reply.length - ks.sum) :: ws, cs⟩) ∧
      b.id = w.fresh ∧ b.data.take reply.length = reply ∧
      frees w1.log = frees w.log ∧ w1.sent = w.sent ++ reply.take ks.sum ∧
      do_transition c ev_write ⟨.fsm_socket_send_incomplete, some b, reply.length, ks.sum⟩ w1
          ⟨.would_block :: rs, .accepted (reply.length - ks.sum) :: ws, cs⟩ =
        .ok (0, ⟨.fsm_socket_connected, none, 0, 0⟩, w2, ⟨rs, ws, cs⟩) ∧
      w2.sent = w.sent ++ reply := by
  have hR : (List.replicate c.IO_BUFFER_SIZE NUL).length = c.IO_BUFFER_SIZE := by simp
  have hlen : (poke (poke (List.replicate c.IO_BUFFER_SIZE NUL) 0 x) 0 reply).length =
      c.IO_BUFFER_SIZE := by
    rw [poke_length (by rw [poke_length (by omega)]; omega), poke_length (by omega), hR]
  have htake : (poke (poke (List.replicate c.IO_BUFFER_SIZE NUL) 0 x) 0 reply).take reply.length
      = reply := poke_take_front _ _
  have h1 := read_loop_response c
    (s := ⟨.fsm_socket_connected, some ⟨w.fresh, List.replicate c.IO_BUFFER_SIZE NUL⟩, 0, 0⟩)
    w.malloc x ⟨.command_success_response_ready, reply, reply.length⟩ (.would_block :: rs)
    (ks.map .accepted ++ .would_block :: .accepted (reply.length - ks.sum) :: ws) cs rfl hx0
    (by simp only; omega) (by simp only; omega) rfl
  obtain ⟨w1, hrun1, hsent1, -⟩ := send_msg_parks
    (s := after_command
      ⟨.fsm_socket_connected, some ⟨w.fresh, List.replicate c.IO_BUFFER_SIZE NUL⟩, 0, 0⟩
      ⟨w.fresh, List.replicate c.IO_BUFFER_SIZE NUL⟩ x
      ⟨.command_success_response_ready, reply, reply.length⟩)
    (b := ⟨w.fresh, poke (poke (List.replicate c.IO_BUFFER_SIZE NUL) 0 x) 0 reply⟩)
    (after_command_world c
      ⟨.fsm_socket_connected, some ⟨w.fresh, List.replicate c.IO_BUFFER_SIZE NUL⟩, 0, 0⟩
      ⟨w.fresh, List.replicate c.IO_BUFFER_SIZE NUL⟩ x w.malloc)
    (.accepted (reply.length - ks.sum) :: ws) ks rfl
    (by simp only [after_command]; omega) (Or.inl rfl)
    (by simp only [after_command]; omega)
  have hfrees1 := send_msg_to_client_frees hrun1
  simp only [after_command] at hrun1 hsent1 h1
  rw [hrun1] at h1
  simp only [ne_eq, not_true_eq_false, if_false, Nat.zero_add] at h1
  obtain ⟨w2, hrun2, hsent2, -⟩ := do_transition_resume_completes c
    ⟨w.fresh, poke (poke (List.replicate c.IO_BUFFER_SIZE NUL) 0 x) 0 reply⟩ reply.length ks.sum
    (by simp only; omega) [] (reply.length - ks.sum) (by omega) (by simp; omega) w1 ws rs cs
  refine ⟨⟨w.fresh, poke (poke (List.replicate c.IO_BUFFER_SIZE NUL) 0 x) 0 reply⟩, w1, w2,
    ?_, rfl, htake, ?_, ?_, ?_, ?_⟩
  · simp only [do_transition, do_socket_ready]
    exact h1
  · rw [hfrees1]
    simp [frees, after_command_world, io_world.call, io_world.malloc, List.countP_append,
      List.countP_cons]
  · rw [hsent1]
    have hpre : reply.take ks.sum =
        (poke (poke (List.replicate c.IO_BUFFER_SIZE NUL) 0 x) 0 reply).take ks.sum := by
      conv_lhs => rw [← htake]
      rw [List.take_take, Nat.min_eq_left (by omega)]
    simp only [List.drop_zero, after_command_world, io_world.call, io_world.malloc]
    rw [hpre]
  · simpa using hrun2
  · rw [hsent2, hsent1]
    simp only [List.drop_zero, after_command_world, io_world.call, io_world.malloc,
      List.append_assoc]
    have := take_drop_append
      (poke (poke (List.replicate c.IO_BUFFER_SIZE NUL) 0 x) 0 reply) 0 ks.sum
      (reply.length - ks.sum)
    simp only [List.drop_zero, Nat.zero_add] at this
    rw [this, Nat.add_sub_cancel' (by omega), htake]

/-- Witness for C8: an 8-byte reply of which the socket first takes 3. -/
theorem C8_partial_write_witness :
    ∃ b w1 w2,
      do_transition demo ⟨.et_sock, .eo_read⟩ ⟨.fsm_socket_connected, none, 0, 0⟩ io_world.empty
          ⟨.data "GET\n".toList :: .would_block :: [],
            [3].map .accepted ++
              .would_block :: .accepted ("ABCDEFGH".toList.length - [3].sum) :: [],
            ⟨.command_success_response_ready, "ABCDEFGH".toList, "ABCDEFGH".toList.length⟩ ::
              []⟩ =
        .ok (demo.transition_ok,
          ⟨.fsm_socket_send_incomplete, some b, "ABCDEFGH".toList.length, [3].sum⟩, w1,
          ⟨.would_block :: [], .accepted ("ABCDEFGH".toList.length - [3].sum) :: [], []⟩) ∧
      b.id = io_world.empty.fresh ∧
      b.data.take "ABCDEFGH".toList.length = "ABCDEFGH".toList ∧
      frees w1.log = frees io_world.empty.log ∧
      w1.sent = io_world.empty.sent ++ "ABCDEFGH".toList.take [3].sum ∧
      do_transition demo ev_write
          ⟨.fsm_socket_send_incomplete, some b, "ABCDEFGH".toList.length, [3].sum⟩ w1
          ⟨.would_block :: [], .accepted ("ABCDEFGH".toList.length - [3].sum) :: [], []⟩ =
        .ok (0, ⟨.fsm_socket_connected, none, 0, 0⟩, w2, ⟨[], [], []⟩) ∧
      w2.sent = io_world.empty.sent ++ "ABCDEFGH".toList :=
  C8_partial_write demo .eo_read io_world.empty "GET\n".toList "ABCDEFGH".toList [3] [] [] []
    (by decide) (by decide) (by decide) (by decide)

/-! C9: a malformed command -/

theorem err_reply_length : (err_msg ++ [NUL]).length = 25 := by decide

/-- The Error Responder when the socket takes the whole message at once. -/
theorem send_err_full {s : fsm_state_t} {b : buffer_t} (w : io_world) (ws : List write_result)
    (hb : s.buf = some b) (hsn : s.snbuf = 0) (hfit : 25 ≤ b.data.length) :
    send_err_to_client (.accepted 25 :: ws) s w =
      .ok (⟨.fsm_socket_connected, some ⟨b.id, poke b.data 0 (err_msg ++ [NUL])⟩, 0, 0⟩,
        (w.call (.write 0 25)).emit (err_msg ++ [NUL]), ws) := by
  have hst := store_inside hb 0 (err_msg ++ [NUL]) (by rw [err_reply_length]; omega)
  have hsend := send_msg_full
    (s := ⟨s.state, some ⟨b.id, poke b.data 0 (err_msg ++ [NUL])⟩, 25, s.snbuf⟩)
    (b := ⟨b.id, poke b.data 0 (err_msg ++ [NUL])⟩) w ws rfl hsn
    (by simp only; rw [poke_length (by rw [err_reply_length]; omega)]; exact hfit)
  have htake : (poke b.data 0 (err_msg ++ [NUL])).take 25 = err_msg ++ [NUL] := by
    have := poke_take_front b.data (err_msg ++ [NUL])
    rwa [err_reply_length] at this
  simp only [send_err_to_client, hst, err_msg_length]
  rw [hsend]
  simp [htake]

/-- The Error Responder when the first write would block. -/
theorem send_err_blocked {s : fsm_state_t} {b : buffer_t} (w : io_world)
    (ws : List write_result) (hb : s.buf = some b) (hsn : s.snbuf = 0)
    (hfit : 25 ≤ b.data.length) :
    send_err_to_client (.would_block :: ws) s w =
      .ok (⟨.fsm_socket_send_incomplete, some ⟨b.id, poke b.data 0 (err_msg ++ [NUL])⟩, 25, 0⟩,
        w.call (.write 0 25), ws) := by
  have hst := store_inside hb 0 (err_msg ++ [NUL]) (by rw [err_reply_length]; omega)
  simp only [send_err_to_client, hst, err_msg_length, send_msg_to_client, hsn, true_or, if_true,
    send_loop_blocked]
  simp

/-- C9.  The Read Pump, at a loop head with a buffer of `IO_BUFFER_SIZE ≥ 25`
bytes and `snbuf = 0`, reads a chunk for which the processor returns
`malformed_command`, whatever the processor left in the buffer and in
`nbuf`.  The Error Responder stores the 24 characters of the message and a
NUL at offset 0 and sets `nbuf = 25`: if the write would block the connection
is parked with `nbuf = 25`, `snbuf = 0` and these 25 bytes at the start of
the buffer; if the socket takes the 25 bytes, exactly they are sent (by one
write of length 25 from offset 0) and the loop goes on to the next read in
`fsm_socket_connected` with `nbuf = snbuf = 0`.  On a new connection, with a
would-block read next, `do_transition` returns `transition_ok` and the
connection is in the clean connected state. -/
theorem C9_malformed_command (c : fsm_consts) (op : event_op_t) (s : fsm_state_t)
    (b : buffer_t) (w : io_world) (chunk : List Char) (r : command_reply)
    (rs : List read_result) (ws : List write_result) (cs : List command_reply)
    (hB : 25 ≤ c.IO_BUFFER_SIZE) (hb : s.buf = some b)
    (hcap : b.data.length = c.IO_BUFFER_SIZE) (hsn : s.snbuf = 0)
    (h0 : 0 < chunk.length) (hfit : s.nbuf + chunk.length ≤ c.IO_BUFFER_SIZE)
    (hr : r.buf.length ≤ c.IO_BUFFER_SIZE) (hres : r.res = .malformed_command) :
    ∃ (b' : buffer_t) (w0 w3 : io_world),
      b'.id = b.id ∧ b'.data.length = c.IO_BUFFER_SIZE ∧ b'.data.take 25 = err_msg ++ [NUL] ∧
      w0.log = w.log ++ [.read s.nbuf ((c.IO_BUFFER_SIZE : Int) - (s.nbuf : Int)),
        .process_command (b.data.take s.nbuf ++ chunk)] ∧ w0.sent = w.sent ∧
      read_loop c (.data chunk :: rs) s w (.would_block :: ws) (r :: cs) =
        .ok (c.transition_ok, ⟨.fsm_socket_send_incomplete, some b', 25, 0⟩,
          w0.call (.write 0 25), ⟨rs, ws, cs⟩) ∧
      read_loop c (.data chunk :: rs) s w (.accepted 25 :: ws) (r :: cs) =
        read_loop c rs ⟨.fsm_socket_connected, some b', 0, 0⟩
          ((w0.call (.write 0 25)).emit (err_msg ++ [NUL])) ws cs ∧
      do_transition c ⟨.et_sock, op⟩ ⟨.fsm_socket_connected, none, 0, 0⟩ w
          ⟨[.data chunk, .would_block], [.accepted 25], [r]⟩ =
        .ok (c.transition_ok, ⟨.fsm_socket_connected, none, 0, 0⟩, w3, ⟨[], [], []⟩) ∧
      w3.sent = w.sent ++ (err_msg ++ [NUL]) := by
  have key : ∀ (s : fsm_state_t) (b : buffer_t) (w : io_world) (rs : List read_result),
      s.buf = some b → b.data.length = c.IO_BUFFER_SIZE → s.snbuf = 0 →
      s.nbuf + chunk.length ≤ c.IO_BUFFER_SIZE →
      (read_loop c (.data chunk :: rs) s w (.would_block :: ws) (r :: cs) =
        .ok (c.transition_ok, ⟨.fsm_socket_send_incomplete,
            some ⟨b.id, poke (poke (poke b.data s.nbuf chunk) 0 r.buf) 0 (err_msg ++ [NUL])⟩,
            25, 0⟩,
          (after_command_world c s b chunk w).call (.write 0 25), ⟨rs, ws, cs⟩)) ∧
      (∀ ws' cs', read_loop c (.data chunk :: rs) s w (.accepted 25 :: ws') (r :: cs') =
        read_loop c rs ⟨.fsm_socket_connected,
            some ⟨b.id, poke (poke (poke b.data s.nbuf chunk) 0 r.buf) 0 (err_msg ++ [NUL])⟩,
            0, 0⟩
          (((after_command_world c s b chunk w).call (.write 0 25)).emit (err_msg ++ [NUL]))
          ws' cs') := by
    intro s b w rs hb hcap hsn hfit
    have hlen2 : (poke (poke b.data s.nbuf chunk) 0 r.buf).length = c.IO_BUFFER_SIZE := by
      rw [poke_length (by rw [poke_length (by omega)]; omega), poke_length (by omega), hcap]
    constructor
    · rw [read_loop_malformed c w chunk r rs (.would_block :: ws) cs hb h0 (by omega) (by omega)
        hres]
      rw [send_err_blocked (b := ⟨b.id, poke (poke b.data s.nbuf chunk) 0 r.buf⟩) _ _ rfl
        (by simp only [after_command]; exact hsn) (by simp only; omega)]
      simp
    · intro ws' cs'
      rw [read_loop_malformed c w chunk r rs (.accepted 25 :: ws') cs' hb h0 (by omega)
        (by omega) hres]
      rw [send_err_full (b := ⟨b.id, poke (poke b.data s.nbuf chunk) 0 r.buf⟩) _ _ rfl
        (by simp only [after_command]; exact hsn) (by simp only; omega)]
      simp
  have hlen2 : (poke (poke b.data s.nbuf chunk) 0 r.buf).length = c.IO_BUFFER_SIZE := by
    rw [poke_length (by rw [poke_length (by omega)]; omega), poke_length (by omega), hcap]
  have htake : (poke (poke (poke b.data s.nbuf chunk) 0 r.buf) 0 (err_msg ++ [NUL])).take 25 =
      err_msg ++ [NUL] := by
    have := poke_take_front (poke (poke b.data s.nbuf chunk) 0 r.buf) (err_msg ++ [NUL])
    rwa [err_reply_length] at this
  obtain ⟨hpark, hfull⟩ := key s b w rs hb hcap hsn hfit
  obtain ⟨-, hfull0⟩ := key
    ⟨.fsm_socket_connected, some ⟨w.fresh, List.replicate c.IO_BUFFER_SIZE NUL⟩, 0, 0⟩
    ⟨w.fresh, List.replicate c.IO_BUFFER_SIZE NUL⟩ w.malloc [.would_block] rfl (by simp) rfl
    (by simp only; omega)
  have hmin : min (s.nbuf + chunk.length) c.IO_BUFFER_SIZE = s.nbuf + chunk.length := by omega
  refine ⟨⟨b.id, poke (poke (poke b.data s.nbuf chunk) 0 r.buf) 0 (err_msg ++ [NUL])⟩,
    after_command_world c s b chunk w, ?_⟩
  apply Exists.intro
  refine ⟨rfl, ?_, htake, ?_, rfl, hpark, hfull ws cs, ?_, ?_⟩
  · simp only
    rw [poke_length (by rw [err_reply_length]; omega), hlen2]
  · simp only [after_command_world, io_world.call, hmin, List.append_assoc, List.cons_append,
      List.nil_append]
    rw [poke_take_append chunk (by omega)]
  · simp only [do_transition, do_socket_ready]
    rw [hfull0 [] [], read_loop_idle _ _ _ _ _ _ (by simp)]
    rfl
  · simp [io_world.call, io_world.emit, io_world.malloc, after_command_world]

/-- Witness for C9: the chunk `BAD` and a newline, judged malformed, on a
connection that holds an empty 32-byte buffer. -/
theorem C9_malformed_command_witness :
    ∃ (b' : buffer_t) (w0 w3 : io_world),
      b'.id = (buffer_t.mk 0 (List.replicate 32 NUL)).id ∧
      b'.data.length = demo.IO_BUFFER_SIZE ∧ b'.data.take 25 = err_msg ++ [NUL] ∧
      w0.log = io_world.empty.log ++
        [.read (fsm_state_t.mk .fsm_socket_connected (some ⟨0, List.replicate 32 NUL⟩) 0 0).nbuf
            ((demo.IO_BUFFER_SIZE : Int) -
              ((fsm_state_t.mk .fsm_socket_connected (some ⟨0, List.replicate 32 NUL⟩) 0 0).nbuf
                : Int)),
          .process_command ((buffer_t.mk 0 (List.replicate 32 NUL)).data.take
            (fsm_state_t.mk .fsm_socket_connected (some ⟨0, List.replicate 32 NUL⟩) 0 0).nbuf ++
              "BAD\n".toList)] ∧
      w0.sent = io_world.empty.sent ∧
      read_loop demo (.data "BAD\n".toList :: [])
          ⟨.fsm_socket_connected, some ⟨0, List.replicate 32 NUL⟩, 0, 0⟩ io_world.empty
          (.would_block :: []) (⟨.malformed_command, [], 4⟩ :: []) =
        .ok (demo.transition_ok, ⟨.fsm_socket_send_incomplete, some b', 25, 0⟩,
          w0.call (.write 0 25), ⟨[], [], []⟩) ∧
      read_loop demo (.data "BAD\n".toList :: [])
          ⟨.fsm_socket_connected, some ⟨0, List.replicate 32 NUL⟩, 0, 0⟩ io_world.empty
          (.accepted 25 :: []) (⟨.malformed_command, [], 4⟩ :: []) =
        read_loop demo [] ⟨.fsm_socket_connected, some b', 0, 0⟩
          ((w0.call (.write 0 25)).emit (err_msg ++ [NUL])) [] [] ∧
      do_transition demo ⟨.et_sock, .eo_read⟩ ⟨.fsm_socket_connected, none, 0, 0⟩ io_world.empty
          ⟨[.data "BAD\n".toList, .would_block], [.accepted 25],
            [⟨.malformed_command, [], 4⟩]⟩ =
        .ok (demo.transition_ok, ⟨.fsm_socket_connected, none, 0, 0⟩, w3, ⟨[], [], []⟩) ∧
      w3.sent = io_world.empty.sent ++ (err_msg ++ [NUL]) :=
  C9_malformed_command demo .eo_read ⟨.fsm_socket_connected, some ⟨0, List.replicate 32 NUL⟩, 0, 0⟩
    ⟨0, List.replicate 32 NUL⟩ io_world.empty "BAD\n".toList ⟨.malformed_command, [], 4⟩ [] [] []
    (by decide) rfl (by decide) rfl (by decide) (by decide) (by decide) rfl

/-! C10: the peer closes the connection -/

/-- C10.  A read that returns 0 bytes ends the Read Pump with
`quit_connection` at once, at whatever point of the loop and in whatever
state (first conjunct): the only call made is that read, the connection is
as it was before the read, and the rest of the script (further reads, all
writes, all processor answers) is untouched.  For `do_transition` on a
socket event: in `fsm_socket_connected` and in `fsm_socket_recv_incomplete`
with a buffer held the result is `quit_connection` with the connection
unchanged and the buffer not freed (second and third conjunct); without a
buffer the buffer allocated before the read is still held (fourth
conjunct). -/
theorem C10_peer_close (c : fsm_consts) (op : event_op_t) (s : fsm_state_t) (b : buffer_t)
    (n k : Nat) (w : io_world) (rs : List read_result) (ws : List write_result)
    (cs : List command_reply) :
    read_loop c (.data [] :: rs) s w ws cs =
      .ok (c.quit_connection, s,
        ⟨w.log ++ [.read s.nbuf ((c.IO_BUFFER_SIZE : Int) - (s.nbuf : Int))], w.sent, w.fresh⟩,
        ⟨rs, ws, cs⟩) ∧
    do_transition c ⟨.et_sock, op⟩ ⟨.fsm_socket_connected, some b, n, k⟩ w
        ⟨.data [] :: rs, ws, cs⟩ =
      .ok (c.quit_connection, ⟨.fsm_socket_connected, some b, n, k⟩,
        ⟨w.log ++ [.read n ((c.IO_BUFFER_SIZE : Int) - (n : Int))], w.sent, w.fresh⟩,
        ⟨rs, ws, cs⟩) ∧
    do_transition c ⟨.et_sock, op⟩ ⟨.fsm_socket_recv_incomplete, some b, n, k⟩ w
        ⟨.data [] :: rs, ws, cs⟩ =
      .ok (c.quit_connection, ⟨.fsm_socket_recv_incomplete, some b, n, k⟩,
        ⟨w.log ++ [.read n ((c.IO_BUFFER_SIZE : Int) - (n : Int))], w.sent, w.fresh⟩,
        ⟨rs, ws, cs⟩) ∧
    do_transition c ⟨.et_sock, op⟩ ⟨.fsm_socket_connected, none, n, k⟩ w
        ⟨.data [] :: rs, ws, cs⟩ =
      .ok (c.quit_connection,
        ⟨.fsm_socket_connected, some ⟨w.fresh, List.replicate c.IO_BUFFER_SIZE NUL⟩, 0, k⟩,
        ⟨w.log ++ [.malloc w.fresh, .read 0 c.IO_BUFFER_SIZE], w.sent, w.fresh + 1⟩,
        ⟨rs, ws, cs⟩) := by
  refine ⟨?_, ?_, ?_, ?_⟩
  · simp [read_loop, io_world.call]
  · simp [do_transition, do_socket_ready, read_loop, io_world.call]
  · simp [do_transition, do_socket_ready, read_loop, io_world.call]
  · simp [do_transition, do_socket_ready, read_loop, io_world.call, io_world.malloc]

/-! What a run of the Write Pump and of the Read Pump can end in -/

theorem load_length {buf : Option buffer_t} {off k : Nat} {bytes : List Char}
    (h : load buf off k = some bytes) : bytes.length = k := by
  unfold load at h
  split at h
  · split at h
    · rename_i hk
      simp only [Option.some.injEq] at h
      subst h
      simp [hk]
    · simp at h
  · split at h
    · rename_i hle
      simp only [Option.some.injEq] at h
      subst h
      simp only [List.length_take, List.length_drop]
      omega
    · simp at h

/-- A run of the send loop that returns: it made one write call per result
used up and no other call, kept the buffer, and either ended on a
would-block (parked, `snbuf` advanced by the counts accepted) or on a write
that took all that was left. -/
theorem send_loop_outcome (ws : List write_result) :
    ∀ (s : fsm_state_t) (w : io_world) (len : Int) (sz : Nat)
      (s' : fsm_state_t) (w' : io_world) (ws' : List write_result),
      send_loop ws s w len sz = .ok (s', w', ws') →
      ∃ (ks : List Nat) (ext : List io_call),
        w'.log = w.log ++ ext ∧ (∀ e ∈ ext, ∃ o l, e = io_call.write o l) ∧
        ext.length = ks.length + 1 ∧ w'.fresh = w.fresh ∧ s'.buf = s.buf ∧
        (ks = [] ∨ (ks.sum : Int) < len - (sz : Int)) ∧
        ((ws = ks.map .accepted ++ .would_block :: ws' ∧
            s'.state = .fsm_socket_send_incomplete ∧ s'.nbuf = s.nbuf ∧
            s'.snbuf = s.snbuf + sz + ks.sum ∧ w'.sent.length = w.sent.length + ks.sum) ∨
          (∃ k, ws = ks.map .accepted ++ .accepted k :: ws' ∧
            s'.state = .fsm_socket_connected ∧ s'.nbuf = 0 ∧ s'.snbuf = 0 ∧
            len - (sz : Int) ≤ ((ks.sum + k : Nat) : Int) ∧
            w'.sent.length = w.sent.length + ks.sum + k)) := by
  induction ws with
  | nil => intro s w len sz s' w' ws' h; simp [send_loop] at h
  | cons r rs ih =>
    intro s w len sz s' w' ws' h
    cases r with
    | would_block =>
      rw [send_loop_blocked] at h
      simp only [Except.ok.injEq, Prod.mk.injEq] at h
      obtain ⟨rfl, rfl, rfl⟩ := h
      refine ⟨[], [.write (s.snbuf + sz) (len - (sz : Int))], rfl, ?_, rfl, rfl, rfl,
        Or.inl rfl, Or.inl ⟨rfl, rfl, rfl, by simp, by simp [io_world.call]⟩⟩
      intro e he
      simp only [List.mem_singleton] at he
      exact ⟨_, _, he⟩
    | error => simp [send_loop] at h
    | accepted k =>
      cases hl : load s.buf (s.snbuf + sz) k with
      | none => simp [send_loop, hl] at h
      | some bytes =>
        have hbl := load_length hl
        by_cases hlt : (k : Int) < len - (sz : Int)
        · rw [send_loop_short hl hlt] at h
          obtain ⟨ks, ext, hlog, hext, hlen, hfresh, hbuf, hsum, hcase⟩ := ih _ _ _ _ _ _ _ h
          refine ⟨k :: ks, .write (s.snbuf + sz) (len - (sz : Int)) :: ext, ?_, ?_, ?_, ?_, hbuf,
            ?_, ?_⟩
          · rw [hlog]
            simp [io_world.call, io_world.emit]
          · intro e he
            rcases List.mem_cons.mp he with rfl | he
            · exact ⟨_, _, rfl⟩
            · exact hext e he
          · simp [hlen]
          · rw [hfresh]
            rfl
          · right
            simp only [List.sum_cons]
            rw [Nat.cast_add]
            rcases hsum with rfl | hsum
            · simpa using hlt
            · omega
          · rcases hcase with ⟨h1, h2, h3, h4, h5⟩ | ⟨k', h1, h2, h3, h4, h5, h6⟩
            · refine Or.inl ⟨by rw [h1]; rfl, h2, h3, ?_, ?_⟩
              · rw [h4]
                simp only [List.sum_cons]
                omega
              · rw [h5]
                simp only [io_world.call, io_world.emit, List.length_append, List.sum_cons, hbl]
                omega
            · refine Or.inr ⟨k', by rw [h1]; rfl, h2, h3, h4, ?_, ?_⟩
              · simp only [List.sum_cons]
                rw [Nat.cast_add] at h5
                rw [Nat.cast_add, Nat.cast_add]
                omega
              · rw [h6]
                simp only [io_world.call, io_world.emit, List.length_append, List.sum_cons, hbl]
                omega
        · rw [send_loop_full hl hlt] at h
          simp only [Except.ok.injEq, Prod.mk.injEq] at h
          obtain ⟨rfl, rfl, rfl⟩ := h
          refine ⟨[], [.write (s.snbuf + sz) (len - (sz : Int))], rfl, ?_, rfl, rfl, rfl,
            Or.inl rfl, Or.inr ⟨k, rfl, rfl, rfl, rfl, by simp; omega, ?_⟩⟩
          · intro e he
            simp only [List.mem_singleton] at he
            exact ⟨_, _, he⟩
          · simp [io_world.call, io_world.emit, hbl]

/-- A run of the send loop that stops with a fault: the fault is no failed
assertion, and a failed check comes from a write error. -/
theorem send_loop_fault (ws : List write_result) :
    ∀ (s : fsm_state_t) (w : io_world) (len : Int) (sz : Nat) (f : fault),
      send_loop ws s w len sz = .error f →
      f ≠ .assertion_failed ∧ (f = .check_failed → write_result.error ∈ ws) := by
  induction ws with
  | nil =>
    intro s w len sz f h
    simp only [send_loop, Except.error.injEq] at h
    subst h
    exact ⟨by simp, by simp⟩
  | cons r rs ih =>
    intro s w len sz f h
    cases r with
    | would_block => rw [send_loop_blocked] at h; simp at h
    | error =>
      simp only [send_loop, Except.error.injEq] at h
      subst h
      exact ⟨by simp, fun _ => List.mem_cons_self _ _⟩
    | accepted k =>
      cases hl : load s.buf (s.snbuf + sz) k with
      | none =>
        simp only [send_loop, hl, Except.error.injEq] at h
        subst h
        exact ⟨by simp, by simp⟩
      | some bytes =>
        by_cases hlt : (k : Int) < len - (sz : Int)
        · rw [send_loop_short hl hlt] at h
          obtain ⟨h1, h2⟩ := ih _ _ _ _ _ h
          exact ⟨h1, fun hf => List.mem_cons_of_mem _ (h2 hf)⟩
        · rw [send_loop_full hl hlt] at h
          simp at h

/-- What a returning call of the Write Pump has done, as far as the Read Pump
needs it. -/
theorem send_msg_to_client_facts {ws ws' : List write_result} {s s' : fsm_state_t}
    {w w' : io_world} (h : send_msg_to_client ws s w = .ok (s', w', ws')) :
    ∃ (used : List write_result) (l : List io_call) (o : Nat) (n : Int),
      ws = used ++ ws' ∧ write_result.error ∉ used ∧
      w'.log = w.log ++ (l ++ [.write o n]) ∧ (∀ e ∈ l, ∃ o l, e = io_call.write o l) ∧
      s'.buf = s.buf ∧
      (s'.state = .fsm_socket_send_incomplete ∨ s'.state = .fsm_socket_connected) ∧
      (s'.state = .fsm_socket_send_incomplete → ∃ p0, used = p0 ++ [.would_block]) := by
  unfold send_msg_to_client at h
  split at h
  · obtain ⟨ks, ext, hlog, hext, hlen, -, hbuf, -, hcase⟩ := send_loop_outcome _ _ _ _ _ _ _ _ h
    have hne : ext ≠ [] := by
      intro h0
      rw [h0] at hlen
      simp at hlen
    rcases List.eq_nil_or_concat ext with h0 | ⟨l, a, hla⟩
    · exact absurd h0 hne
    · rw [List.concat_eq_append] at hla
      subst hla
      obtain ⟨o, n, rfl⟩ := hext a (by simp)
      have hl : ∀ e ∈ l, ∃ o l, e = io_call.write o l :=
        fun e he => hext e (List.mem_append_left _ he)
      rcases hcase with ⟨h1, h2, -, -, -⟩ | ⟨k, h1, h2, -, -, -, -⟩
      · refine ⟨ks.map .accepted ++ [.would_block], l, o, n, by simp [h1], ?_, hlog, hl, hbuf,
          Or.inl h2, fun _ => ⟨_, rfl⟩⟩
        simp
      · refine ⟨ks.map .accepted ++ [.accepted k], l, o, n, by simp [h1], ?_, hlog, hl, hbuf,
          Or.inr h2, fun hs => ?_⟩
        · simp
        · rw [h2] at hs
          cases hs
  · simp at h

theorem send_msg_to_client_fault {ws : List write_result} {s : fsm_state_t} {w : io_world}
    {f : fault} (h : send_msg_to_client ws s w = .error f) :
    (f = .assertion_failed → s.snbuf ≠ 0 ∧ s.state ≠ .fsm_socket_send_incomplete) ∧
      (f = .check_failed → write_result.error ∈ ws) := by
  unfold send_msg_to_client at h
  split at h
  · obtain ⟨h1, h2⟩ := send_loop_fault _ _ _ _ _ _ h
    exact ⟨fun hf => absurd hf h1, h2⟩
  · rename_i hn
    simp only [Except.error.injEq] at h
    subst h
    exact ⟨fun _ => ⟨fun h0 => hn (Or.inl h0), fun h0 => hn (Or.inr h0)⟩, by simp⟩

theorem send_err_to_client_fault {ws : List write_result} {s : fsm_state_t} {w : io_world}
    {f : fault} (h : send_err_to_client ws s w = .error f) :
    (f = .assertion_failed → s.snbuf ≠ 0 ∧ s.state ≠ .fsm_socket_send_incomplete) ∧
      (f = .check_failed → write_result.error ∈ ws) := by
  unfold send_err_to_client at h
  split at h
  · simp only [Except.error.injEq] at h
    subst h
    exact ⟨by simp, by simp⟩
  · have h' := send_msg_to_client_fault h
    exact h'

theorem send_err_to_client_facts {ws ws' : List write_result} {s s' : fsm_state_t}
    {w w' : io_world} (h : send_err_to_client ws s w = .ok (s', w', ws')) :
    ∃ (used : List write_result) (l : List io_call) (o : Nat) (n : Int),
      ws = used ++ ws' ∧ write_result.error ∉ used ∧
      w'.log = w.log ++ (l ++ [.write o n]) ∧ (∀ e ∈ l, ∃ o l, e = io_call.write o l) ∧
      s'.buf ≠ none ∧
      (s'.state = .fsm_socket_send_incomplete ∨ s'.state = .fsm_socket_connected) ∧
      (s'.state = .fsm_socket_send_incomplete → ∃ p0, used = p0 ++ [.would_block]) := by
  unfold send_err_to_client at h
  split at h
  · simp at h
  · obtain ⟨used, l, o, n, h1, h2, h3, h4, h5, h6, h7⟩ := send_msg_to_client_facts h
    exact ⟨used, l, o, n, h1, h2, h3, h4, by rw [h5]; simp, h6, h7⟩

theorem process_command_fault {B : Nat} {cs : List command_reply} {s : fsm_state_t}
    {w : io_world} {f : fault} (h : process_command B cs s w = .error f) :
    f ≠ .assertion_failed ∧ f ≠ .check_failed := by
  unfold process_command at h
  split at h
  · simp only [Except.error.injEq] at h
    subst h
    exact ⟨by simp, by simp⟩
  · split at h
    · simp only [Except.error.injEq] at h
      subst h
      exact ⟨by simp, by simp⟩
    · simp at h

theorem pump_rest_extend {s' : fsm_state_t} {ur : List read_result} {uw : List write_result}
    {ext : List io_call} (a : List read_result) (b : List write_result) (e : List io_call)
    (h : pump_rest s' ur uw ext) : pump_rest s' (a ++ ur) (b ++ uw) (e ++ ext) := by
  rcases h with ⟨h1, p0, l, off, len, p, h2, h3⟩ | ⟨h1, hb, p0, l, off, len, h2, h3⟩ |
    ⟨h1, hb, p0, l, off, len, h2, h3⟩
  · exact Or.inl ⟨h1, a ++ p0, e ++ l, off, len, p, by rw [h2, List.append_assoc],
      by rw [h3, List.append_assoc]⟩
  · exact Or.inr (Or.inl ⟨h1, hb, a ++ p0, e ++ l, off, len, by rw [h2, List.append_assoc],
      by rw [h3, List.append_assoc]⟩)
  · exact Or.inr (Or.inr ⟨h1, hb, b ++ p0, e ++ l, off, len, by rw [h2, List.append_assoc],
      by rw [h3, List.append_assoc]⟩)

/-- The outcome of a run of the read loop that starts after one more
iteration, put together with what that iteration used up and called. -/
theorem pump_outcome_step {c : fsm_consts} {s sn : fsm_state_t} {log logn : List io_call}
    {rds rdsn : List read_result} {ws wsn : List write_result} {cs csn : List command_reply}
    {rc : Int} {s' : fsm_state_t} {w' : io_world} {sc' : script}
    (a : List read_result) (b : List write_result) (d : List command_reply) (e : List io_call)
    (hr : rds = a ++ rdsn) (hw : ws = b ++ wsn) (hc : cs = d ++ csn)
    (ha : read_result.error ∉ a) (hb : write_result.error ∉ b)
    (hlog : logn = log ++ e) (he : ∀ x ∈ e, pump_call_ok c x)
    (hsn : sn.snbuf = 0 ∨ sn.snbuf = s.snbuf)
    (h : pump_outcome c sn logn rdsn wsn csn rc s' w' sc') :
    pump_outcome c s log rds ws cs rc s' w' sc' := by
  obtain ⟨ur, uw, uc, ext, h1, h2, h3, h4, h5, h6, h7, h8, h9⟩ := h
  refine ⟨a ++ ur, b ++ uw, d ++ uc, e ++ ext, ?_, ?_, ?_, ?_, ?_, ?_, ?_, ?_, ?_⟩
  · rw [hr, h1, List.append_assoc]
  · rw [hw, h2, List.append_assoc]
  · rw [hc, h3, List.append_assoc]
  · simp only [List.mem_append, not_or]
    exact ⟨ha, h4⟩
  · simp only [List.mem_append, not_or]
    exact ⟨hb, h5⟩
  · rw [h6, hlog, List.append_assoc]
  · intro x hx
    rcases List.mem_append.mp hx with hx | hx
    · exact he x hx
    · exact h7 x hx
  · rcases h8 with h8 | h8 | h8
    · exact Or.inl h8
    · exact Or.inr (Or.inl h8)
    · rcases hsn with hsn | hsn
      · exact absurd hsn h8
      · exact Or.inr (Or.inr (by rw [← hsn]; exact h8))
  · rcases h9 with ⟨h9, h10⟩ | h9
    · exact Or.inl ⟨h9, pump_rest_extend a b e h10⟩
    · exact Or.inr h9

theorem writes_are_pump_calls (c : fsm_consts) {l : List io_call} {o : Nat} {n : Int}
    (hl : ∀ e ∈ l, ∃ o l, e = io_call.write o l) (pre : List io_call)
    (hpre : ∀ e ∈ pre, pump_call_ok c e) :
    ∀ e ∈ pre ++ (l ++ [.write o n]), pump_call_ok c e := by
  intro e he
  rcases List.mem_append.mp he with he | he
  · exact hpre e he
  · rcases List.mem_append.mp he with he | he
    · obtain ⟨o', l', rfl⟩ := hl e he
      trivial
    · simp only [List.mem_singleton] at he
      subst he
      trivial

/-- Every run of the read loop that returns, entered with a buffer and
outside `fsm_socket_send_incomplete`, has the outcome `pump_outcome`. -/
theorem read_loop_outcome (c : fsm_consts) (rds : List read_result) :
    ∀ (s : fsm_state_t) (w : io_world) (ws : List write_result) (cs : List command_reply)
      (rc : Int) (s' : fsm_state_t) (w' : io_world) (sc' : script) (b : buffer_t),
      s.buf = some b → s.state ≠ .fsm_socket_send_incomplete →
      read_loop c rds s w ws cs = .ok (rc, s', w', sc') →
      pump_outcome c s w.log rds ws cs rc s' w' sc' := by
  induction rds with
  | nil => intro s w ws cs rc s' w' sc' b _ _ h; simp [read_loop] at h
  | cons r rs ih =>
    intro s w ws cs rc s' w' sc' b hb hns h
    have hread : ∀ e ∈ [io_call.read s.nbuf ((c.IO_BUFFER_SIZE : Int) - (s.nbuf : Int))],
        pump_call_ok c e := by
      intro e he
      simp only [List.mem_singleton] at he
      subst he
      simp [pump_call_ok]
    have hsn0 : s.snbuf = 0 ∨ s.snbuf ≠ 0 := by omega
    cases r with
    | would_block =>
      simp only [read_loop] at h
      split at h
      · simp only [Except.ok.injEq, Prod.mk.injEq] at h
        obtain ⟨rfl, rfl, rfl, rfl⟩ := h
        refine ⟨[.would_block], [], [], [.read s.nbuf ((c.IO_BUFFER_SIZE : Int) - (s.nbuf : Int)),
          .free (s.buf.map buffer_t.id)], rfl, rfl, rfl, by simp, by simp, ?_, ?_, ?_, ?_⟩
        · simp [return_to_socket_connected, io_world.call]
        · intro e he
          simp only [List.mem_cons, List.mem_singleton, List.not_mem_nil, or_false] at he
          rcases he with rfl | rfl
          · simp [pump_call_ok]
          · simp [pump_call_ok]
        · exact Or.inr (Or.inl rfl)
        · exact Or.inl ⟨rfl, Or.inl ⟨rfl, [], [], _, _, _, rfl, rfl⟩⟩
      · rename_i hri
        simp only [ne_eq, not_not] at hri
        simp only [Except.ok.injEq, Prod.mk.injEq] at h
        obtain ⟨rfl, rfl, rfl, rfl⟩ := h
        refine ⟨[.would_block], [], [], [.read s.nbuf ((c.IO_BUFFER_SIZE : Int) - (s.nbuf : Int))],
          rfl, rfl, rfl, by simp, by simp, by simp [io_world.call], hread, ?_, ?_⟩
        · rcases hsn0 with h0 | h0
          · exact Or.inr (Or.inl h0)
          · exact Or.inr (Or.inr h0)
        · exact Or.inl ⟨rfl, Or.inr (Or.inl ⟨hri, by simp [hb], [], [], _, _, rfl, rfl⟩)⟩
    | error => simp [read_loop] at h
    | data bytes =>
      simp only [read_loop] at h
      split at h
      · split at h
        · simp at h
        · rename_i b1 hst
          split at h
          · simp at h
          · rename_i res s2 w2 cs2 hpc
            obtain ⟨r, b2, b3, rfl, rfl, hn2, hs2, hsn2, hb2, hb3, hid3, -, -, -, hlog⟩ :=
              process_command_spec hpc
            have hiter : ∃ pre2 : List io_call, w2.log = w.log ++ pre2 ∧
                ∀ e ∈ pre2, pump_call_ok c e := by
              refine ⟨[.read s.nbuf ((c.IO_BUFFER_SIZE : Int) - (s.nbuf : Int)),
                .process_command (b2.data.take (min (s.nbuf + bytes.length) c.IO_BUFFER_SIZE))],
                ?_, ?_⟩
              · rw [hlog]
                simp [io_world.call]
              · intro e he
                simp only [List.mem_cons, List.mem_singleton, List.not_mem_nil, or_false] at he
                rcases he with rfl | rfl
                · simp [pump_call_ok]
                · simp [pump_call_ok]
            obtain ⟨pre2, hlog2, hext2⟩ := hiter
            have hterm : ∀ code : Int, (code = c.quit_connection ∨ code = c.shutdown_server) →
                pump_outcome c s w.log (.data bytes :: rs) ws (r :: cs2) code s2 w2
                  ⟨rs, ws, cs2⟩ := by
              intro code hcode
              refine ⟨[.data bytes], [], [r], pre2, rfl, rfl, rfl, by simp, by simp, hlog2,
                hext2, ?_, Or.inr hcode⟩
              rw [hsn2]
              rcases hsn0 with h0 | h0
              · exact Or.inr (Or.inl h0)
              · exact Or.inr (Or.inr h0)
            split at h
            · split at h
              · simp at h
              · rename_i s3 w3 ws3 hsent
                have h3 : ∃ (used : List write_result) (ext3 : List io_call),
                    ws = used ++ ws3 ∧ write_result.error ∉ used ∧
                    w3.log = w.log ++ ext3 ∧ (∀ e ∈ ext3, pump_call_ok c e) ∧
                    s3.buf ≠ none ∧
                    (s3.state = .fsm_socket_send_incomplete →
                      ∃ p0 l o n, used = p0 ++ [.would_block] ∧ ext3 = l ++ [.write o n]) := by
                  split at hsent
                  · obtain ⟨used, l, o, n, h1, h2, h3, h4, h5, -, h7⟩ :=
                      send_err_to_client_facts hsent
                    refine ⟨used, pre2 ++ (l ++ [.write o n]), h1, h2,
                      by rw [h3, hlog2, List.append_assoc],
                      writes_are_pump_calls c h4 _ hext2, h5, fun hs => ?_⟩
                    obtain ⟨p0, hp0⟩ := h7 hs
                    exact ⟨p0, pre2 ++ l, o, n, hp0, by rw [List.append_assoc]⟩
                  · split at hsent
                    · obtain ⟨used, l, o, n, h1, h2, h3, h4, h5, -, h7⟩ :=
                        send_msg_to_client_facts hsent
                      refine ⟨used, pre2 ++ (l ++ [.write o n]), h1, h2,
                        by rw [h3, hlog2, List.append_assoc],
                        writes_are_pump_calls c h4 _ hext2, by rw [h5, hb3]; simp, fun hs => ?_⟩
                      obtain ⟨p0, hp0⟩ := h7 hs
                      exact ⟨p0, pre2 ++ l, o, n, hp0, by rw [List.append_assoc]⟩
                    · simp only [Except.ok.injEq, Prod.mk.injEq] at hsent
                      obtain ⟨rfl, rfl, rfl⟩ := hsent
                      refine ⟨[], pre2, rfl, by simp, hlog2, hext2, by rw [hb3]; simp,
                        fun hs => ?_⟩
                      rw [hs2] at hs
                      exact absurd hs hns
                obtain ⟨used, ext3, hws, hused, hlog3, hext3, hbuf3, hsi3⟩ := h3
                split at h
                · obtain ⟨b4, hb4⟩ := Option.ne_none_iff_exists'.mp hbuf3
                  have hrec := ih _ _ _ _ _ _ _ _ b4 (by exact hb4) (by simp) h
                  exact pump_outcome_step [.data bytes] used [r] ext3 rfl hws rfl (by simp) hused
                    hlog3 hext3 (Or.inl rfl) hrec
                · rename_i hsi
                  simp only [ne_eq, not_not] at hsi
                  simp only [Except.ok.injEq, Prod.mk.injEq] at h
                  obtain ⟨rfl, rfl, rfl, rfl⟩ := h
                  obtain ⟨p0, l, o, n, hp0, hl⟩ := hsi3 hsi
                  exact ⟨[.data bytes], used, [r], ext3, rfl, hws, rfl, by simp, hused, hlog3,
                    hext3, Or.inl hsi,
                    Or.inl ⟨rfl, Or.inr (Or.inr ⟨hsi, hbuf3, p0, l, o, n, hp0, hl⟩)⟩⟩
            · split at h
              · have hrec := ih _ _ _ _ _ _ _ _ b3 (by exact hb3) (by simp) h
                exact pump_outcome_step [.data bytes] [] [r] pre2 rfl rfl rfl (by simp) (by simp)
                  hlog2 hext2 (Or.inr hsn2) hrec
              · split at h
                · simp only [Except.ok.injEq, Prod.mk.injEq] at h
                  obtain ⟨rfl, rfl, rfl, rfl⟩ := h
                  exact hterm _ (Or.inl rfl)
                · split at h
                  · simp only [Except.ok.injEq, Prod.mk.injEq] at h
                    obtain ⟨rfl, rfl, rfl, rfl⟩ := h
                    exact hterm _ (Or.inr rfl)
                  · simp at h
      · simp only [Except.ok.injEq, Prod.mk.injEq] at h
        obtain ⟨rfl, rfl, rfl, rfl⟩ := h
        refine ⟨[.data bytes], [], [], [.read s.nbuf ((c.IO_BUFFER_SIZE : Int) - (s.nbuf : Int))],
          rfl, rfl, rfl, by simp, by simp, by simp [io_world.call], hread, ?_, Or.inr (Or.inl rfl)⟩
        rcases hsn0 with h0 | h0
        · exact Or.inr (Or.inl h0)
        · exact Or.inr (Or.inr h0)

/-- Every run of the read loop that stops with a fault: a failed check comes
from an I/O error or from a verdict that is none of the six enumerators, and
a failed assertion needs `snbuf ≠ 0` at the start of the loop. -/
theorem read_loop_fault (c : fsm_consts) (rds : List read_result) :
    ∀ (s : fsm_state_t) (w : io_world) (ws : List write_result) (cs : List command_reply)
      (f : fault),
      read_loop c rds s w ws cs = .error f →
      (f = .check_failed → read_result.error ∈ rds ∨ write_result.error ∈ ws ∨
        ∃ r ∈ cs, r.res = .unhandled) ∧
      (f = .assertion_failed → s.snbuf ≠ 0) := by
  induction rds with
  | nil =>
    intro s w ws cs f h
    simp only [read_loop, Except.error.injEq] at h
    subst h
    exact ⟨by simp, by simp⟩
  | cons r rs ih =>
    intro s w ws cs f h
    cases r with
    | would_block =>
      simp only [read_loop] at h
      split at h <;> simp at h
    | error =>
      simp only [read_loop, Except.error.injEq] at h
      subst h
      exact ⟨fun _ => Or.inl (List.mem_cons_self _ _), by simp⟩
    | data bytes =>
      simp only [read_loop] at h
      split at h
      · split at h
        · simp only [Except.error.injEq] at h
          subst h
          exact ⟨by simp, by simp⟩
        · rename_i b1 hst
          split at h
          · rename_i f' hpc
            simp only [Except.error.injEq] at h
            subst h
            obtain ⟨h1, h2⟩ := process_command_fault hpc
            exact ⟨fun hf => absurd hf h2, fun hf => absurd hf h1⟩
          · rename_i res s2 w2 cs2 hpc
            obtain ⟨r, b2, b3, rfl, rfl, hn2, hs2, hsn2, hb2, hb3, hid3, -, -, -, hlog⟩ :=
              process_command_spec hpc
            simp only at hsn2
            have hlift : (read_result.error ∈ rs ∨ write_result.error ∈ ws ∨
                ∃ r' ∈ cs2, r'.res = .unhandled) →
                read_result.error ∈ read_result.data bytes :: rs ∨ write_result.error ∈ ws ∨
                  ∃ r' ∈ r :: cs2, r'.res = .unhandled := by
              intro hx
              rcases hx with hx | hx | ⟨r', hr', hx⟩
              · exact Or.inl (List.mem_cons_of_mem _ hx)
              · exact Or.inr (Or.inl hx)
              · exact Or.inr (Or.inr ⟨r', List.mem_cons_of_mem _ hr', hx⟩)
            split at h
            · split at h
              · rename_i f' hsent
                simp only [Except.error.injEq] at h
                subst h
                have hf : (f' = .assertion_failed → s2.snbuf ≠ 0) ∧
                    (f' = .check_failed → write_result.error ∈ ws) := by
                  split at hsent
                  · obtain ⟨h1, h2⟩ := send_err_to_client_fault hsent
                    exact ⟨fun hf => (h1 hf).1, h2⟩
                  · split at hsent
                    · obtain ⟨h1, h2⟩ := send_msg_to_client_fault hsent
                      exact ⟨fun hf => (h1 hf).1, h2⟩
                    · simp at hsent
                exact ⟨fun hx => Or.inr (Or.inl (hf.2 hx)), fun hx => by rw [← hsn2]; exact hf.1 hx⟩
              · rename_i s3 w3 ws3 hsent
                have hsuffix : write_result.error ∈ ws3 → write_result.error ∈ ws := by
                  split at hsent
                  · obtain ⟨used, l, o, n, h1, -⟩ := send_err_to_client_facts hsent
                    intro hx
                    rw [h1]
                    exact List.mem_append_right _ hx
                  · split at hsent
                    · obtain ⟨used, l, o, n, h1, -⟩ := send_msg_to_client_facts hsent
                      intro hx
                      rw [h1]
                      exact List.mem_append_right _ hx
                    · simp only [Except.ok.injEq, Prod.mk.injEq] at hsent
                      obtain ⟨-, -, rfl⟩ := hsent
                      exact id
                split at h
                · obtain ⟨h1, h2⟩ := ih _ _ _ _ _ h
                  refine ⟨fun hx => ?_, fun hx => absurd rfl (h2 hx)⟩
                  rcases h1 hx with hy | hy | hy
                  · exact hlift (Or.inl hy)
                  · exact hlift (Or.inr (Or.inl (hsuffix hy)))
                  · exact hlift (Or.inr (Or.inr hy))
                · simp at h
            · split at h
              · obtain ⟨h1, h2⟩ := ih _ _ _ _ _ h
                exact ⟨fun hx => hlift (h1 hx), fun hx => by rw [← hsn2]; exact h2 hx⟩
              · split at h
                · simp at h
                · split at h
                  · simp at h
                  · rename_i hn1 hn2 hn3 hn4
                    simp only [Except.error.injEq] at h
                    subst h
                    refine ⟨fun _ => Or.inr (Or.inr ⟨r, List.mem_cons_self _ _, ?_⟩), by simp⟩
                    cases hres : r.res <;> simp_all
      · simp at h

/-- The outcome of a returning call of `do_socket_ready` outside
`fsm_socket_send_incomplete`: that of its read loop, after the `malloc` when
no buffer was held. -/
theorem do_socket_ready_outcome {c : fsm_consts} {event : event_t} {s s' : fsm_state_t}
    {w w' : io_world} {sc sc' : script} {rc : Int}
    (hst : s.state ≠ .fsm_socket_send_incomplete)
    (h : do_socket_ready c event s w sc = .ok (rc, s', w', sc')) :
    (s.buf ≠ none ∧ pump_outcome c s w.log sc.reads sc.writes sc.commands rc s' w' sc') ∨
    (s.buf = none ∧
      pump_outcome c s (w.log ++ [.malloc w.fresh]) sc.reads sc.writes sc.commands rc s' w' sc')
    := by
  unfold do_socket_ready at h
  split at h
  · split at h
    · rename_i hnone
      have hrun := read_loop_outcome c _ _ _ _ _ _ _ _ _ ⟨w.fresh, _⟩ rfl (by exact hst) h
      exact Or.inr ⟨hnone, pump_outcome_step [] [] [] [] rfl rfl rfl (by simp) (by simp)
        (by simp [io_world.malloc]) (by simp) (Or.inr rfl) hrun⟩
    · rename_i b hb
      exact Or.inl ⟨by simp [hb], read_loop_outcome c _ _ _ _ _ _ _ _ _ b hb hst h⟩
  · simp at h

theorem do_socket_ready_fault {c : fsm_consts} {event : event_t} {s : fsm_state_t}
    {w : io_world} {sc : script} {f : fault}
    (h : do_socket_ready c event s w sc = .error f) :
    (f = .check_failed → event.event_type ≠ .et_sock ∨ read_result.error ∈ sc.reads ∨
      write_result.error ∈ sc.writes ∨ ∃ r ∈ sc.commands, r.res = .unhandled) ∧
    (f = .assertion_failed → s.snbuf ≠ 0) := by
  unfold do_socket_ready at h
  split at h
  · split at h
    · obtain ⟨h1, h2⟩ := read_loop_fault c _ _ _ _ _ _ h
      exact ⟨fun hf => Or.inr (h1 hf), h2⟩
    · obtain ⟨h1, h2⟩ := read_loop_fault c _ _ _ _ _ _ h
      exact ⟨fun hf => Or.inr (h1 hf), h2⟩
  · rename_i hev
    simp only [Except.error.injEq] at h
    subst h
    exact ⟨fun _ => Or.inl (by simp [hev]), by simp⟩

/-- The Write Pump ends outside `fsm_socket_send_incomplete` only with the
send complete. -/
theorem send_msg_to_client_done {ws ws' : List write_result} {s s' : fsm_state_t}
    {w w' : io_world} (h : send_msg_to_client ws s w = .ok (s', w', ws'))
    (hs : s'.state ≠ .fsm_socket_send_incomplete) :
    s'.state = .fsm_socket_connected ∧ s'.nbuf = 0 ∧ s'.snbuf = 0 := by
  unfold send_msg_to_client at h
  split at h
  · obtain ⟨ks, ext, -, -, -, -, -, -, hcase⟩ := send_loop_outcome _ _ _ _ _ _ _ _ h
    rcases hcase with ⟨-, h2, -⟩ | ⟨k, -, h2, h3, h4, -⟩
    · exact absurd h2 hs
    · exact ⟨h2, h3, h4⟩
  · simp at h

/-- The read loop over a series of exchanges, whatever comes after them: the
loop is back at its head in the clean connected state with the replies
sent. -/
theorem read_loop_exchanges_then (c : fsm_consts) (xs : List (List Char × List Char)) :
    ∀ (b : buffer_t) (w : io_world), b.data.length = c.IO_BUFFER_SIZE →
      (∀ x ∈ xs, 0 < x.1.length ∧ x.1.length ≤ c.IO_BUFFER_SIZE ∧
        x.2.length ≤ c.IO_BUFFER_SIZE) →
      ∃ (b' : buffer_t) (w' : io_world), b'.id = b.id ∧ b'.data.length = c.IO_BUFFER_SIZE ∧
        w'.sent = w.sent ++ replies_concat xs ∧ w'.fresh = w.fresh ∧
        ∀ (rest : List read_result) (ws : List write_result) (cs : List command_reply),
          read_loop c (exchange_reads xs ++ rest) ⟨.fsm_socket_connected, some b, 0, 0⟩ w
            (exchange_writes xs ++ ws) (exchange_commands xs ++ cs) =
          read_loop c rest ⟨.fsm_socket_connected, some b', 0, 0⟩ w' ws cs := by
  induction xs with
  | nil =>
    intro b w hcap _
    exact ⟨b, w, rfl, hcap, by simp [replies_concat], rfl, fun rest ws cs => rfl⟩
  | cons x xs ih =>
    intro b w hcap hx
    obtain ⟨hx0, hxB, hrB⟩ := hx x (List.mem_cons_self _ _)
    have hlen : (poke (poke b.data 0 x.1) 0 x.2).length = c.IO_BUFFER_SIZE := by
      rw [poke_length (by rw [poke_length (by omega)]; omega), poke_length (by omega), hcap]
    obtain ⟨b', w', hid, hcap', hsent, hfresh, hrun⟩ := ih
      ⟨b.id, poke (poke b.data 0 x.1) 0 x.2⟩
      ((((after_command_world c ⟨.fsm_socket_connected, some b, 0, 0⟩ b x.1 w).call
        (.write 0 x.2.length)).emit ((poke (poke b.data 0 x.1) 0 x.2).take x.2.length)))
      hlen (fun y hy => hx y (List.mem_cons_of_mem _ hy))
    refine ⟨b', w', hid, hcap', ?_, ?_, fun rest ws cs => ?_⟩
    · rw [hsent]
      simp [io_world.emit, io_world.call, after_command_world, replies_concat,
        poke_take_front]
    · rw [hfresh]
      simp [io_world.emit, io_world.call, after_command_world]
    · have hstep := read_loop_response c (s := ⟨.fsm_socket_connected, some b, 0, 0⟩) w x.1
        ⟨.command_success_response_ready, x.2, x.2.length⟩ (exchange_reads xs ++ rest)
        (.accepted x.2.length :: (exchange_writes xs ++ ws)) (exchange_commands xs ++ cs) rfl
        hx0 (by simp only; omega) (by simp only; omega) rfl
      have hsend := send_msg_full
        (s := after_command ⟨.fsm_socket_connected, some b, 0, 0⟩ b x.1
          ⟨.command_success_response_ready, x.2, x.2.length⟩)
        (b := ⟨b.id, poke (poke b.data 0 x.1) 0 x.2⟩)
        (after_command_world c ⟨.fsm_socket_connected, some b, 0, 0⟩ b x.1 w)
        (exchange_writes xs ++ ws) rfl rfl (by simp only [after_command]; omega)
      simp only [after_command] at hsend hstep
      show read_loop c (.data x.1 :: (exchange_reads xs ++ rest))
          ⟨.fsm_socket_connected, some b, 0, 0⟩ w
          (.accepted x.2.length :: (exchange_writes xs ++ ws))
          (⟨.command_success_response_ready, x.2, x.2.length⟩ :: (exchange_commands xs ++ cs))
          = _
      rw [hstep, hsend]
      simpa using hrun rest ws cs

theorem pump_outcome_reads {c : fsm_consts} {s s' : fsm_state_t} {log : List io_call}
    {rds : List read_result} {ws : List write_result} {cs : List command_reply} {rc : Int}
    {w' : io_world} {sc' : script}
    (h : pump_outcome c s log rds ws cs rc s' w' sc') :
    ∃ used_r used_w ext, rds = used_r ++ sc'.reads ∧ ws = used_w ++ sc'.writes ∧
      read_result.error ∉ used_r ∧ write_result.error ∉ used_w ∧ w'.log = log ++ ext ∧
      (∀ e ∈ ext, pump_call_ok c e) := by
  obtain ⟨ur, uw, uc, ext, h1, h2, -, h4, h5, h6, h7, -, -⟩ := h
  exact ⟨ur, uw, ext, h1, h2, h4, h5, h6, h7⟩

/-- Every dispatch that returns has used up no I/O error, and each read it
made was asked for `IO_BUFFER_SIZE - off` bytes at its offset `off`. -/
theorem do_transition_outcome {c : fsm_consts} {event : event_t} {s s' : fsm_state_t}
    {w w' : io_world} {sc sc' : script} {rc : Int}
    (h : do_transition c event s w sc = .ok (rc, s', w', sc')) :
    ∃ used_r used_w ext, sc.reads = used_r ++ sc'.reads ∧ sc.writes = used_w ++ sc'.writes ∧
      read_result.error ∉ used_r ∧ write_result.error ∉ used_w ∧ w'.log = w.log ++ ext ∧
      (∀ off len, io_call.read off len ∈ ext →
        len = (c.IO_BUFFER_SIZE : Int) - (off : Int)) := by
  have pump : ∀ {s1 : fsm_state_t} {w1 : io_world} {sc1 : script} {ev : event_t} {rc1 : Int},
      s1.state ≠ .fsm_socket_send_incomplete →
      do_socket_ready c ev s1 w1 sc1 = .ok (rc1, s', w', sc') →
      ∃ used_r used_w ext, sc1.reads = used_r ++ sc'.reads ∧
        sc1.writes = used_w ++ sc'.writes ∧
        read_result.error ∉ used_r ∧ write_result.error ∉ used_w ∧ w'.log = w1.log ++ ext ∧
        (∀ off len, io_call.read off len ∈ ext →
          len = (c.IO_BUFFER_SIZE : Int) - (off : Int)) := by
    intro s1 w1 sc1 ev rc1 hst hrun
    rcases do_socket_ready_outcome hst hrun with ⟨-, ho⟩ | ⟨-, ho⟩
    · obtain ⟨ur, uw, ext, h1, h2, h3, h4, h5, h6⟩ := pump_outcome_reads ho
      exact ⟨ur, uw, ext, h1, h2, h3, h4, h5, fun off len hm => h6 _ hm⟩
    · obtain ⟨ur, uw, ext, h1, h2, h3, h4, h5, h6⟩ := pump_outcome_reads ho
      refine ⟨ur, uw, .malloc w1.fresh :: ext, h1, h2, h3, h4, by rw [h5]; simp, ?_⟩
      intro off len hm
      rcases List.mem_cons.mp hm with hm | hm
      · cases hm
      · exact h6 _ hm
  unfold do_transition at h
  split at h
  · rename_i hs
    exact pump (by simp [hs]) h
  · rename_i hs
    exact pump (by simp [hs]) h
  · unfold do_socket_send_incomplete at h
    split at h
    · have tail : ∀ (s1 : fsm_state_t) (w1 : io_world) (ws1 : List write_result)
          (used : List write_result) (ext1 : List io_call),
          sc.writes = used ++ ws1 → write_result.error ∉ used → w1.log = w.log ++ ext1 →
          (∀ e ∈ ext1, ∃ o l, e = io_call.write o l) →
          (if s1.state ≠ .fsm_socket_send_incomplete then
              match do_socket_ready c { event with op := .eo_read } s1 w1
                  { sc with writes := ws1 } with
              | .error f => .error f
              | .ok (_, s2, w2, sc2) => .ok (0, s2, w2, sc2)
            else (.ok (0, s1, w1, { sc with writes := ws1 }) :
              Except fault (Int × fsm_state_t × io_world × script))) =
            .ok (rc, s', w', sc') →
          ∃ used_r used_w ext, sc.reads = used_r ++ sc'.reads ∧
            sc.writes = used_w ++ sc'.writes ∧
            read_result.error ∉ used_r ∧ write_result.error ∉ used_w ∧
            w'.log = w.log ++ ext ∧
            (∀ off len, io_call.read off len ∈ ext →
              len = (c.IO_BUFFER_SIZE : Int) - (off : Int)) := by
        intro s1 w1 ws1 used ext1 hws hused hlog hext h
        split at h
        · rename_i hne
          split at h
          · simp at h
          · rename_i rc2 s2 w2 sc2 hpump
            simp only [Except.ok.injEq, Prod.mk.injEq] at h
            obtain ⟨-, rfl, rfl, rfl⟩ := h
            obtain ⟨ur, uw, ext, h1, h2, h3, h4, h5, h6⟩ := pump hne hpump
            refine ⟨ur, used ++ uw, ext1 ++ ext, h1, ?_, h3, ?_, ?_, ?_⟩
            · rw [hws]
              simp only at h2
              rw [h2, List.append_assoc]
            · simp only [List.mem_append, not_or]
              exact ⟨hused, h4⟩
            · rw [h5, hlog, List.append_assoc]
            · intro off len hm
              rcases List.mem_append.mp hm with hm | hm
              · obtain ⟨o, l, ho⟩ := hext _ hm
                cases ho
              · exact h6 off len hm
        · simp only [Except.ok.injEq, Prod.mk.injEq] at h
          obtain ⟨-, rfl, rfl, rfl⟩ := h
          refine ⟨[], used, ext1, rfl, hws, by simp, hused, hlog, ?_⟩
          intro off len hm
          obtain ⟨o, l, ho⟩ := hext _ hm
          cases ho
      by_cases hop : event.op = .eo_rdwr ∨ event.op = .eo_write
      · simp only [if_pos hop] at h
        split at h
        · simp at h
        · rename_i s1 w1 ws1 hsent
          obtain ⟨used, l, o, n, h1, h2, h3, h4, -, -, -⟩ := send_msg_to_client_facts hsent
          refine tail s1 w1 ws1 used (l ++ [.write o n]) h1 h2 h3 ?_ h
          intro e he
          rcases List.mem_append.mp he with he | he
          · exact h4 e he
          · simp only [List.mem_singleton] at he
            exact ⟨o, n, he⟩
      · simp only [if_neg hop] at h
        exact tail s w sc.writes [] [] rfl (by simp) (by simp) (by simp) h
    · simp at h

/-- Every dispatch that stops with a fault: a failed check comes from a
non-socket event, an I/O error or a verdict that is none of the six
enumerators, and a failed assertion needs a start outside
`fsm_socket_send_incomplete` with `snbuf ≠ 0`. -/
theorem do_transition_fault {c : fsm_consts} {event : event_t} {s : fsm_state_t}
    {w : io_world} {sc : script} {f : fault}
    (h : do_transition c event s w sc = .error f) :
    (f = .check_failed → event.event_type ≠ .et_sock ∨ read_result.error ∈ sc.reads ∨
      write_result.error ∈ sc.writes ∨ ∃ r ∈ sc.commands, r.res = .unhandled) ∧
    (f = .assertion_failed → ¬ snbuf_idle s) := by
  unfold do_transition at h
  split at h
  · rename_i hs
    obtain ⟨h1, h2⟩ := do_socket_ready_fault h
    exact ⟨h1, fun hf hidle => by
      rcases hidle with hi | hi
      · simp [hs] at hi
      · exact h2 hf hi⟩
  · rename_i hs
    obtain ⟨h1, h2⟩ := do_socket_ready_fault h
    exact ⟨h1, fun hf hidle => by
      rcases hidle with hi | hi
      · simp [hs] at hi
      · exact h2 hf hi⟩
  · rename_i hs
    unfold do_socket_send_incomplete at h
    split at h
    · have tail : ∀ (s1 : fsm_state_t) (w1 : io_world) (ws1 : List write_result),
          (write_result.error ∈ ws1 → write_result.error ∈ sc.writes) →
          (s1.state ≠ .fsm_socket_send_incomplete → s1.snbuf = 0) →
          (if s1.state ≠ .fsm_socket_send_incomplete then
              match do_socket_ready c { event with op := .eo_read } s1 w1
                  { sc with writes := ws1 } with
              | .error f => .error f
              | .ok (_, s2, w2, sc2) => .ok (0, s2, w2, sc2)
            else (.ok (0, s1, w1, { sc with writes := ws1 }) :
              Except fault (Int × fsm_state_t × io_world × script))) = .error f →
          (f = .check_failed → event.event_type ≠ .et_sock ∨ read_result.error ∈ sc.reads ∨
            write_result.error ∈ sc.writes ∨ ∃ r ∈ sc.commands, r.res = .unhandled) ∧
          (f = .assertion_failed → ¬ snbuf_idle s) := by
        intro s1 w1 ws1 hsuf hzero h
        split at h
        · rename_i hne
          split at h
          · rename_i f' hpump
            simp only [Except.error.injEq] at h
            subst h
            obtain ⟨h1, h2⟩ := do_socket_ready_fault hpump
            refine ⟨fun hf => ?_, fun hf => absurd (hzero hne) (h2 hf)⟩
            rcases h1 hf with hx | hx | hx | hx
            · exact Or.inl hx
            · exact Or.inr (Or.inl hx)
            · exact Or.inr (Or.inr (Or.inl (hsuf hx)))
            · exact Or.inr (Or.inr (Or.inr hx))
          · simp at h
        · simp at h
      by_cases hop : event.op = .eo_rdwr ∨ event.op = .eo_write
      · simp only [if_pos hop] at h
        split at h
        · rename_i f' hsent
          simp only [Except.error.injEq] at h
          subst h
          obtain ⟨h1, h2⟩ := send_msg_to_client_fault hsent
          exact ⟨fun hf => Or.inr (Or.inr (Or.inl (h2 hf))), fun hf => absurd hs (h1 hf).2⟩
        · rename_i s1 w1 ws1 hsent
          obtain ⟨used, l, o, n, h1, -⟩ := send_msg_to_client_facts hsent
          refine tail s1 w1 ws1 ?_ (fun hne => (send_msg_to_client_done hsent hne).2.2) h
          intro hx
          rw [h1]
          exact List.mem_append_right _ hx
      · simp only [if_neg hop] at h
        exact tail s w sc.writes id (fun hne => absurd hs hne) h
    · rename_i hev
      simp only [Except.error.injEq] at h
      subst h
      exact ⟨fun _ => Or.inl (by simp [hev]), by simp⟩

/-- A dispatch keeps the condition `snbuf_idle`. -/
theorem do_transition_idle {c : fsm_consts} {event : event_t} {s s' : fsm_state_t}
    {w w' : io_world} {sc sc' : script} {rc : Int} (hidle : snbuf_idle s)
    (h : do_transition c event s w sc = .ok (rc, s', w', sc')) : snbuf_idle s' := by
  have pump : ∀ {s1 : fsm_state_t} {w1 : io_world} {sc1 : script} {ev : event_t} {rc1 : Int},
      s1.state ≠ .fsm_socket_send_incomplete → s1.snbuf = 0 →
      do_socket_ready c ev s1 w1 sc1 = .ok (rc1, s', w', sc') → snbuf_idle s' := by
    intro s1 w1 sc1 ev rc1 hst h0 hrun
    rcases do_socket_ready_outcome hst hrun with ⟨-, ho⟩ | ⟨-, ho⟩
    · obtain ⟨_, _, _, _, -, -, -, -, -, -, -, h8, -⟩ := ho
      rcases h8 with h8 | h8 | h8
      · exact Or.inl h8
      · exact Or.inr h8
      · exact absurd h0 h8
    · obtain ⟨_, _, _, _, -, -, -, -, -, -, -, h8, -⟩ := ho
      rcases h8 with h8 | h8 | h8
      · exact Or.inl h8
      · exact Or.inr h8
      · exact absurd h0 h8
  have hzero : s.state ≠ .fsm_socket_send_incomplete → s.snbuf = 0 := by
    intro hne
    rcases hidle with hi | hi
    · exact absurd hi hne
    · exact hi
  unfold do_transition at h
  split at h
  · rename_i hs
    exact pump (by simp [hs]) (hzero (by simp [hs])) h
  · rename_i hs
    exact pump (by simp [hs]) (hzero (by simp [hs])) h
  · rename_i hs
    unfold do_socket_send_incomplete at h
    split at h
    · have tail : ∀ (s1 : fsm_state_t) (w1 : io_world) (ws1 : List write_result),
          (s1.state ≠ .fsm_socket_send_incomplete → s1.snbuf = 0) →
          (if s1.state ≠ .fsm_socket_send_incomplete then
              match do_socket_ready c { event with op := .eo_read } s1 w1
                  { sc with writes := ws1 } with
              | .error f => .error f
              | .ok (_, s2, w2, sc2) => .ok (0, s2, w2, sc2)
            else (.ok (0, s1, w1, { sc with writes := ws1 }) :
              Except fault (Int × fsm_state_t × io_world × script))) =
            .ok (rc, s', w', sc') → snbuf_idle s' := by
        intro s1 w1 ws1 hz h
        split at h
        · rename_i hne
          split at h
          · simp at h
          · rename_i rc2 s2 w2 sc2 hpump
            simp only [Except.ok.injEq, Prod.mk.injEq] at h
            obtain ⟨-, rfl, rfl, rfl⟩ := h
            exact pump hne (hz hne) hpump
        · rename_i hsi
          simp only [ne_eq, not_not] at hsi
          simp only [Except.ok.injEq, Prod.mk.injEq] at h
          obtain ⟨-, rfl, -, -⟩ := h
          exact Or.inl hsi
      by_cases hop : event.op = .eo_rdwr ∨ event.op = .eo_write
      · simp only [if_pos hop] at h
        split at h
        · simp at h
        · rename_i s1 w1 ws1 hsent
          exact tail s1 w1 ws1 (fun hne => (send_msg_to_client_done hsent hne).2.2) h
      · simp only [if_neg hop] at h
        exact tail s w sc.writes (fun hne => absurd hs hne) h
    · simp at h

/-! C11: the processor asks for termination -/

/-- In a state other than `fsm_socket_send_incomplete` and with a buffer
held, `do_transition` on a socket event is the read loop. -/
theorem do_transition_direct (c : fsm_consts) (op : event_op_t) {s : fsm_state_t}
    {b : buffer_t} (w : io_world) (sc : script) (hb : s.buf = some b)
    (hst : s.state ≠ .fsm_socket_send_incomplete) :
    do_transition c ⟨.et_sock, op⟩ s w sc = read_loop c sc.reads s w sc.writes sc.commands := by
  cases hs : s.state with
  | fsm_socket_connected => simp [do_transition, do_socket_ready, hs, hb]
  | fsm_socket_recv_incomplete => simp [do_transition, do_socket_ready, hs, hb]
  | fsm_socket_send_incomplete => exact absurd hs hst

/-- A read of `chunk` answered by a verdict that ends the dispatch. -/
theorem read_loop_terminal (c : fsm_consts) {s : fsm_state_t} {b : buffer_t} (w : io_world)
    (chunk : List Char) (r : command_reply) (rs : List read_result) (ws : List write_result)
    (cs : List command_reply) (hb : s.buf = some b) (h0 : 0 < chunk.length)
    (hfit : s.nbuf + chunk.length ≤ b.data.length) (hr : r.buf.length ≤ b.data.length) :
    (r.res = .quit_connection →
      read_loop c (.data chunk :: rs) s w ws (r :: cs) =
        .ok (c.quit_connection, after_command s b chunk r, after_command_world c s b chunk w,
          ⟨rs, ws, cs⟩)) ∧
    (r.res = .shutdown_server →
      read_loop c (.data chunk :: rs) s w ws (r :: cs) =
        .ok (c.shutdown_server, after_command s b chunk r, after_command_world c s b chunk w,
          ⟨rs, ws, cs⟩)) := by
  have hpc := process_command_run (B := c.IO_BUFFER_SIZE)
    (s := ⟨s.state, some ⟨b.id, poke b.data s.nbuf chunk⟩, s.nbuf + chunk.length, s.snbuf⟩)
    (w.call (.read s.nbuf ((c.IO_BUFFER_SIZE : Int) - (s.nbuf : Int)))) r cs rfl
    (by rw [poke_length hfit]; exact hr)
  constructor
  · intro hres
    simp only [read_loop, if_pos h0, store_inside hb s.nbuf chunk hfit, hpc, hres]
    simp [after_command, after_command_world]
  · intro hres
    simp only [read_loop, if_pos h0, store_inside hb s.nbuf chunk hfit, hpc, hres]
    simp [after_command, after_command_world]

/-- The direct path.  A read delivers `chunk` and the processor returns the verdict `v`,
which is `quit_connection` (then `code` is the result code
`quit_connection`) or `shutdown_server` (then `code` is the result code
`shutdown_server`).  The dispatcher runs the Read Pump in the states
`fsm_socket_connected` and `fsm_socket_recv_incomplete`.  (1) From such a
state with a buffer held, `do_transition` returns `code`; the calls made are
the read and the processor call, nothing is sent, and the reads and writes
that follow in the script are not used.  (2) The same from such a state
without a buffer, after the `malloc`.  (3) The same after any number of
commands `xs` that were answered and whose replies were sent earlier in the
same dispatch: the last call is the processor call and what was sent are the
earlier replies. -/
theorem termination_verdicts_direct (c : fsm_consts) (op : event_op_t) (s : fsm_state_t)
    (b : buffer_t) (w : io_world) (chunk rbuf : List Char) (rn : Nat) (v : operations_t)
    (code : Int) (st : state_t) (n0 k0 : Nat)
    (xs : List (List Char × List Char)) (rs : List read_result) (ws : List write_result)
    (cs : List command_reply)
    (hv : (v = .quit_connection ∧ code = c.quit_connection) ∨
      (v = .shutdown_server ∧ code = c.shutdown_server))
    (hb : s.buf = some b) (hcap : b.data.length = c.IO_BUFFER_SIZE)
    (hst : s.state ≠ .fsm_socket_send_incomplete)
    (hst0 : st ≠ .fsm_socket_send_incomplete) (h0 : 0 < chunk.length)
    (hfit : s.nbuf + chunk.length ≤ c.IO_BUFFER_SIZE)
    (hr : rbuf.length ≤ c.IO_BUFFER_SIZE)
    (hxs : ∀ x ∈ xs, 0 < x.1.length ∧ x.1.length ≤ c.IO_BUFFER_SIZE ∧
      x.2.length ≤ c.IO_BUFFER_SIZE) :
    (∃ s' seen,
      do_transition c ⟨.et_sock, op⟩ s w ⟨.data chunk :: rs, ws, ⟨v, rbuf, rn⟩ :: cs⟩ =
        .ok (code, s',
          ⟨w.log ++ [.read s.nbuf ((c.IO_BUFFER_SIZE : Int) - (s.nbuf : Int)),
            .process_command seen], w.sent, w.fresh⟩, ⟨rs, ws, cs⟩)) ∧
    (∃ s' seen,
      do_transition c ⟨.et_sock, op⟩ ⟨st, none, n0, k0⟩ w
          ⟨.data chunk :: rs, ws, ⟨v, rbuf, rn⟩ :: cs⟩ =
        .ok (code, s',
          ⟨w.log ++ [.malloc w.fresh, .read 0 c.IO_BUFFER_SIZE, .process_command seen],
            w.sent, w.fresh + 1⟩, ⟨rs, ws, cs⟩)) ∧
    (∃ s' w' l seen,
      do_transition c ⟨.et_sock, op⟩ ⟨.fsm_socket_connected, some b, 0, 0⟩ w
          ⟨exchange_reads xs ++ .data chunk :: rs, exchange_writes xs ++ ws,
            exchange_commands xs ++ ⟨v, rbuf, rn⟩ :: cs⟩ =
        .ok (code, s', w', ⟨rs, ws, cs⟩) ∧
      w'.sent = w.sent ++ replies_concat xs ∧ w'.log = l ++ [.process_command seen]) := by
  have term : ∀ (s1 : fsm_state_t) (b1 : buffer_t) (w1 : io_world), s1.buf = some b1 →
      b1.data.length = c.IO_BUFFER_SIZE → s1.nbuf + chunk.length ≤ c.IO_BUFFER_SIZE →
      read_loop c (.data chunk :: rs) s1 w1 ws (⟨v, rbuf, rn⟩ :: cs) =
        .ok (code, after_command s1 b1 chunk ⟨v, rbuf, rn⟩,
          after_command_world c s1 b1 chunk w1, ⟨rs, ws, cs⟩) := by
    intro s1 b1 w1 hb1 hcap1 hfit1
    have ht := read_loop_terminal c w1 chunk ⟨v, rbuf, rn⟩ rs ws cs hb1 h0
      (by omega) (by simp only; omega)
    rcases hv with ⟨hv1, hv2⟩ | ⟨hv1, hv2⟩
    · rw [hv2]
      exact ht.1 hv1
    · rw [hv2]
      exact ht.2 hv1
  obtain ⟨b', w', -, hcap', hsent, -, hrun⟩ := read_loop_exchanges_then c xs b w hcap hxs
  refine ⟨⟨after_command s b chunk ⟨v, rbuf, rn⟩,
      (poke b.data s.nbuf chunk).take (min (s.nbuf + chunk.length) c.IO_BUFFER_SIZE), ?_⟩,
    ⟨after_command ⟨st, some ⟨w.fresh, List.replicate c.IO_BUFFER_SIZE NUL⟩, 0, k0⟩
        ⟨w.fresh, List.replicate c.IO_BUFFER_SIZE NUL⟩ chunk ⟨v, rbuf, rn⟩,
      (poke (List.replicate c.IO_BUFFER_SIZE NUL) 0 chunk).take
        (min (0 + chunk.length) c.IO_BUFFER_SIZE), ?_⟩,
    ⟨after_command ⟨.fsm_socket_connected, some b', 0, 0⟩ b' chunk ⟨v, rbuf, rn⟩,
      after_command_world c ⟨.fsm_socket_connected, some b', 0, 0⟩ b' chunk w',
      w'.log ++ [.read 0 ((c.IO_BUFFER_SIZE : Int) - ((0 : Nat) : Int))],
      (poke b'.data 0 chunk).take (min (0 + chunk.length) c.IO_BUFFER_SIZE), ?_, ?_, ?_⟩⟩
  · rw [do_transition_direct c op w _ hb hst, term s b w hb hcap hfit]
    simp [after_command_world, io_world.call]
  · have hdt : do_transition c ⟨.et_sock, op⟩ ⟨st, none, n0, k0⟩ w
          ⟨.data chunk :: rs, ws, ⟨v, rbuf, rn⟩ :: cs⟩ =
        read_loop c (.data chunk :: rs)
          ⟨st, some ⟨w.fresh, List.replicate c.IO_BUFFER_SIZE NUL⟩, 0, k0⟩ w.malloc ws
          (⟨v, rbuf, rn⟩ :: cs) := by
      cases st with
      | fsm_socket_connected => simp [do_transition, do_socket_ready]
      | fsm_socket_recv_incomplete => simp [do_transition, do_socket_ready]
      | fsm_socket_send_incomplete => exact absurd rfl hst0
    rw [hdt, term _ ⟨w.fresh, List.replicate c.IO_BUFFER_SIZE NUL⟩ w.malloc rfl (by simp)
      (by simp only; omega)]
    simp [after_command_world, io_world.call, io_world.malloc]
  · rw [do_transition_direct c op w _ rfl (by simp)]
    simp only
    rw [hrun, term _ b' w' rfl hcap' (by simp only; omega)]
  · simpa [after_command_world, io_world.call] using hsent
  · simp [after_command_world, io_world.call]

/-- C11 (code evaluated at the failing inputs).  In the 32-byte build, for any
result codes: a connection parked in `fsm_socket_send_incomplete` gets a
writable event, the socket takes the rest of the reply, and the Read Pump
that `do_socket_send_incomplete` then runs reads one byte, on which the
processor returns (a) `quit_connection` or (b) `shutdown_server`.  The Read
Pump returns the matching code, its last call being the processor call, and
the read and the write that follow in the script are not used; but
`do_transition` returns the literal 0 in both runs.  As the two codes
differ, at least one of them is not what `do_transition` returned. -/
theorem C11_resumption_loses_verdict (ok quit shut : Int) :
    do_socket_ready (build32 ok quit shut) ev_read drained drained_world
        ⟨[.data ['q'], .data ['x']], [.accepted 1], [⟨.quit_connection, [], 1⟩]⟩ =
      .ok (quit, ⟨.fsm_socket_connected, some ⟨0, "qALUE".toList ++ List.replicate 27 NUL⟩, 1, 0⟩,
        ⟨drained_world.log ++ [.read 0 32, .process_command ['q']], "VALUE".toList, 1⟩,
        ⟨[.data ['x']], [.accepted 1], []⟩) ∧
    do_transition (build32 ok quit shut) ev_write parked parked_world
        ⟨[.data ['q'], .data ['x']], [.accepted 3, .accepted 1], [⟨.quit_connection, [], 1⟩]⟩ =
      .ok (0, ⟨.fsm_socket_connected, some ⟨0, "qALUE".toList ++ List.replicate 27 NUL⟩, 1, 0⟩,
        ⟨drained_world.log ++ [.read 0 32, .process_command ['q']], "VALUE".toList, 1⟩,
        ⟨[.data ['x']], [.accepted 1], []⟩) ∧
    do_socket_ready (build32 ok quit shut) ev_read drained drained_world
        ⟨[.data ['q'], .data ['x']], [.accepted 1], [⟨.shutdown_server, [], 1⟩]⟩ =
      .ok (shut, ⟨.fsm_socket_connected, some ⟨0, "qALUE".toList ++ List.replicate 27 NUL⟩, 1, 0⟩,
        ⟨drained_world.log ++ [.read 0 32, .process_command ['q']], "VALUE".toList, 1⟩,
        ⟨[.data ['x']], [.accepted 1], []⟩) ∧
    do_transition (build32 ok quit shut) ev_write parked parked_world
        ⟨[.data ['q'], .data ['x']], [.accepted 3, .accepted 1], [⟨.shutdown_server, [], 1⟩]⟩ =
      .ok (0, ⟨.fsm_socket_connected, some ⟨0, "qALUE".toList ++ List.replicate 27 NUL⟩, 1, 0⟩,
        ⟨drained_world.log ++ [.read 0 32, .process_command ['q']], "VALUE".toList, 1⟩,
        ⟨[.data ['x']], [.accepted 1], []⟩) ∧
    ((build32 ok quit shut).quit_connection ≠ (build32 ok quit shut).shutdown_server →
      (0 : Int) ≠ quit ∨ (0 : Int) ≠ shut) := by
  refine ⟨by rfl, by rfl, by rfl, by rfl, ?_⟩
  intro hne
  by_cases hq : (0 : Int) = quit
  · right
    intro hs
    exact hne (hq.symm.trans hs)
  · exact Or.inl hq

/-! C12: I/O errors other than would-block -/

/-- C12.  (1) A read that fails with an error other than would-block stops
the read loop with a failed check, in whatever state and at whatever
iteration; (2) so does such a write in the send loop.  (3) A dispatch that
returns a result, whatever it is, has used up no such read or write result.
(4) For a socket event, a script without such errors and without a verdict
outside the six enumerators never stops with a failed check; (5) nor, from a
state that passes the Write Pump's entry assertion (`snbuf = 0` or
`fsm_socket_send_incomplete`), with a failed assertion. -/
theorem C12_io_errors_fatal (c : fsm_consts) (event : event_t) (s : fsm_state_t)
    (w : io_world) (sc : script) (rs : List read_result) (ws : List write_result)
    (cs : List command_reply) (len : Int) (sz : Nat) :
    read_loop c (.error :: rs) s w ws cs = .error .check_failed ∧
    send_loop (.error :: ws) s w len sz = .error .check_failed ∧
    (∀ rc s' w' sc', do_transition c event s w sc = .ok (rc, s', w', sc') →
      ∃ used_r used_w, sc.reads = used_r ++ sc'.reads ∧ sc.writes = used_w ++ sc'.writes ∧
        read_result.error ∉ used_r ∧ write_result.error ∉ used_w) ∧
    (event.event_type = .et_sock → read_result.error ∉ sc.reads →
      write_result.error ∉ sc.writes → (∀ r ∈ sc.commands, r.res ≠ .unhandled) →
      do_transition c event s w sc ≠ .error .check_failed) ∧
    (snbuf_idle s → do_transition c event s w sc ≠ .error .assertion_failed) := by
  refine ⟨by simp [read_loop], by simp [send_loop], ?_, ?_, ?_⟩
  · intro rc s' w' sc' h
    obtain ⟨ur, uw, ext, h1, h2, h3, h4, -, -⟩ := do_transition_outcome h
    exact ⟨ur, uw, h1, h2, h3, h4⟩
  · intro hev hr hw hc h
    rcases (do_transition_fault h).1 rfl with hx | hx | hx | ⟨r, hr', hx⟩
    · exact hx hev
    · exact hr hx
    · exact hw hx
    · exact hc r hr' hx
  · intro hidle h
    exact (do_transition_fault h).2 rfl hidle

/-- Witness for C12: a dispatch whose second read fails with an error stops
with a failed check; the same dispatch with a would-block read instead
returns and has used no error. -/
theorem C12_io_errors_fatal_witness :
    do_transition demo ev_read fsm_state_t.new io_world.empty
        ⟨[.data "PING\n".toList, .error], [.accepted 5],
          [⟨.command_success_response_ready, "PONG\n".toList, 5⟩]⟩ = .error .check_failed ∧
    do_transition demo ev_read fsm_state_t.new io_world.empty
        ⟨[.data "PING\n".toList, .would_block], [.accepted 5],
          [⟨.command_success_response_ready, "PONG\n".toList, 5⟩]⟩ ≠ .error .check_failed :=
  ⟨by rfl,
    (C12_io_errors_fatal demo ev_read fsm_state_t.new io_world.empty
      ⟨[.data "PING\n".toList, .would_block], [.accepted 5],
        [⟨.command_success_response_ready, "PONG\n".toList, 5⟩]⟩ [] [] [] 0 0).2.2.2.1
      rfl (by decide) (by decide) (by decide)⟩

/-! C13: the resumption path -/

/-- `do_transition` on a writable socket event in `fsm_socket_send_incomplete`,
given what the Write Pump returns. -/
theorem do_transition_resume (c : fsm_consts) {op : event_op_t}
    (hop : op = .eo_write ∨ op = .eo_rdwr) {s s1 : fsm_state_t} {w w1 : io_world}
    {ws0 ws1 : List write_result} (rds : List read_result) (cs : List command_reply)
    (hs : s.state = .fsm_socket_send_incomplete)
    (hsend : send_msg_to_client ws0 s w = .ok (s1, w1, ws1)) :
    do_transition c ⟨.et_sock, op⟩ s w ⟨rds, ws0, cs⟩ =
      if s1.state ≠ .fsm_socket_send_incomplete then
        match do_socket_ready c ⟨.et_sock, .eo_read⟩ s1 w1 ⟨rds, ws1, cs⟩ with
        | .error f => .error f
        | .ok (_, s2, w2, sc2) => .ok (0, s2, w2, sc2)
      else .ok (0, s1, w1, ⟨rds, ws1, cs⟩) := by
  have hop' : op = .eo_rdwr ∨ op = .eo_write := hop.symm
  simp only [do_transition, hs, do_socket_send_incomplete, if_pos hop', hsend]

/-- C13.  A connection parked in `fsm_socket_send_incomplete` (buffer `b`,
`nbuf = n`, `snbuf = p`) gets a socket event with `op` WRITE or RDWR.
(1) If the socket takes the `n - p` pending bytes (counts `ks` and `k`), the
Write Pump ends the send and `do_transition` is one run of the Read Pump on
the rest of the script with `op = eo_read`, its result replaced by 0.
(2) So commands that arrived meanwhile are read, answered and their replies
sent in the same dispatch.  (3) If the write would block again (after the
counts `ks`), the calls made are writes only, no read result is used, and the
connection stays in `fsm_socket_send_incomplete`. -/
theorem C13_resumption_path (c : fsm_consts) (op : event_op_t) (b : buffer_t) (n p : Nat)
    (w : io_world) (ks : List Nat) (k : Nat) (xs : List (List Char × List Char))
    (rds rs : List read_result) (ws : List write_result) (cs : List command_reply)
    (hop : op = .eo_write ∨ op = .eo_rdwr) (hcap : b.data.length = c.IO_BUFFER_SIZE)
    (hn : n ≤ c.IO_BUFFER_SIZE) (hk : 0 < k) (hsum : p + ks.sum + k = n)
    (hxs : ∀ x ∈ xs, 0 < x.1.length ∧ x.1.length ≤ c.IO_BUFFER_SIZE ∧
      x.2.length ≤ c.IO_BUFFER_SIZE) :
    (∃ w1,
      send_msg_to_client (ks.map .accepted ++ .accepted k :: ws)
          ⟨.fsm_socket_send_incomplete, some b, n, p⟩ w =
        .ok (⟨.fsm_socket_connected, some b, 0, 0⟩, w1, ws) ∧
      w1.sent = w.sent ++ (b.data.drop p).take (n - p) ∧
      do_transition c ⟨.et_sock, op⟩ ⟨.fsm_socket_send_incomplete, some b, n, p⟩ w
          ⟨rds, ks.map .accepted ++ .accepted k :: ws, cs⟩ =
        match do_socket_ready c ⟨.et_sock, .eo_read⟩ ⟨.fsm_socket_connected, some b, 0, 0⟩ w1
            ⟨rds, ws, cs⟩ with
        | .error f => .error f
        | .ok (_, s2, w2, sc2) => .ok (0, s2, w2, sc2)) ∧
    (∃ w2,
      do_transition c ⟨.et_sock, op⟩ ⟨.fsm_socket_send_incomplete, some b, n, p⟩ w
          ⟨exchange_reads xs ++ .would_block :: rs,
            ks.map .accepted ++ .accepted k :: (exchange_writes xs ++ ws),
            exchange_commands xs ++ cs⟩ =
        .ok (0, ⟨.fsm_socket_connected, none, 0, 0⟩, w2, ⟨rs, ws, cs⟩) ∧
      w2.sent = w.sent ++ (b.data.drop p).take (n - p) ++ replies_concat xs) ∧
    (∃ w3 ext,
      do_transition c ⟨.et_sock, op⟩ ⟨.fsm_socket_send_incomplete, some b, n, p⟩ w
          ⟨rds, ks.map .accepted ++ .would_block :: ws, cs⟩ =
        .ok (0, ⟨.fsm_socket_send_incomplete, some b, n, p + ks.sum⟩, w3, ⟨rds, ws, cs⟩) ∧
      w3.log = w.log ++ ext ∧ (∀ e ∈ ext, ∃ o l, e = io_call.write o l) ∧
      w3.sent = w.sent ++ (b.data.drop p).take ks.sum) := by
  have hn' : n ≤ b.data.length := by omega
  refine ⟨?_, ?_, ?_⟩
  · obtain ⟨w1, hrun, hsent, -⟩ := send_msg_completes
      (s := ⟨.fsm_socket_send_incomplete, some b, n, p⟩) w ws ks k hk rfl hn' (Or.inr rfl) hsum
    refine ⟨w1, hrun, hsent, ?_⟩
    rw [do_transition_resume c hop rds cs rfl hrun]
    simp
  · obtain ⟨w1, hrun, hsent, -⟩ := send_msg_completes
      (s := ⟨.fsm_socket_send_incomplete, some b, n, p⟩) w (exchange_writes xs ++ ws) ks k hk
      rfl hn' (Or.inr rfl) hsum
    obtain ⟨w2, hpump, hsent2, -⟩ := read_loop_exchanges c rs ws cs xs b w1 hcap hxs
    refine ⟨w2, ?_, ?_⟩
    · rw [do_transition_resume c hop (exchange_reads xs ++ .would_block :: rs)
        (exchange_commands xs ++ cs) rfl hrun]
      simp only [ne_eq, reduceCtorEq, not_false_eq_true, if_true, do_socket_ready]
      rw [hpump]
    · rw [hsent2, hsent]
  · obtain ⟨w3, hrun, hsent, -⟩ := send_msg_parks
      (s := ⟨.fsm_socket_send_incomplete, some b, n, p⟩) w ws ks rfl hn' (Or.inr rfl)
      (by simp only; omega)
    obtain ⟨used, l, o, m, -, -, hlog, hl, -, -, -⟩ := send_msg_to_client_facts hrun
    refine ⟨w3, l ++ [.write o m], ?_, hlog, ?_, hsent⟩
    · rw [do_transition_resume c hop rds cs rfl hrun]
      simp
    · intro e he
      rcases List.mem_append.mp he with he | he
      · exact hl e he
      · simp only [List.mem_singleton] at he
        exact ⟨o, m, he⟩

/-- Witness for C13: 2 of 5 reply bytes are sent; on an RDWR event the socket
takes the other 3 and a command that has arrived is answered in the same
dispatch. -/
theorem C13_resumption_path_witness :
    ∃ w2,
      do_transition demo ⟨.et_sock, .eo_rdwr⟩
          ⟨.fsm_socket_send_incomplete, some value_buffer, 5, 2⟩ parked_world
          ⟨exchange_reads [("PING\n".toList, "PONG\n".toList)] ++ .would_block :: [],
            [].map .accepted ++
              .accepted 3 :: (exchange_writes [("PING\n".toList, "PONG\n".toList)] ++ []),
            exchange_commands [("PING\n".toList, "PONG\n".toList)] ++ []⟩ =
        .ok (0, ⟨.fsm_socket_connected, none, 0, 0⟩, w2, ⟨[], [], []⟩) ∧
      w2.sent = parked_world.sent ++ (value_buffer.data.drop 2).take (5 - 2) ++
        replies_concat [("PING\n".toList, "PONG\n".toList)] :=
  (C13_resumption_path demo .eo_rdwr value_buffer 5 2 parked_world [] 3
    [("PING\n".toList, "PONG\n".toList)] [] [] [] [] (Or.inr rfl) (by decide) (by decide)
    (by decide) (by decide) (by decide)).2.1

/-! What a run of the Read Pump does with `snbuf` and with the buffer -/

theorem frees_call_read (w : io_world) (off : Nat) (len : Int) :
    frees (w.call (.read off len)).log = frees w.log := by
  simp [frees, io_world.call, List.countP_append, List.countP_cons]

theorem frees_call_free (w : io_world) (p : Option Nat) :
    frees (w.call (.free p)).log = frees w.log + 1 := by
  simp [frees, io_world.call, List.countP_append, List.countP_cons]

/-- A returning call of the Write Pump that starts a send (entered outside
`fsm_socket_send_incomplete`, so with `snbuf = 0`): it keeps the buffer,
makes no `free` call, and either parks the connection with `snbuf` the
number of bytes accepted, or completes the send. -/
theorem send_msg_to_client_ledger {ws ws' : List write_result} {s s' : fsm_state_t}
    {w w' : io_world} (hst : s.state ≠ .fsm_socket_send_incomplete)
    (h : send_msg_to_client ws s w = .ok (s', w', ws')) :
    s.snbuf = 0 ∧ s'.buf = s.buf ∧ frees w'.log = frees w.log ∧
    ∃ ks : List Nat,
      (ws = ks.map .accepted ++ .would_block :: ws' ∧
        s'.state = .fsm_socket_send_incomplete ∧ s'.nbuf = s.nbuf ∧ s'.snbuf = ks.sum) ∨
      (∃ k, ws = ks.map .accepted ++ .accepted k :: ws' ∧
        s'.state = .fsm_socket_connected ∧ s'.nbuf = 0 ∧ s'.snbuf = 0) := by
  have hfr := send_msg_to_client_frees h
  unfold send_msg_to_client at h
  split at h
  · rename_i hcond
    have h0 : s.snbuf = 0 := by
      rcases hcond with h0 | h0
      · exact h0
      · exact absurd h0 hst
    obtain ⟨ks, ext, -, -, -, -, hbuf, -, hcase⟩ := send_loop_outcome _ _ _ _ _ _ _ _ h
    refine ⟨h0, hbuf, hfr, ks, ?_⟩
    rcases hcase with ⟨h1, h2, h3, h4, -⟩ | ⟨k, h1, h2, h3, h4, -, -⟩
    · exact Or.inl ⟨h1, h2, h3, by rw [h4, h0]; simp⟩
    · exact Or.inr ⟨k, h1, h2, h3, h4⟩
  · simp at h

/-- The Error Responder, entered outside `fsm_socket_send_incomplete`: as
`send_msg_to_client_ledger`, the buffer being the same allocation. -/
theorem send_err_to_client_ledger {ws ws' : List write_result} {s s' : fsm_state_t}
    {w w' : io_world} (hst : s.state ≠ .fsm_socket_send_incomplete)
    (h : send_err_to_client ws s w = .ok (s', w', ws')) :
    s.snbuf = 0 ∧ (∃ b b', s.buf = some b ∧ s'.buf = some b' ∧ b'.id = b.id) ∧
    frees w'.log = frees w.log ∧
    ∃ ks : List Nat,
      (ws = ks.map .accepted ++ .would_block :: ws' ∧
        s'.state = .fsm_socket_send_incomplete ∧ s'.nbuf = err_msg.length + 1 ∧
        s'.snbuf = ks.sum) ∨
      (∃ k, ws = ks.map .accepted ++ .accepted k :: ws' ∧
        s'.state = .fsm_socket_connected ∧ s'.nbuf = 0 ∧ s'.snbuf = 0) := by
  unfold send_err_to_client at h
  split at h
  · simp at h
  · rename_i b' hstore
    obtain ⟨b, hb, hid, -, -, -⟩ := store_length hstore
    obtain ⟨h0, hbuf, hfr, ks, hcase⟩ := send_msg_to_client_ledger (by exact hst) h
    exact ⟨h0, ⟨b, b', hb, hbuf, hid⟩, hfr, ks, hcase⟩

/-- Every run of the read loop that returns, entered with the buffer `b` and
outside `fsm_socket_send_incomplete`.  The buffer: either the run ended in
the clean connected state with `transition_ok`, made exactly one `free`
call, its last call, and that call freed `b`; or the connection still holds
the allocation `b` and no `free` call was made.  The send offset: either no
write result used was a would-block, the run ended outside
`fsm_socket_send_incomplete`, and `snbuf` is 0 or what it was; or the last
write result used is the only would-block, the run ended with
`transition_ok` in `fsm_socket_send_incomplete`, and `snbuf` is the number
of bytes the socket accepted in the writes of that last send. -/
theorem read_loop_ledger (c : fsm_consts) (rds : List read_result) :
    ∀ (s : fsm_state_t) (w : io_world) (ws : List write_result) (cs : List command_reply)
      (rc : Int) (s' : fsm_state_t) (w' : io_world) (sc' : script) (b : buffer_t),
      s.buf = some b → s.state ≠ .fsm_socket_send_incomplete →
      read_loop c rds s w ws cs = .ok (rc, s', w', sc') →
      ((s' = ⟨.fsm_socket_connected, none, 0, 0⟩ ∧ rc = c.transition_ok ∧
          frees w'.log = frees w.log + 1 ∧ ∃ l0, w'.log = l0 ++ [.free (some b.id)]) ∨
        (∃ b', s'.buf = some b' ∧ b'.id = b.id ∧ frees w'.log = frees w.log)) ∧
      ∃ uw : List write_result, ws = uw ++ sc'.writes ∧
        ((write_result.would_block ∉ uw ∧ s'.state ≠ .fsm_socket_send_incomplete ∧
            (s'.snbuf = 0 ∨ s'.snbuf = s.snbuf)) ∨
          (∃ (pre : List write_result) (ks : List Nat),
            uw = pre ++ (ks.map .accepted ++ [.would_block]) ∧
            write_result.would_block ∉ pre ∧ s'.state = .fsm_socket_send_incomplete ∧
            rc = c.transition_ok ∧ s'.snbuf = ks.sum)) := by
  induction rds with
  | nil => intro s w ws cs rc s' w' sc' b _ _ h; simp [read_loop] at h
  | cons r rs ih =>
    intro s w ws cs rc s' w' sc' b hb hns h
    have hfr1 := frees_call_read w s.nbuf ((c.IO_BUFFER_SIZE : Int) - (s.nbuf : Int))
    cases r with
    | would_block =>
      simp only [read_loop] at h
      split at h
      · simp only [Except.ok.injEq, Prod.mk.injEq] at h
        obtain ⟨rfl, rfl, rfl, rfl⟩ := h
        refine ⟨Or.inl ⟨by simp [return_to_socket_connected, init_state], rfl, ?_, ?_⟩, [], rfl,
          Or.inl ⟨by simp, by simp [return_to_socket_connected, init_state], Or.inl rfl⟩⟩
        · simp only [return_to_socket_connected]
          rw [frees_call_free, hfr1]
        · exact ⟨w.log ++ [.read s.nbuf ((c.IO_BUFFER_SIZE : Int) - (s.nbuf : Int))],
            by simp [return_to_socket_connected, io_world.call, hb]⟩
      · simp only [Except.ok.injEq, Prod.mk.injEq] at h
        obtain ⟨rfl, rfl, rfl, rfl⟩ := h
        exact ⟨Or.inr ⟨b, hb, rfl, hfr1⟩, [], rfl, Or.inl ⟨by simp, hns, Or.inr rfl⟩⟩
    | error => simp [read_loop] at h
    | data bytes =>
      simp only [read_loop] at h
      split at h
      · split at h
        · simp at h
        · rename_i b1 hst
          obtain ⟨b0, hb0, hid1, -, -, -⟩ := store_length hst
          rw [hb] at hb0
          cases hb0
          split at h
          · simp at h
          · rename_i res s2 w2 cs2 hpc
            obtain ⟨r, b2, b3, rfl, rfl, hn2, hs2, hsn2, hb2, hb3, hid3, -, -, -, hlog⟩ :=
              process_command_spec hpc
            simp only [Option.some.injEq] at hb2
            subst hb2
            simp only at hs2 hsn2
            have hid : b3.id = b.id := hid3.trans hid1
            have hfr2 : frees w2.log = frees w.log := by
              rw [hlog]
              simp only [frees, io_world.call, List.countP_append, List.countP_cons,
                List.countP_nil] at hfr1 ⊢
              simp
            have hns2 : s2.state ≠ .fsm_socket_send_incomplete := by rw [hs2]; exact hns
            split at h
            · split at h
              · simp at h
              · rename_i s3 w3 ws3 hsent
                have h3 : ∃ (b4 : buffer_t) (used : List write_result),
                    s3.buf = some b4 ∧ b4.id = b.id ∧ frees w3.log = frees w.log ∧
                    ws = used ++ ws3 ∧
                    ((s3.state = .fsm_socket_send_incomplete ∧
                        ∃ ks : List Nat, used = ks.map .accepted ++ [.would_block] ∧
                          s3.snbuf = ks.sum) ∨
                      (s3.state ≠ .fsm_socket_send_incomplete ∧
                        write_result.would_block ∉ used)) := by
                  split at hsent
                  · obtain ⟨-, ⟨b5, b4, hb5, hb4, hid4⟩, hfr, ks, hcase⟩ :=
                      send_err_to_client_ledger hns2 hsent
                    rw [hb3] at hb5
                    cases hb5
                    rcases hcase with ⟨h1, h2, -, h4⟩ | ⟨k, h1, h2, -, -⟩
                    · exact ⟨b4, ks.map .accepted ++ [.would_block], hb4, hid4.trans hid,
                        hfr.trans hfr2, by simp [h1], Or.inl ⟨h2, ks, rfl, h4⟩⟩
                    · exact ⟨b4, ks.map .accepted ++ [.accepted k], hb4, hid4.trans hid,
                        hfr.trans hfr2, by simp [h1], Or.inr ⟨by simp [h2], by simp⟩⟩
                  · split at hsent
                    · obtain ⟨-, hbuf, hfr, ks, hcase⟩ := send_msg_to_client_ledger hns2 hsent
                      rcases hcase with ⟨h1, h2, -, h4⟩ | ⟨k, h1, h2, -, -⟩
                      · exact ⟨b3, ks.map .accepted ++ [.would_block], hbuf.trans hb3, hid,
                          hfr.trans hfr2, by simp [h1], Or.inl ⟨h2, ks, rfl, h4⟩⟩
                      · exact ⟨b3, ks.map .accepted ++ [.accepted k], hbuf.trans hb3, hid,
                          hfr.trans hfr2, by simp [h1], Or.inr ⟨by simp [h2], by simp⟩⟩
                    · simp only [Except.ok.injEq, Prod.mk.injEq] at hsent
                      obtain ⟨rfl, rfl, rfl⟩ := hsent
                      exact ⟨b3, [], hb3, hid, hfr2, rfl, Or.inr ⟨hns2, by simp⟩⟩
                obtain ⟨b4, used, hb4, hid4, hfr3, hws, hcase3⟩ := h3
                split at h
                · rename_i hn3
                  obtain ⟨hbufp, uw, huw, hsn⟩ :=
                    ih _ _ _ _ _ _ _ _ b4 (by exact hb4) (by simp) h
                  have hwb : write_result.would_block ∉ used := by
                    rcases hcase3 with ⟨h1, -⟩ | ⟨-, h2⟩
                    · exact absurd h1 hn3
                    · exact h2
                  refine ⟨?_, used ++ uw, by rw [hws, huw, List.append_assoc], ?_⟩
                  · rcases hbufp with ⟨h1, h2, h3, l0, h4⟩ | ⟨b', h1, h2, h3⟩
                    · exact Or.inl ⟨h1, h2, by rw [h3, hfr3], l0, by rw [h4, hid4]⟩
                    · exact Or.inr ⟨b', h1, h2.trans hid4, h3.trans hfr3⟩
                  · rcases hsn with ⟨h1, h2, h3⟩ | ⟨pre, ks, h1, h2, h3, h4, h5⟩
                    · refine Or.inl ⟨?_, h2, Or.inl ?_⟩
                      · simp only [List.mem_append, not_or]
                        exact ⟨hwb, h1⟩
                      · rcases h3 with h3 | h3
                        · exact h3
                        · exact h3
                    · refine Or.inr ⟨used ++ pre, ks, by rw [h1, List.append_assoc], ?_, h3, h4,
                        h5⟩
                      simp only [List.mem_append, not_or]
                      exact ⟨hwb, h2⟩
                · rename_i hsi
                  simp only [ne_eq, not_not] at hsi
                  simp only [Except.ok.injEq, Prod.mk.injEq] at h
                  obtain ⟨rfl, rfl, rfl, rfl⟩ := h
                  rcases hcase3 with ⟨-, ks, h1, h2⟩ | ⟨h1, -⟩
                  · exact ⟨Or.inr ⟨b4, hb4, hid4, hfr3⟩, used, hws,
                      Or.inr ⟨[], ks, by simp [h1], by simp, hsi, rfl, h2⟩⟩
                  · exact absurd hsi h1
            · split at h
              · obtain ⟨hbufp, uw, huw, hsn⟩ :=
                  ih _ _ _ _ _ _ _ _ b3 (by exact hb3) (by simp) h
                refine ⟨?_, uw, huw, ?_⟩
                · rcases hbufp with ⟨h1, h2, h3, l0, h4⟩ | ⟨b', h1, h2, h3⟩
                  · exact Or.inl ⟨h1, h2, by rw [h3, hfr2], l0, by rw [h4, hid]⟩
                  · exact Or.inr ⟨b', h1, h2.trans hid, h3.trans hfr2⟩
                · rcases hsn with ⟨h1, h2, h3⟩ | h3
                  · refine Or.inl ⟨h1, h2, ?_⟩
                    rcases h3 with h3 | h3
                    · exact Or.inl h3
                    · exact Or.inr (h3.trans hsn2)
                  · exact Or.inr h3
              · split at h
                · simp only [Except.ok.injEq, Prod.mk.injEq] at h
                  obtain ⟨rfl, rfl, rfl, rfl⟩ := h
                  exact ⟨Or.inr ⟨b3, hb3, hid, hfr2⟩, [], rfl,
                    Or.inl ⟨by simp, hns2, Or.inr hsn2⟩⟩
                · split at h
                  · simp only [Except.ok.injEq, Prod.mk.injEq] at h
                    obtain ⟨rfl, rfl, rfl, rfl⟩ := h
                    exact ⟨Or.inr ⟨b3, hb3, hid, hfr2⟩, [], rfl,
                      Or.inl ⟨by simp, hns2, Or.inr hsn2⟩⟩
                  · simp at h
      · simp only [Except.ok.injEq, Prod.mk.injEq] at h
        obtain ⟨rfl, rfl, rfl, rfl⟩ := h
        exact ⟨Or.inr ⟨b, hb, rfl, hfr1⟩, [], rfl, Or.inl ⟨by simp, hns, Or.inr rfl⟩⟩

/-- The outcome `read_loop_ledger` for a whole call of `do_socket_ready`;
the buffer of the call is the one held at entry or else the one the call
allocates. -/
theorem do_socket_ready_ledger {c : fsm_consts} {event : event_t} {s s' : fsm_state_t}
    {w w' : io_world} {sc sc' : script} {rc : Int}
    (hst : s.state ≠ .fsm_socket_send_incomplete)
    (h : do_socket_ready c event s w sc = .ok (rc, s', w', sc')) :
    ((s' = ⟨.fsm_socket_connected, none, 0, 0⟩ ∧ rc = c.transition_ok ∧
        frees w'.log = frees w.log + 1 ∧
        ∃ l0, w'.log = l0 ++ [.free (some ((s.buf.map buffer_t.id).getD w.fresh))]) ∨
      (∃ b', s'.buf = some b' ∧ b'.id = (s.buf.map buffer_t.id).getD w.fresh ∧
        frees w'.log = frees w.log)) ∧
    ∃ uw : List write_result, sc.writes = uw ++ sc'.writes ∧
      ((write_result.would_block ∉ uw ∧ s'.state ≠ .fsm_socket_send_incomplete ∧
          (s'.snbuf = 0 ∨ s'.snbuf = s.snbuf)) ∨
        (∃ (pre : List write_result) (ks : List Nat),
          uw = pre ++ (ks.map .accepted ++ [.would_block]) ∧
          write_result.would_block ∉ pre ∧ s'.state = .fsm_socket_send_incomplete ∧
          rc = c.transition_ok ∧ s'.snbuf = ks.sum)) := by
  unfold do_socket_ready at h
  split at h
  · split at h
    · rename_i hnone
      have hl := read_loop_ledger c _ _ _ _ _ _ _ _ _ ⟨w.fresh, _⟩ rfl (by exact hst) h
      have hfr : frees w.malloc.log = frees w.log := by
        simp [frees, io_world.malloc, List.countP_append, List.countP_cons]
      simp only [hfr] at hl
      simpa [hnone] using hl
    · rename_i b hb
      have hl := read_loop_ledger c _ _ _ _ _ _ _ _ _ b hb hst h
      simpa [hb] using hl
  · simp at h

/-! C14: `snbuf` during a pending send -/

/-- C14.  (1) A call of the Write Pump that returns, entered in
`fsm_socket_send_incomplete` with `snbuf = s` and `nbuf = n`, either ends in
`fsm_socket_send_incomplete` with the same buffer and `nbuf`, and with
`snbuf` grown by exactly the number of bytes the socket accepted in the
call, or ends with the send complete (`fsm_socket_connected`,
`snbuf = nbuf = 0`).  (2) A whole dispatch that starts in
`fsm_socket_send_incomplete` and returns either leaves the connection in
`fsm_socket_send_incomplete` with the same `nbuf`, `snbuf` not smaller and
no read result used, or has seen its Write Pump complete the send.
(3) `init_state` sets `snbuf` to 0.  (4) A call of the Read Pump that
returns, entered outside `fsm_socket_send_incomplete` in the state `sr`: if a
write would block, that write is the last one of the call, the call returns
`transition_ok` in `fsm_socket_send_incomplete`, and `snbuf` is the number
of bytes the socket accepted in the writes of that send, so the clause that
sets `snbuf` to 0 after a verdict was not run; if no write would block, the
call ends outside `fsm_socket_send_incomplete` with `snbuf` 0 or unchanged. -/
theorem C14_snbuf_not_reset (c : fsm_consts) (event : event_t) (s s1 s2 : fsm_state_t)
    (w w1 w2 : io_world) (ws ws1 : List write_result) (sc sc2 : script) (rc : Int)
    (sr sr' : fsm_state_t) (wr wr' : io_world) (scr scr' : script) (rcr : Int)
    (hs : s.state = .fsm_socket_send_incomplete)
    (hsend : send_msg_to_client ws s w = .ok (s1, w1, ws1))
    (hrun : do_transition c event s w sc = .ok (rc, s2, w2, sc2)) :
    ((s1.state = .fsm_socket_send_incomplete ∧ s1.buf = s.buf ∧ s1.nbuf = s.nbuf ∧
        s.snbuf ≤ s1.snbuf ∧ w1.sent.length = w.sent.length + (s1.snbuf - s.snbuf)) ∨
      (s1.state = .fsm_socket_connected ∧ s1.snbuf = 0 ∧ s1.nbuf = 0)) ∧
    ((s2.state = .fsm_socket_send_incomplete ∧ s2.nbuf = s.nbuf ∧ s.snbuf ≤ s2.snbuf ∧
        sc2.reads = sc.reads) ∨
      (∃ s3 w3 ws3, send_msg_to_client sc.writes s w = .ok (s3, w3, ws3) ∧
        s3.state = .fsm_socket_connected ∧ s3.snbuf = 0 ∧ s3.nbuf = 0)) ∧
    (init_state s).snbuf = 0 ∧
    (sr.state ≠ .fsm_socket_send_incomplete →
      do_socket_ready c event sr wr scr = .ok (rcr, sr', wr', scr') →
      ∃ uw : List write_result, scr.writes = uw ++ scr'.writes ∧
        ((write_result.would_block ∉ uw ∧ sr'.state ≠ .fsm_socket_send_incomplete ∧
            (sr'.snbuf = 0 ∨ sr'.snbuf = sr.snbuf)) ∨
          (∃ (pre : List write_result) (ks : List Nat),
            uw = pre ++ (ks.map .accepted ++ [.would_block]) ∧
            write_result.would_block ∉ pre ∧ sr'.state = .fsm_socket_send_incomplete ∧
            rcr = c.transition_ok ∧ sr'.snbuf = ks.sum))) := by
  have pump : ∀ {ws ws1 : List write_result} {s1 : fsm_state_t} {w1 : io_world},
      send_msg_to_client ws s w = .ok (s1, w1, ws1) →
      (s1.state = .fsm_socket_send_incomplete ∧ s1.buf = s.buf ∧ s1.nbuf = s.nbuf ∧
          s.snbuf ≤ s1.snbuf ∧ w1.sent.length = w.sent.length + (s1.snbuf - s.snbuf)) ∨
        (s1.state = .fsm_socket_connected ∧ s1.snbuf = 0 ∧ s1.nbuf = 0) := by
    intro ws ws1 s1 w1 h
    unfold send_msg_to_client at h
    split at h
    · obtain ⟨ks, ext, -, -, -, -, hbuf, -, hcase⟩ := send_loop_outcome _ _ _ _ _ _ _ _ h
      rcases hcase with ⟨-, h2, h3, h4, h5⟩ | ⟨k, -, h2, h3, h4, -, -⟩
      · refine Or.inl ⟨h2, hbuf, h3, by omega, ?_⟩
        rw [h5, h4]
        omega
      · exact Or.inr ⟨h2, h4, h3⟩
    · simp at h
  refine ⟨pump hsend, ?_, rfl, fun hsr hr => (do_socket_ready_ledger hsr hr).2⟩
  simp only [do_transition, hs, do_socket_send_incomplete] at hrun
  split at hrun
  · by_cases hop : event.op = .eo_rdwr ∨ event.op = .eo_write
    · simp only [if_pos hop] at hrun
      split at hrun
      · simp at hrun
      · rename_i s3 w3 ws3 hsent
        rcases pump hsent with ⟨h1, -, h3, h4, -⟩ | ⟨h1, h2, h3⟩
        · simp only [h1, ne_eq, not_true_eq_false, if_false, Except.ok.injEq,
            Prod.mk.injEq] at hrun
          obtain ⟨-, rfl, -, rfl⟩ := hrun
          exact Or.inl ⟨h1, h3, h4, rfl⟩
        · exact Or.inr ⟨s3, w3, ws3, hsent, h1, h2, h3⟩
    · simp only [if_neg hop, hs, ne_eq, not_true_eq_false, if_false, Except.ok.injEq,
        Prod.mk.injEq] at hrun
      obtain ⟨-, rfl, -, rfl⟩ := hrun
      exact Or.inl ⟨hs, rfl, le_refl _, rfl⟩
  · simp at hrun

/-- Witness for C14: the parked connection of C2 gets a writable event on
which the socket takes 1 more byte and then would block; and the Read Pump
call that parked it, in which the socket took 2 bytes of the reply. -/
theorem C14_snbuf_not_reset_witness :
    (((fsm_state_t.mk .fsm_socket_send_incomplete (some value_buffer) 5 3).state =
          .fsm_socket_send_incomplete ∧
        (fsm_state_t.mk .fsm_socket_send_incomplete (some value_buffer) 5 3).buf = parked.buf ∧
        (fsm_state_t.mk .fsm_socket_send_incomplete (some value_buffer) 5 3).nbuf = parked.nbuf ∧
        parked.snbuf ≤ (fsm_state_t.mk .fsm_socket_send_incomplete (some value_buffer) 5 3).snbuf ∧
        (io_world.mk (parked_world.log ++ [.write 2 3, .write 3 2]) "VAL".toList 1).sent.length =
          parked_world.sent.length +
            ((fsm_state_t.mk .fsm_socket_send_incomplete (some value_buffer) 5 3).snbuf -
              parked.snbuf)) ∨
      ((fsm_state_t.mk .fsm_socket_send_incomplete (some value_buffer) 5 3).state =
          .fsm_socket_connected ∧
        (fsm_state_t.mk .fsm_socket_send_incomplete (some value_buffer) 5 3).snbuf = 0 ∧
        (fsm_state_t.mk .fsm_socket_send_incomplete (some value_buffer) 5 3).nbuf = 0)) ∧
    ∃ uw : List write_result, partial_reply_script.writes = uw ++ (script.mk [] [] []).writes ∧
      ((write_result.would_block ∉ uw ∧ parked.state ≠ .fsm_socket_send_incomplete ∧
          (parked.snbuf = 0 ∨ parked.snbuf = fsm_state_t.new.snbuf)) ∨
        (∃ (pre : List write_result) (ks : List Nat),
          uw = pre ++ (ks.map .accepted ++ [.would_block]) ∧
          write_result.would_block ∉ pre ∧ parked.state = .fsm_socket_send_incomplete ∧
          demo.transition_ok = demo.transition_ok ∧ parked.snbuf = ks.sum)) :=
  have hw := C14_snbuf_not_reset demo ev_write parked
    ⟨.fsm_socket_send_incomplete, some value_buffer, 5, 3⟩
    ⟨.fsm_socket_send_incomplete, some value_buffer, 5, 3⟩
    parked_world ⟨parked_world.log ++ [.write 2 3, .write 3 2], "VAL".toList, 1⟩
    ⟨parked_world.log ++ [.write 2 3, .write 3 2], "VAL".toList, 1⟩
    [.accepted 1, .would_block] [] ⟨[], [.accepted 1, .would_block], []⟩ ⟨[], [], []⟩ 0
    fsm_state_t.new parked io_world.empty parked_world partial_reply_script ⟨[], [], []⟩
    demo.transition_ok rfl (by rfl) (by rfl)
  ⟨hw.1, hw.2.2.2 (by decide) (by rfl)⟩

/-! C15 and C16: how a Read Pump run that returns `transition_ok` ends -/

theorem mallocs_append (a b : List io_call) : mallocs (a ++ b) = mallocs a + mallocs b := by
  simp [mallocs, List.countP_append]

theorem frees_append (a b : List io_call) : frees (a ++ b) = frees a + frees b := by
  simp [frees, List.countP_append]

theorem mallocs_pump_calls (c : fsm_consts) (ext : List io_call)
    (h : ∀ e ∈ ext, pump_call_ok c e) : mallocs ext = 0 := by
  induction ext with
  | nil => rfl
  | cons e es ih =>
    have he := h e (List.mem_cons_self _ _)
    have hes := ih (fun x hx => h x (List.mem_cons_of_mem _ hx))
    cases e with
    | malloc id => exact absurd he (by simp [pump_call_ok])
    | free p => simpa [mallocs, List.countP_cons] using hes
    | read off len => simpa [mallocs, List.countP_cons] using hes
    | write off len => simpa [mallocs, List.countP_cons] using hes
    | process_command seen => simpa [mallocs, List.countP_cons] using hes

theorem counts_writes (ext : List io_call) (h : ∀ e ∈ ext, ∃ o l, e = io_call.write o l) :
    mallocs ext = 0 ∧ frees ext = 0 := by
  induction ext with
  | nil => exact ⟨rfl, rfl⟩
  | cons e es ih =>
    obtain ⟨o, l, rfl⟩ := h e (List.mem_cons_self _ _)
    have hes := ih (fun x hx => h x (List.mem_cons_of_mem _ hx))
    simpa [mallocs, frees, List.countP_cons] using hes

/-- C16.  (1) A call of `do_socket_ready` in a state other than
`fsm_socket_send_incomplete` that returns makes exactly one `malloc` call if
no buffer was held at entry and none otherwise.  (2) If it returns
`transition_ok` (the result codes being different), the buffer is held
afterwards if and only if the state is not `fsm_socket_connected`.  (3) A
call of the Write Pump that returns keeps the buffer and makes neither a
`malloc` nor a `free` call, also when it completes the send.  (4) If the
Read Pump returns `transition_ok` in `fsm_socket_connected`, the buffer of
the call (the one held at entry, else the one allocated) has been released:
`buf` is NULL, the call made exactly one `free` call, its last call, and it
freed that buffer.  (5) In every other case (`fsm_socket_recv_incomplete`,
`fsm_socket_send_incomplete`, or another result) the connection still holds
that buffer and the call made no `free` call.  (6) A read that would block
in `fsm_socket_recv_incomplete` leaves the connection as it is, buffer
included, and no `free` call is made; (7) in `fsm_socket_connected` it is
followed by the `free` of the buffer held, and `buf` becomes NULL. -/
theorem C16_lazy_buffer (c : fsm_consts) (event : event_t) (s s' s0 s1 : fsm_state_t)
    (w w' w0 w1 : io_world) (sc sc' : script) (rc : Int) (ws ws1 : List write_result)
    (op : event_op_t) (bq : buffer_t) (n k : Nat) (rq : List read_result)
    (wq : List write_result) (cq : List command_reply)
    (hd : c.codes_distinct) (hst : s.state ≠ .fsm_socket_send_incomplete)
    (h : do_socket_ready c event s w sc = .ok (rc, s', w', sc'))
    (hsend : send_msg_to_client ws s0 w0 = .ok (s1, w1, ws1)) :
    mallocs w'.log = mallocs w.log + (if s.buf = none then 1 else 0) ∧
    (rc = c.transition_ok → (s'.buf ≠ none ↔ s'.state ≠ .fsm_socket_connected)) ∧
    (s1.buf = s0.buf ∧ mallocs w1.log = mallocs w0.log ∧ frees w1.log = frees w0.log) ∧
    (rc = c.transition_ok → s'.state = .fsm_socket_connected →
      s'.buf = none ∧ frees w'.log = frees w.log + 1 ∧
        ∃ l0, w'.log = l0 ++ [.free (some ((s.buf.map buffer_t.id).getD w.fresh))]) ∧
    ((rc ≠ c.transition_ok ∨ s'.state ≠ .fsm_socket_connected) →
      ∃ b', s'.buf = some b' ∧ b'.id = (s.buf.map buffer_t.id).getD w.fresh ∧
        frees w'.log = frees w.log) ∧
    do_socket_ready c ⟨.et_sock, op⟩ ⟨.fsm_socket_recv_incomplete, some bq, n, k⟩ w
        ⟨.would_block :: rq, wq, cq⟩ =
      .ok (c.transition_ok, ⟨.fsm_socket_recv_incomplete, some bq, n, k⟩,
        ⟨w.log ++ [.read n ((c.IO_BUFFER_SIZE : Int) - (n : Int))], w.sent, w.fresh⟩,
        ⟨rq, wq, cq⟩) ∧
    do_socket_ready c ⟨.et_sock, op⟩ ⟨.fsm_socket_connected, some bq, n, k⟩ w
        ⟨.would_block :: rq, wq, cq⟩ =
      .ok (c.transition_ok, ⟨.fsm_socket_connected, none, 0, 0⟩,
        ⟨w.log ++ [.read n ((c.IO_BUFFER_SIZE : Int) - (n : Int)), .free (some bq.id)], w.sent,
          w.fresh⟩, ⟨rq, wq, cq⟩) := by
  have rest : ∀ {ur : List read_result} {uw : List write_result} {ext : List io_call},
      pump_rest s' ur uw ext → (s'.buf ≠ none ↔ s'.state ≠ .fsm_socket_connected) := by
    intro ur uw ext hr
    rcases hr with ⟨h1, -⟩ | ⟨h1, hb, -⟩ | ⟨h1, hb, -⟩
    · subst h1
      simp
    · simp [h1, hb]
    · simp [h1, hb]
  have key : ∀ log, pump_outcome c s log sc.reads sc.writes sc.commands rc s' w' sc' →
      mallocs w'.log = mallocs log ∧
        (rc = c.transition_ok → (s'.buf ≠ none ↔ s'.state ≠ .fsm_socket_connected)) := by
    intro log ho
    obtain ⟨ur, uw, uc, ext, -, -, -, -, -, h6, h7, -, h9⟩ := ho
    refine ⟨by rw [h6, mallocs_append, mallocs_pump_calls c ext h7]; rfl, fun hrc => ?_⟩
    rcases h9 with ⟨-, h9⟩ | h9 | h9
    · exact rest h9
    · exact absurd (hrc.symm.trans h9) hd.1
    · exact absurd (hrc.symm.trans h9) hd.2.1
  have hiff : rc = c.transition_ok →
      (s'.buf ≠ none ↔ s'.state ≠ .fsm_socket_connected) := by
    rcases do_socket_ready_outcome hst h with ⟨-, ho⟩ | ⟨-, ho⟩
    · exact (key _ ho).2
    · exact (key _ ho).2
  have hledger := (do_socket_ready_ledger hst h).1
  refine ⟨?_, hiff, ?_, ?_, ?_,
    by simp [do_socket_ready, read_loop, io_world.call],
    by simp [do_socket_ready, read_loop, return_to_socket_connected, init_state,
      io_world.call]⟩
  · rcases do_socket_ready_outcome hst h with ⟨hb, ho⟩ | ⟨hb, ho⟩
    · rw [(key _ ho).1, if_neg hb]
      rfl
    · rw [(key _ ho).1, if_pos hb, mallocs_append]
      simp [mallocs]
  · obtain ⟨used, l, o, n, -, -, hlog, hl, hbuf, -, -⟩ := send_msg_to_client_facts hsend
    have hall : ∀ e ∈ l ++ [io_call.write o n], ∃ o l, e = io_call.write o l := by
      intro e he
      rcases List.mem_append.mp he with he | he
      · exact hl e he
      · simp only [List.mem_singleton] at he
        exact ⟨o, n, he⟩
    obtain ⟨hm, hf⟩ := counts_writes _ hall
    exact ⟨hbuf, by rw [hlog, mallocs_append, hm]; rfl, by rw [hlog, frees_append, hf]; rfl⟩
  · intro hrc hcon
    rcases hledger with ⟨h1, -, h3, h4⟩ | ⟨b', h1, -, -⟩
    · exact ⟨by rw [h1], h3, h4⟩
    · have hne : s'.buf ≠ none := by rw [h1]; simp
      exact absurd hcon ((hiff hrc).mp hne)
  · intro hor
    rcases hledger with ⟨h1, h2, -, -⟩ | hkeep
    · rcases hor with hor | hor
      · exact absurd h2 hor
      · exact absurd (by rw [h1]) hor
    · exact hkeep

/-- Witness for C16: the dispatch of the C1 witness (one `malloc`, buffer held
in `fsm_socket_send_incomplete`, no `free`), the Write Pump call that
completes the send of C2, and the Read Pump call after it whose read would
block (the buffer is freed). -/
theorem C16_lazy_buffer_witness :
    (mallocs parked_world.log =
        mallocs io_world.empty.log + (if fsm_state_t.new.buf = none then 1 else 0) ∧
      (demo.transition_ok = demo.transition_ok →
        (parked.buf ≠ none ↔ parked.state ≠ .fsm_socket_connected)) ∧
      (drained.buf = parked.buf ∧ mallocs drained_world.log = mallocs parked_world.log ∧
        frees drained_world.log = frees parked_world.log) ∧
      ∃ b', parked.buf = some b' ∧
        b'.id = (fsm_state_t.new.buf.map buffer_t.id).getD io_world.empty.fresh ∧
        frees parked_world.log = frees io_world.empty.log) ∧
    ((fsm_state_t.mk .fsm_socket_connected none 0 0).buf = none ∧
      frees (io_world.mk (drained_world.log ++ [.read 0 32, .free (some 0)]) "VALUE".toList
          1).log = frees drained_world.log + 1 ∧
      ∃ l0, (io_world.mk (drained_world.log ++ [.read 0 32, .free (some 0)]) "VALUE".toList
          1).log = l0 ++ [.free (some ((drained.buf.map buffer_t.id).getD drained_world.fresh))]) :=
  have hw := C16_lazy_buffer demo ev_read fsm_state_t.new parked parked drained io_world.empty
    parked_world parked_world drained_world partial_reply_script ⟨[], [], []⟩ demo.transition_ok
    [.accepted 3] [] .eo_read value_buffer 0 0 [] [] [] (by decide) (by decide) (by rfl) (by rfl)
  have hv := C16_lazy_buffer demo ev_read drained ⟨.fsm_socket_connected, none, 0, 0⟩ parked
    drained drained_world
    ⟨drained_world.log ++ [.read 0 32, .free (some 0)], "VALUE".toList, 1⟩ parked_world
    drained_world ⟨[.would_block], [], []⟩ ⟨[], [], []⟩ demo.transition_ok
    [.accepted 3] [] .eo_read value_buffer 0 0 [] [] [] (by decide) (by decide) (by rfl) (by rfl)
  ⟨⟨hw.1, hw.2.1, hw.2.2.1, hw.2.2.2.2.1 (Or.inr (by decide))⟩, hv.2.2.2.1 rfl rfl⟩

/-! C17: the entry assertion of the Write Pump -/

theorem dispatch_all_no_assert (c : fsm_consts) (events : List event_t) :
    ∀ (s : fsm_state_t) (w : io_world) (sc : script), snbuf_idle s →
      dispatch_all c events s w sc ≠ .error .assertion_failed := by
  induction events with
  | nil => intro s w sc _ h; simp [dispatch_all] at h
  | cons e es ih =>
    intro s w sc hidle h
    simp only [dispatch_all] at h
    split at h
    · rename_i f hstep
      simp only [Except.error.injEq] at h
      subst h
      exact (do_transition_fault hstep).2 rfl hidle
    · rename_i rc s1 w1 sc1 hstep
      split at h
      · rename_i f hrest
        simp only [Except.error.injEq] at h
        subst h
        exact ih s1 w1 sc1 (do_transition_idle hidle hstep) hrest
      · simp at h

/-- C17.  No sequence of dispatches on a new connection, whatever the events
and whatever the socket and the processor do, stops with a failed assertion:
each call of `send_msg_to_client` is entered with `snbuf = 0` or in
`fsm_socket_send_incomplete`.  The same holds from every state that is in
`fsm_socket_send_incomplete` or has `snbuf = 0`, and each dispatch that
returns leaves such a state. -/
theorem C17_assertion_holds (c : fsm_consts) (events : List event_t) (event : event_t)
    (s s' : fsm_state_t) (w w' : io_world) (sc sc' : script) (rc : Int) :
    dispatch_all c events fsm_state_t.new io_world.empty sc ≠ .error .assertion_failed ∧
    (snbuf_idle s → dispatch_all c events s w sc ≠ .error .assertion_failed) ∧
    (snbuf_idle s → do_transition c event s w sc = .ok (rc, s', w', sc') → snbuf_idle s') :=
  ⟨dispatch_all_no_assert c events _ _ _ (Or.inr rfl),
    dispatch_all_no_assert c events s w sc,
    fun hidle h => do_transition_idle hidle h⟩

/-- Witness for C17: the three dispatches of the C5 witness, in which the
Write Pump is called three times, do not stop with a failed assertion, and
the dispatch that parks the connection leaves a state that passes the
assertion. -/
theorem C17_assertion_holds_witness :
    dispatch_all demo close_events fsm_state_t.new io_world.empty close_script ≠
      .error .assertion_failed ∧ snbuf_idle parked :=
  ⟨(C17_assertion_holds demo close_events ev_read fsm_state_t.new parked io_world.empty
      parked_world close_script ⟨[], [], []⟩ 0).1,
    (C17_assertion_holds demo [] ev_read fsm_state_t.new parked io_world.empty parked_world
      partial_reply_script ⟨[], [], []⟩ 0).2.2 (Or.inr rfl) (by rfl)⟩

/-! C18: the Write Pump terminates -/

/-- The send loop under the precondition `writes_respect`: with at least as
many write results as bytes left it returns, after at most that many
writes. -/
theorem send_loop_terminates (b : buffer_t) (n : Nat) (hn : n ≤ b.data.length)
    (ws : List write_result) :
    ∀ (s : fsm_state_t) (w : io_world) (len : Int) (sz rem : Nat),
      s.buf = some b → s.snbuf + sz + rem = n → len - (sz : Int) = (rem : Int) → 1 ≤ rem →
      writes_respect rem ws → rem ≤ ws.length →
      ∃ (s' : fsm_state_t) (w' : io_world) (ws' : List write_result) (ks : List Nat),
        send_loop ws s w len sz = .ok (s', w', ws') ∧
        ks.length + 1 ≤ rem ∧ ws.length = ks.length + 1 + ws'.length ∧
        w'.log.length = w.log.length + (ks.length + 1) ∧
        ((ws = ks.map .accepted ++ .would_block :: ws' ∧
            s'.state = .fsm_socket_send_incomplete ∧ ks.sum < rem) ∨
          (∃ k, ws = ks.map .accepted ++ .accepted k :: ws' ∧
            s'.state = .fsm_socket_connected ∧ ks.sum + k = rem)) := by
  induction ws with
  | nil =>
    intro s w len sz rem _ _ _ h1 _ hlen
    simp only [List.length_nil] at hlen
    omega
  | cons r rs ih =>
    intro s w len sz rem hb hsum hlen h1 hres hfuel
    cases r with
    | would_block =>
      refine ⟨_, _, rs, [], send_loop_blocked rs s w len sz, by simpa using h1,
        by simp only [List.length_cons, List.length_nil]; omega,
        by simp [io_world.call], Or.inl ⟨rfl, rfl, by simpa using h1⟩⟩
    | error => simp [writes_respect] at hres
    | accepted k =>
      simp only [writes_respect] at hres
      obtain ⟨hk1, hk2, hnext⟩ := hres
      have hload := load_inside hb (s.snbuf + sz) k (by omega)
      by_cases hlt : k < rem
      · have hlt' : (k : Int) < len - (sz : Int) := by omega
        simp only [List.length_cons] at hfuel
        obtain ⟨s', w', ws', ks, hrun, hcount, hlen', hlog, hcase⟩ := ih
          { s with snbuf := s.snbuf + sz }
          ((w.call (.write (s.snbuf + sz) (len - (sz : Int)))).emit
            ((b.data.drop (s.snbuf + sz)).take k))
          (len - (sz : Int)) k (rem - k) hb (by simp only; omega) (by omega) (by omega)
          (hnext hlt) (by omega)
        refine ⟨s', w', ws', k :: ks, ?_, ?_, ?_, ?_, ?_⟩
        · rw [send_loop_short hload hlt', hrun]
        · simp only [List.length_cons]
          omega
        · simp only [List.length_cons]
          omega
        · rw [hlog]
          simp only [io_world.call, io_world.emit, List.length_append, List.length_cons,
            List.length_nil]
          omega
        · rcases hcase with ⟨h2, h3, h4⟩ | ⟨k', h2, h3, h4⟩
          · exact Or.inl ⟨by rw [h2]; rfl, h3, by simp only [List.sum_cons]; omega⟩
          · exact Or.inr ⟨k', by rw [h2]; rfl, h3, by simp only [List.sum_cons]; omega⟩
      · have hge : ¬ (k : Int) < len - (sz : Int) := by omega
        refine ⟨_, _, rs, [], send_loop_full hload hge, by simpa using h1,
          by simp only [List.length_cons, List.length_nil]; omega,
          by simp [io_world.call, io_world.emit], Or.inr ⟨k, rfl, rfl, by simp; omega⟩⟩

/-- C18.  The Write Pump is called with a buffer that holds the message,
`snbuf < nbuf`, and write results of which each one that is used is a
would-block or a count `k` with `1 ≤ k ≤ len`, `len` being the length asked
for.  With at least `nbuf - snbuf` write results in the script the call
returns; it makes `ks.length + 1 ≤ nbuf - snbuf` write calls; all writes but
the last took less than was asked (their counts `ks` add up to less than
`nbuf - snbuf`); and the last write either would block (the connection is
parked) or took exactly what was left (the send is complete). -/
theorem C18_write_pump_terminates (b : buffer_t) (s : fsm_state_t) (w : io_world)
    (ws : List write_result)
    (hb : s.buf = some b) (hn : s.nbuf ≤ b.data.length) (hlt : s.snbuf < s.nbuf)
    (ha : s.snbuf = 0 ∨ s.state = .fsm_socket_send_incomplete)
    (hres : writes_respect (s.nbuf - s.snbuf) ws) (hfuel : s.nbuf - s.snbuf ≤ ws.length) :
    ∃ (s' : fsm_state_t) (w' : io_world) (ws' : List write_result) (ks : List Nat),
      send_msg_to_client ws s w = .ok (s', w', ws') ∧
      ks.length + 1 ≤ s.nbuf - s.snbuf ∧ ws.length = ks.length + 1 + ws'.length ∧
      w'.log.length = w.log.length + (ks.length + 1) ∧
      ((ws = ks.map .accepted ++ .would_block :: ws' ∧
          s'.state = .fsm_socket_send_incomplete ∧ ks.sum < s.nbuf - s.snbuf) ∨
        (∃ k, ws = ks.map .accepted ++ .accepted k :: ws' ∧
          s'.state = .fsm_socket_connected ∧ ks.sum + k = s.nbuf - s.snbuf)) := by
  obtain ⟨s', w', ws', ks, hrun, h1, h2, h3, h4⟩ := send_loop_terminates b s.nbuf hn ws s w
    ((s.nbuf : Int) - (s.snbuf : Int)) 0 (s.nbuf - s.snbuf) hb (by omega) (by omega) (by omega)
    hres hfuel
  refine ⟨s', w', ws', ks, ?_, h1, h2, h3, h4⟩
  unfold send_msg_to_client
  rw [if_pos ha, hrun]

/-- Witness for C18: 3 bytes are left of the reply of C2; the socket takes 1
byte and then 2. -/
theorem C18_write_pump_terminates_witness :
    ∃ (s' : fsm_state_t) (w' : io_world) (ws' : List write_result) (ks : List Nat),
      send_msg_to_client [.accepted 1, .accepted 2, .would_block] parked parked_world =
        .ok (s', w', ws') ∧
      ks.length + 1 ≤ parked.nbuf - parked.snbuf ∧
      [write_result.accepted 1, .accepted 2, .would_block].length =
        ks.length + 1 + ws'.length ∧
      w'.log.length = parked_world.log.length + (ks.length + 1) ∧
      (([write_result.accepted 1, .accepted 2, .would_block] =
            ks.map .accepted ++ .would_block :: ws' ∧
          s'.state = .fsm_socket_send_incomplete ∧ ks.sum < parked.nbuf - parked.snbuf) ∨
        (∃ k, [write_result.accepted 1, .accepted 2, .would_block] =
            ks.map .accepted ++ .accepted k :: ws' ∧
          s'.state = .fsm_socket_connected ∧ ks.sum + k = parked.nbuf - parked.snbuf)) :=
  C18_write_pump_terminates value_buffer parked parked_world
    [.accepted 1, .accepted 2, .would_block] rfl (by decide) (by decide) (Or.inr rfl)
    (by simp [writes_respect, parked]) (by decide)

/-! C19: an incomplete command that fills the buffer -/

/-- The direct path.  The connection holds a buffer of `B = IO_BUFFER_SIZE` bytes; a
read delivers `chunk`, which fits, and the processor answers
`incomplete_command` with `nbuf = B`.  (1) At whatever iteration of the read
loop this happens, the state becomes `fsm_socket_recv_incomplete`, the next
read is made at offset `B` with length `B - B = 0`, and when it returns 0
the Read Pump returns `quit_connection`.  (2) So does `do_transition`, in
the states in which it runs the Read Pump (`fsm_socket_connected`,
`fsm_socket_recv_incomplete`).  (3) In every dispatch that returns, each
read was made with length `B - off` at its offset `off = nbuf`, so with
`nbuf ≤ B` it has a length of at least 0 and ends at the end of the
buffer. -/
theorem full_buffer_direct (c : fsm_consts) (event : event_t) (op : event_op_t)
    (s s0 s' : fsm_state_t) (b : buffer_t) (w w0 w' : io_world) (chunk rbuf : List Char)
    (rs : List read_result) (ws : List write_result) (cs : List command_reply)
    (sc sc' : script) (rc : Int)
    (hb : s.buf = some b) (hcap : b.data.length = c.IO_BUFFER_SIZE)
    (h0 : 0 < chunk.length)
    (hfit : s.nbuf + chunk.length ≤ c.IO_BUFFER_SIZE)
    (hr : rbuf.length ≤ c.IO_BUFFER_SIZE)
    (hrun : do_transition c event s0 w0 sc = .ok (rc, s', w', sc')) :
    (∃ b' seen,
      read_loop c (.data chunk :: .data [] :: rs) s w ws
          (⟨.incomplete_command, rbuf, c.IO_BUFFER_SIZE⟩ :: cs) =
        .ok (c.quit_connection,
          ⟨.fsm_socket_recv_incomplete, some b', c.IO_BUFFER_SIZE, s.snbuf⟩,
          ⟨w.log ++ [.read s.nbuf ((c.IO_BUFFER_SIZE : Int) - (s.nbuf : Int)),
            .process_command seen, .read c.IO_BUFFER_SIZE 0], w.sent, w.fresh⟩,
          ⟨rs, ws, cs⟩)) ∧
    (s.state ≠ .fsm_socket_send_incomplete →
      ∃ b' seen,
        do_transition c ⟨.et_sock, op⟩ s w
            ⟨.data chunk :: .data [] :: rs, ws,
              ⟨.incomplete_command, rbuf, c.IO_BUFFER_SIZE⟩ :: cs⟩ =
          .ok (c.quit_connection,
            ⟨.fsm_socket_recv_incomplete, some b', c.IO_BUFFER_SIZE, s.snbuf⟩,
            ⟨w.log ++ [.read s.nbuf ((c.IO_BUFFER_SIZE : Int) - (s.nbuf : Int)),
              .process_command seen, .read c.IO_BUFFER_SIZE 0], w.sent, w.fresh⟩,
            ⟨rs, ws, cs⟩)) ∧
    (∃ ext, w'.log = w0.log ++ ext ∧
      ∀ off len, io_call.read off len ∈ ext →
        len = (c.IO_BUFFER_SIZE : Int) - (off : Int) ∧
          (off ≤ c.IO_BUFFER_SIZE → 0 ≤ len ∧ (off : Int) + len = c.IO_BUFFER_SIZE)) := by
  have h1 := read_loop_incomplete c w chunk ⟨.incomplete_command, rbuf, c.IO_BUFFER_SIZE⟩
    (.data [] :: rs) ws cs hb h0 (by omega) (by simp only; omega) rfl
  refine ⟨?_, ?_, ?_⟩
  · refine ⟨⟨b.id, poke (poke b.data s.nbuf chunk) 0 rbuf⟩,
      (poke b.data s.nbuf chunk).take (min (s.nbuf + chunk.length) c.IO_BUFFER_SIZE), ?_⟩
    rw [h1]
    simp [read_loop, after_command_world, io_world.call]
  · intro hst
    refine ⟨⟨b.id, poke (poke b.data s.nbuf chunk) 0 rbuf⟩,
      (poke b.data s.nbuf chunk).take (min (s.nbuf + chunk.length) c.IO_BUFFER_SIZE), ?_⟩
    rw [do_transition_direct c op w _ hb hst]
    simp only
    rw [h1]
    simp [read_loop, after_command_world, io_world.call]
  · obtain ⟨ur, uw, ext, -, -, -, -, hlog, hreads⟩ := do_transition_outcome hrun
    refine ⟨ext, hlog, fun off len hm => ?_⟩
    have hlen := hreads off len hm
    refine ⟨hlen, fun hoff => ?_⟩
    omega

/-- C19 (code evaluated at the failing input).  In the 32-byte build, for any
result codes: a connection parked in `fsm_socket_send_incomplete` gets a
writable event and the socket takes the rest of the reply; the Read Pump
that `do_socket_send_incomplete` then runs reads 32 bytes, the processor
returns `incomplete_command` with `nbuf = 32`, the state becomes
`fsm_socket_recv_incomplete`, the next read is made at offset 32 with length
0 and returns 0.  The Read Pump returns `quit_connection`, but
`do_transition` returns the literal 0, which is `quit_connection` only in a
build where that enumerator is 0. -/
theorem C19_full_buffer_on_resumption (ok quit shut : Int) :
    do_socket_ready (build32 ok quit shut) ev_read drained drained_world
        ⟨[.data (List.replicate 32 'a'), .data []], [], [⟨.incomplete_command, [], 32⟩]⟩ =
      .ok (quit, ⟨.fsm_socket_recv_incomplete, some ⟨0, List.replicate 32 'a'⟩, 32, 0⟩,
        ⟨drained_world.log ++
          [.read 0 32, .process_command (List.replicate 32 'a'), .read 32 0],
          "VALUE".toList, 1⟩, ⟨[], [], []⟩) ∧
    do_transition (build32 ok quit shut) ev_write parked parked_world
        ⟨[.data (List.replicate 32 'a'), .data []], [.accepted 3],
          [⟨.incomplete_command, [], 32⟩]⟩ =
      .ok (0, ⟨.fsm_socket_recv_incomplete, some ⟨0, List.replicate 32 'a'⟩, 32, 0⟩,
        ⟨drained_world.log ++
          [.read 0 32, .process_command (List.replicate 32 'a'), .read 32 0],
          "VALUE".toList, 1⟩, ⟨[], [], []⟩) ∧
    ((build32 ok quit shut).quit_connection ≠ 0 →
      (do_transition (build32 ok quit shut) ev_write parked parked_world
          ⟨[.data (List.replicate 32 'a'), .data []], [.accepted 3],
            [⟨.incomplete_command, [], 32⟩]⟩).toOption.map (fun r => r.1) ≠
        some (build32 ok quit shut).quit_connection) := by
  refine ⟨by rfl, by rfl, ?_⟩
  intro hne heq
  have h0 : (do_transition (build32 ok quit shut) ev_write parked parked_world
      ⟨[.data (List.replicate 32 'a'), .data []], [.accepted 3],
        [⟨.incomplete_command, [], 32⟩]⟩).toOption.map (fun r => r.1) = some 0 := by rfl
  rw [h0] at heq
  simp only [Option.some.injEq] at heq
  exact hne heq.symm

/-! C20: a readable event while a send is pending -/

/-- C20.  A socket event with `op = eo_read` on a connection in
`fsm_socket_send_incomplete`: `do_transition` returns 0, and the connection,
the world (log of calls, bytes sent, allocator) and the script are what they
were; no read, write, processor call, `malloc` or `free` is made. -/
theorem C20_read_event_while_sending (c : fsm_consts) (buf : Option buffer_t) (n k : Nat)
    (w : io_world) (sc : script) :
    do_transition c ⟨.et_sock, .eo_read⟩ ⟨.fsm_socket_send_incomplete, buf, n, k⟩ w sc =
      .ok (0, ⟨.fsm_socket_send_incomplete, buf, n, k⟩, w, sc) := by
  simp [do_transition, do_socket_send_incomplete]

end Fsm
